import Mathlib

/-!
# Value comparison in chainblocks (`include/ops.hpp`)

A shallow embedding of `CBVar` and of the comparison operators `==`, `<`, `<=`
defined in `include/ops.hpp`, of the conversions of `Var` and of the builder `Chain` of
`include/chainblocks.hpp`, and of the mesh generators of `src/gfx/geom.cpp`, followed by
theorems about them.

Conventions of the embedding.

* A `CBVar` is a tagged union: the embedding has one constructor per value of
  `valueType`, carrying the payload fields that are valid for that tag.
* A pointer is a natural number (its address).  A value that points to memory
  carries, next to the address, the content stored there, because the operators
  compare both addresses and content.
* Integers are only ever compared by the operators, never computed with, so the
  integer payloads are unbounded `Int`/`Nat`.
* `double` and `float` payloads are IEEE 754 binary floating point numbers, see
  `CBFloat`.
* A `throw` is the `error` case of `Except`.
-/

namespace chainblocks

/-! ## Types of `chainblocks.h` used by `ops.hpp` -/

/-- The enumeration `CBType`, the tag of a `CBVar` (members as listed by `type2Name`). -/
inductive CBType where
  | EndOfBlittableTypes
  | None
  | Any
  | Object
  | Enum
  | Bool
  | Bytes
  | Int
  | Int2
  | Int3
  | Int4
  | Int8
  | Int16
  | Float
  | Float2
  | Float3
  | Float4
  | Color
  | Chain
  | Block
  | String
  | ContextVar
  | Path
  | Image
  | Seq
  | Table
  | Array
  deriving DecidableEq

/-- The enumeration `CBChainState`, stored in the payload of a `None` value. -/
inductive CBChainState where
  | Continue
  | Rebase
  | Restart
  | Return
  | Stop
  deriving DecidableEq

/-- The exceptions thrown by the operators: `chainblocks::InvalidVarTypeError` (by `<` and
`<=`), `std::runtime_error` (by `type2Name`) and `chainblocks::CBException` (by the casts of
`Var`), each with its message. -/
inductive CBError where
  | InvalidVarTypeError (msg : String)
  | runtime_error (msg : String)
  | CBException (msg : String)
  deriving DecidableEq

/-- Constants that `ops.hpp` takes from `chainblocks.h`, a header that is not part of the
sources at hand: the size in bytes of the payload union and the two bit-depth flags of an
image.  The operators are parameterised by them. -/
structure CBHeader where
  sizeofCBVarPayload : Nat
  CBIMAGE_FLAGS_16BITS_INT : Nat
  CBIMAGE_FLAGS_32BITS_FLOAT : Nat

/-! ## IEEE 754 binary floating point -/

/-- A binary floating point format: the number of significand bits and the largest exponent
(`53` and `1023` for `double`, `24` and `127` for `float`). -/
structure FloatFormat where
  prec : Nat
  emax : Int

/-- The format of `double`. -/
def binary64 : FloatFormat := ⟨53, 1023⟩

/-- The format of `float`. -/
def binary32 : FloatFormat := ⟨24, 127⟩

/-- A floating point datum: a NaN, an infinity with its sign, or the finite number
`(-1)^neg * m * 2^e`. -/
inductive CBFloat where
  | nan
  | inf (neg : Bool)
  | fin (neg : Bool) (m : Nat) (e : Int)
  deriving DecidableEq

namespace CBFloat

/-- Number of bits of `m`, by repeated halving; `fuel` bounds the number of halvings. -/
def bitLengthAux : Nat → Nat → Nat
  | 0, _ => 0
  | fuel + 1, m => if m = 0 then 0 else bitLengthAux fuel (m / 2) + 1

/-- Number of bits of a natural number (`0` for `0`). -/
def bitLength (m : Nat) : Nat := bitLengthAux m m

/-- The data of a format: the significand fits in `prec` bits, the exponent is not below the
exponent of the smallest subnormal and the magnitude is below `2^(emax+1)`. -/
def representable (fmt : FloatFormat) : CBFloat → Bool
  | nan => true
  | inf _ => true
  | fin _ m e =>
    decide (m < 2 ^ fmt.prec) && decide (2 - fmt.emax - fmt.prec ≤ e) &&
      decide (e + bitLength m ≤ fmt.emax + 1)

/-- The integer `(-1)^neg * m * 2^(e - e0)`, for an exponent `e0 ≤ e`. -/
def scaled (neg : Bool) (m : Nat) (e e0 : Int) : Int :=
  let k : Int := (m * 2 ^ (e - e0).toNat : Nat)
  if neg then -k else k

/-- Overflow check: the number `q * 2^e` if it is below `2^(emax+1)`, an infinity otherwise. -/
def finish (fmt : FloatFormat) (neg : Bool) (q : Nat) (e : Int) : CBFloat :=
  if fmt.emax + 1 < e + bitLength q then inf neg else fin neg q e

/-- Rounding of the exact number `(-1)^neg * M * 2^e` to the format, to nearest, ties to even.
The exponent `e` is not below the exponent of the smallest subnormal, so that only the
precision can force a rounding. -/
def roundNE (fmt : FloatFormat) (neg : Bool) (M : Nat) (e : Int) : CBFloat :=
  if bitLength M ≤ fmt.prec then finish fmt neg M e
  else
    let s := bitLength M - fmt.prec
    let q := M / 2 ^ s
    let r := M % 2 ^ s
    let half := 2 ^ (s - 1)
    let q1 := if half < r ∨ (r = half ∧ q % 2 = 1) then q + 1 else q
    finish fmt neg q1 (e + s)

/-- The subtraction `a - b` of the format, in the default rounding mode. -/
def fsub (fmt : FloatFormat) : CBFloat → CBFloat → CBFloat
  | nan, _ => nan
  | _, nan => nan
  | inf s, inf t => if s = t then nan else inf s
  | inf s, fin _ _ _ => inf s
  | fin _ _ _, inf t => inf (!t)
  | fin s m e, fin t n f =>
    let e0 := min e f
    let d := scaled s m e e0 - scaled t n f e0
    if d = 0 then fin (s && !t) 0 0 else roundNE fmt (decide (d < 0)) d.natAbs e0

/-- The function `__builtin_fabs`. -/
def fabs : CBFloat → CBFloat
  | nan => nan
  | inf _ => inf false
  | fin _ m e => fin false m e

/-- The comparison `a < b` of floating point numbers (false when either is a NaN). -/
def flt : CBFloat → CBFloat → Bool
  | nan, _ => false
  | _, nan => false
  | inf s, inf t => s && !t
  | inf s, fin _ _ _ => s
  | fin _ _ _, inf t => !t
  | fin s m e, fin t n f => decide (scaled s m e (min e f) < scaled t n f (min e f))

/-- The comparison `a <= b` of floating point numbers (false when either is a NaN). -/
def fle : CBFloat → CBFloat → Bool
  | nan, _ => false
  | _, nan => false
  | inf s, inf t => s || !t
  | inf s, fin _ _ _ => s
  | fin _ _ _, inf t => !t
  | fin s m e, fin t n f => decide (scaled s m e (min e f) ≤ scaled t n f (min e f))

end CBFloat

/-- The constant `FLT_EPSILON` of `<cfloat>`, `2^-23`. -/
def FLT_EPSILON : CBFloat := .fin false 1 (-23)

/-! ## `CBVar` -/

/-- The typedef `CBBool`. -/
abbrev CBBool := Bool

/-- The typedef `CBInt` (a 64 bit integer; the lanes of the integer vectors are narrower
integers, embedded in the same type). -/
abbrev CBInt := Int

/-- The typedef `CBString`, here the type of the keys of a table as the table compares them,
by content. -/
abbrev CBString := String

/-- The struct `CBColor`: four unsigned bytes. -/
structure CBColor where
  r : Nat
  g : Nat
  b : Nat
  a : Nat
  deriving DecidableEq

/-- The struct `CBImage`; `data` is the address of the pixel buffer and `mem` the bytes stored
there. -/
structure CBImage where
  width : Nat
  height : Nat
  channels : Nat
  flags : Nat
  data : Nat
  mem : List Nat
  deriving DecidableEq

/-- The struct `CBVar`, one constructor per `valueType`.

* `None` carries the `chainState` of its payload.
* The vector kinds carry their lanes, in index order.
* The text kinds carry the pointer `stringValue`, the field `stringLen` and the bytes `mem`
  stored at the pointer.
* `Bytes` carries the pointer `bytesValue` and the `bytesSize` bytes stored there.
* `Seq` carries the pointer `seqValue.elements` and the `seqValue.len` elements stored there.
* `Table` carries the handle of `tableValue` (its field named opaque in the header) and the
  entries that its iterator yields, in the order of the iteration.
* `Array` carries the field `innerType` of the value, the pointer `arrayValue.elements`, the
  field `arrayValue.len` and the bytes `mem` stored at the pointer. -/
inductive CBVar where
  | None (chainState : CBChainState)
  | Any
  | EndOfBlittableTypes
  | Object (objectValue : Nat) (objectVendorId objectTypeId : Int)
  | Enum (enumValue : Int) (enumVendorId enumTypeId : Int)
  | Bool (boolValue : CBBool)
  | Int (intValue : CBInt)
  | Int2 (int2Value : Fin 2 → CBInt)
  | Int3 (int3Value : Fin 3 → CBInt)
  | Int4 (int4Value : Fin 4 → CBInt)
  | Int8 (int8Value : Fin 8 → CBInt)
  | Int16 (int16Value : Fin 16 → CBInt)
  | Float (floatValue : CBFloat)
  | Float2 (float2Value : Fin 2 → CBFloat)
  | Float3 (float3Value : Fin 3 → CBFloat)
  | Float4 (float4Value : Fin 4 → CBFloat)
  | Color (colorValue : CBColor)
  | Chain (chainValue : Nat)
  | Block (blockValue : Nat)
  | String (stringValue : Nat) (stringLen : Nat) (mem : List Nat)
  | Path (stringValue : Nat) (stringLen : Nat) (mem : List Nat)
  | ContextVar (stringValue : Nat) (stringLen : Nat) (mem : List Nat)
  | Image (imageValue : CBImage)
  | Seq (elements : Nat) (items : List CBVar)
  | Table (handle : Nat) (entries : List (CBString × CBVar))
  | Bytes (bytesValue : Nat) (bytes : List Nat)
  | Array (innerType : CBType) (elements : Nat) (len : Nat) (mem : List Nat)

/-! ## Helpers of the C and C++ runtime -/

/-- The function `memcmp` on the first `n` bytes of two buffers, bytes compared as unsigned
numbers: negative, zero or positive.  The lists hold the bytes of the two buffers; the
program only calls `memcmp` with `n` bytes in bounds, and past the end of a list the function
compares the buffers by what is left of them. -/
def memcmp : List Nat → List Nat → Nat → Int
  | _, _, 0 => 0
  | x :: xs, y :: ys, n + 1 => if x < y then -1 else if y < x then 1 else memcmp xs ys n
  | [], [], _ + 1 => 0
  | [], _ :: _, _ + 1 => -1
  | _ :: _, [], _ + 1 => 1

/-- The constructor `std::string_view(ptr, len)`: the first `len` bytes at the pointer. -/
def string_view_n (mem : List Nat) (len : Nat) : List Nat := mem.take len

/-- The constructor `std::string_view(ptr)`: the bytes before the first NUL. -/
def string_view_z (mem : List Nat) : List Nat := mem.takeWhile (fun c => c != 0)

/-- The member `std::string_view::compare`: `memcmp` over the shorter length, then the
lengths. -/
def string_view_compare (x y : List Nat) : Int :=
  let rlen := min x.length y.length
  let ret := memcmp x y rlen
  if ret = 0 then
    if x.length < y.length then -1 else if y.length < x.length then 1 else 0
  else ret

/-- The operator `==` of `std::string_view`. -/
def string_view_eq (x y : List Nat) : Bool :=
  x.length == y.length && memcmp x y x.length == 0

/-- The operator `<` of `std::string_view`. -/
def string_view_lt (x y : List Nat) : Bool := decide (string_view_compare x y < 0)

/-- The operator `<=` of `std::string_view`. -/
def string_view_le (x y : List Nat) : Bool := decide (string_view_compare x y ≤ 0)

/-- A loop `for (auto i = 0; i < n; i++)` whose body may return: the value returned by the
first lane whose body returns, `final` when no body does.  The argument `k` counts the lanes
that remain, the loop starts with `k = n`. -/
def forLanes {n : Nat} (body : Fin n → Option Bool) (final : Bool) : (k : Nat) → k ≤ n → Bool
  | 0, _ => final
  | k + 1, h =>
    match body ⟨n - (k + 1), by omega⟩ with
    | some r => r
    | none => forLanes body final k (Nat.le_of_succ_le h)

/-- The loop `for (auto i = 0; i < n; i++) if (vec[i] == 0) return false; return true;` that
follows each lane-wise comparison in `operator==`. -/
def allLanes {n : Nat} (vec : Fin n → Int) : Bool :=
  forLanes (fun i => if vec i = 0 then some false else none) true n (Nat.le_refl n)

/-- The lane-wise comparison `a == b` of two integer vectors: `-1` in the lanes that are
equal, `0` in the others. -/
def vecEq {n : Nat} (a b : Fin n → CBInt) : Fin n → Int :=
  fun i => if a i = b i then -1 else 0

/-- The lane-wise test of `operator==` on float vectors: `diff = a - b`, each lane replaced by
its `__builtin_fabs`, then `diff <= vepsi` with `FLT_EPSILON` in every lane. -/
def vecFloatEq (fmt : FloatFormat) {n : Nat} (a b : Fin n → CBFloat) : Fin n → Int :=
  fun i => if CBFloat.fle (CBFloat.fabs (CBFloat.fsub fmt (a i) (b i))) FLT_EPSILON then -1 else 0

/-- The comparison `<` of two integer lanes. -/
def intLess (u v : CBInt) : Bool := decide (u < v)

/-- The macro `CBVECTOR_CMP(_a_, _b_, _s_, _final_)`; `lt` is the comparison `<` of the lanes
and `_a_[i] > _b_[i]` is `_b_[i] < _a_[i]`. -/
def CBVECTOR_CMP {α : Type} (lt : α → α → Bool) {n : Nat} (a b : Fin n → α) (final : Bool) :
    Bool :=
  forLanes (fun i => if lt (a i) (b i) then some true else if lt (b i) (a i) then some false
    else none) final n (Nat.le_refl n)

/-! ## The table interface -/

/-- Modelled from the spec: the operation `tableSize` of the table interface, whose
implementations are not part of the sources at hand.  A table is the list of the entries that
its iterator yields; its size is their number. -/
def tableSize {α : Type} (t : List (CBString × α)) : Nat := t.length

/-- Modelled from the spec: the operation `tableContains` of the table interface: the key is
the key of an entry. -/
def tableContains {α : Type} (t : List (CBString × α)) (k : CBString) : Bool := t.any (fun e => e.1 == k)

/-- Modelled from the spec: the operation `tableAt` of the table interface: the value of the
entry with the key (called only for a key that the table contains). -/
def tableAt {α : Type} (t : List (CBString × α)) (k : CBString) : Option α :=
  (t.find? (fun e => e.1 == k)).map (fun e => e.2)

/-! ## `ops.hpp` -/

/-- The field `valueType` of a `CBVar`. -/
def CBVar.valueType : CBVar → CBType
  | .None _ => .None
  | .Any => .Any
  | .EndOfBlittableTypes => .EndOfBlittableTypes
  | .Object _ _ _ => .Object
  | .Enum _ _ _ => .Enum
  | .Bool _ => .Bool
  | .Int _ => .Int
  | .Int2 _ => .Int2
  | .Int3 _ => .Int3
  | .Int4 _ => .Int4
  | .Int8 _ => .Int8
  | .Int16 _ => .Int16
  | .Float _ => .Float
  | .Float2 _ => .Float2
  | .Float3 _ => .Float3
  | .Float4 _ => .Float4
  | .Color _ => .Color
  | .Chain _ => .Chain
  | .Block _ => .Block
  | .String _ _ _ => .String
  | .Path _ _ _ => .Path
  | .ContextVar _ _ _ => .ContextVar
  | .Image _ => .Image
  | .Seq _ _ => .Seq
  | .Table _ _ => .Table
  | .Bytes _ _ => .Bytes
  | .Array _ _ _ _ => .Array

/-- The function `type2Name`. -/
def type2Name : CBType → Except CBError String
  | .EndOfBlittableTypes => .error (.runtime_error "EndOfBlittableTypes is an invalid type")
  | .None => .ok "None"
  | .Any => .ok "Any"
  | .Object => .ok "Object"
  | .Enum => .ok "Enum"
  | .Bool => .ok "Bool"
  | .Bytes => .ok "Bytes"
  | .Int => .ok "Int"
  | .Int2 => .ok "Int2"
  | .Int3 => .ok "Int3"
  | .Int4 => .ok "Int4"
  | .Int8 => .ok "Int8"
  | .Int16 => .ok "Int16"
  | .Float => .ok "Float"
  | .Float2 => .ok "Float2"
  | .Float3 => .ok "Float3"
  | .Float4 => .ok "Float4"
  | .Color => .ok "Color"
  | .Chain => .ok "Chain"
  | .Block => .ok "Block"
  | .String => .ok "String"
  | .ContextVar => .ok "ContextVar"
  | .Path => .ok "Path"
  | .Image => .ok "Image"
  | .Seq => .ok "Seq"
  | .Table => .ok "Table"
  | .Array => .ok "Array"

/-- The view that the operators take of a text value: `std::string_view(stringValue,
stringLen)` when `stringLen > 0`, `std::string_view(stringValue)` otherwise. -/
def textView (stringLen : Nat) (mem : List Nat) : List Nat :=
  if stringLen > 0 then string_view_n mem stringLen else string_view_z mem

/-- The text case of `operator==` (`Path`, `ContextVar` and `String` share it). -/
def textEq (pa la : Nat) (ma : List Nat) (pb lb : Nat) (mb : List Nat) : Bool :=
  if pa = pb then true
  else
    let astr := textView la ma
    let bstr := textView lb mb
    string_view_eq astr bstr

/-- The pixel size computed by the `Image` case of `operator==` from the flags of an image. -/
def pixsize (H : CBHeader) (flags : Nat) : Nat :=
  if flags &&& H.CBIMAGE_FLAGS_16BITS_INT = H.CBIMAGE_FLAGS_16BITS_INT then 2
  else if flags &&& H.CBIMAGE_FLAGS_32BITS_FLOAT = H.CBIMAGE_FLAGS_32BITS_FLOAT then 4
  else 1

/-- The cases of the `switch` of `operator==` other than `Seq` and `Table`, for two values of
the same `valueType`.  The lanes of `Float2` are `double` numbers like the payload of `Float`,
the lanes of `Float3` and `Float4` are `float` numbers (the vector types are declared in
`chainblocks.h`; no statement below depends on the format). -/
def opEqPlain (H : CBHeader) (a b : CBVar) : Bool :=
  match a, b with
  | .None _, .None _ => true
  | .Any, .Any => true
  | .EndOfBlittableTypes, .EndOfBlittableTypes => true
  | .Object va ida ita, .Object vb idb itb => ida == idb && ita == itb && va == vb
  | .Enum va ida ita, .Enum vb idb itb => ida == idb && ita == itb && va == vb
  | .Bool x, .Bool y => x == y
  | .Int x, .Int y => x == y
  | .Float x, .Float y =>
    CBFloat.fle (CBFloat.fabs (CBFloat.fsub binary64 x y)) FLT_EPSILON
  | .Int2 x, .Int2 y => allLanes (vecEq x y)
  | .Int3 x, .Int3 y => allLanes (vecEq x y)
  | .Int4 x, .Int4 y => allLanes (vecEq x y)
  | .Int8 x, .Int8 y => allLanes (vecEq x y)
  | .Int16 x, .Int16 y => allLanes (vecEq x y)
  | .Float2 x, .Float2 y => allLanes (vecFloatEq binary64 x y)
  | .Float3 x, .Float3 y => allLanes (vecFloatEq binary32 x y)
  | .Float4 x, .Float4 y => allLanes (vecFloatEq binary32 x y)
  | .Color x, .Color y => x.r == y.r && x.g == y.g && x.b == y.b && x.a == y.a
  | .Chain x, .Chain y => x == y
  | .Block x, .Block y => x == y
  | .Path pa la ma, .Path pb lb mb => textEq pa la ma pb lb mb
  | .ContextVar pa la ma, .ContextVar pb lb mb => textEq pa la ma pb lb mb
  | .String pa la ma, .String pb lb mb => textEq pa la ma pb lb mb
  | .Image x, .Image y =>
    let apixsize := pixsize H x.flags
    let bpixsize := pixsize H y.flags
    apixsize == bpixsize && x.channels == y.channels && x.width == y.width &&
      x.height == y.height &&
      (x.data == y.data ||
        memcmp x.mem y.mem (x.channels * x.width * x.height * apixsize) == 0)
  | .Bytes pa xs, .Bytes pb ys =>
    xs.length == ys.length && (pa == pb || memcmp xs ys xs.length == 0)
  | .Array ia pa la ma, .Array ib pb lb mb =>
    la == lb && ia == ib &&
      (pa == pb || memcmp ma mb (la * H.sizeofCBVarPayload) == 0)
  | _, _ => false

mutual

/-- The operator `==` on `CBVar`. -/
def opEq (H : CBHeader) : CBVar → CBVar → Bool
  | a, b =>
    if a.valueType ≠ b.valueType then false
    else
      match a, b with
      | .Seq pa xs, .Seq pb ys =>
        -- `_seqEq`
        if pa = pb then true
        else if xs.length ≠ ys.length then false
        else seqEqLoop H xs ys
      | .Table ha ta, .Table hb tb =>
        -- `_tableEq`
        if ha = hb then true
        else if tableSize ta ≠ tableSize tb then false
        else tableEqLoop H ta tb
      | a, b => opEqPlain H a b

/-- The loop of `_seqEq`, on the elements of `a` and of `b` from the current index on. -/
def seqEqLoop (H : CBHeader) : List CBVar → List CBVar → Bool
  | [], _ => true
  | suba :: as, subb :: bs => if !(opEq H suba subb) then false else seqEqLoop H as bs
  | _ :: _, [] => false

/-- The loop of `_tableEq`, on the entries that the iterator of `a` still yields. -/
def tableEqLoop (H : CBHeader) : List (CBString × CBVar) → List (CBString × CBVar) → Bool
  | [], _ => true
  | (k, v) :: rest, tb =>
    if !(tableContains tb k) then false
    else
      match tableAt tb k with
      | none => false
      | some bval => if !(opEq H v bval) then false else tableEqLoop H rest tb

end

/-- The operator `!=` on `CBVar`. -/
def opNe (H : CBHeader) (a b : CBVar) : Bool := !(opEq H a b)

/-- The body of `cmp`, given the results of `a == b` and of `a < b`: `0` when `a == b`,
otherwise `-1` when `a < b` and `1` when not; `a < b` is only consulted (and its exception
only propagates) when `a == b` is false. -/
def cmpOf (eq : Bool) (lt : Except CBError Bool) : Except CBError Int :=
  if eq then .ok 0
  else
    match lt with
    | .error e => .error e
    | .ok true => .ok (-1)
    | .ok false => .ok 1

/-- The text case of `operator<`. -/
def textLess (pa la : Nat) (ma : List Nat) (pb lb : Nat) (mb : List Nat) : Bool :=
  if pa = pb then false
  else
    let astr := textView la ma
    let bstr := textView lb mb
    string_view_lt astr bstr

/-- The text case of `operator<=`. -/
def textLessEq (pa la : Nat) (ma : List Nat) (pb lb : Nat) (mb : List Nat) : Bool :=
  if pa = pb then true
  else
    let astr := textView la ma
    let bstr := textView lb mb
    string_view_le astr bstr

/-- The cases of the `switch` of `operator<` other than `Seq` and `Table`, for two values of
the same `valueType`; the last case is the `default` of the `switch`. -/
def opLtPlain (H : CBHeader) (a b : CBVar) : Except CBError Bool :=
  match a, b with
  | .Enum va ida ita, .Enum vb idb itb =>
    if ida ≠ idb ∨ ita ≠ itb then
      .error (.InvalidVarTypeError
        "Comparison < between two different kind of enums (vendor/type)")
    else .ok (decide (va < vb))
  | .Bool x, .Bool y => .ok (!x && y)
  | .Int x, .Int y => .ok (decide (x < y))
  | .Float x, .Float y => .ok (CBFloat.flt x y)
  | .Int2 x, .Int2 y => .ok (CBVECTOR_CMP intLess x y false)
  | .Int3 x, .Int3 y => .ok (CBVECTOR_CMP intLess x y false)
  | .Int4 x, .Int4 y => .ok (CBVECTOR_CMP intLess x y false)
  | .Int8 x, .Int8 y => .ok (CBVECTOR_CMP intLess x y false)
  | .Int16 x, .Int16 y => .ok (CBVECTOR_CMP intLess x y false)
  | .Float2 x, .Float2 y => .ok (CBVECTOR_CMP CBFloat.flt x y false)
  | .Float3 x, .Float3 y => .ok (CBVECTOR_CMP CBFloat.flt x y false)
  | .Float4 x, .Float4 y => .ok (CBVECTOR_CMP CBFloat.flt x y false)
  | .Color x, .Color y =>
    .ok (decide (x.r < y.r) || decide (x.g < y.g) || decide (x.b < y.b) ||
      decide (x.a < y.a))
  | .Path pa la ma, .Path pb lb mb => .ok (textLess pa la ma pb lb mb)
  | .ContextVar pa la ma, .ContextVar pb lb mb => .ok (textLess pa la ma pb lb mb)
  | .String pa la ma, .String pb lb mb => .ok (textLess pa la ma pb lb mb)
  | .Bytes pa xs, .Bytes pb ys =>
    if pa = pb ∧ xs.length = ys.length then .ok false
    else .ok (string_view_lt xs ys)
  | .Array _ pa la ma, .Array _ pb lb mb =>
    if pa = pb ∧ la = lb then .ok false
    else
      .ok (string_view_lt (string_view_n ma (la * H.sizeofCBVarPayload))
        (string_view_n mb (lb * H.sizeofCBVarPayload)))
  | a, _ =>
    match type2Name a.valueType with
    | .error e => .error e
    | .ok name =>
      .error (.InvalidVarTypeError
        ("Comparison operator < not supported for the given type: " ++ name))

mutual

/-- The operator `<` on `CBVar`. -/
def opLt (H : CBHeader) : CBVar → CBVar → Except CBError Bool
  | a, b =>
    if a.valueType ≠ b.valueType then
      .error (.InvalidVarTypeError "Comparison < between two different value types")
    else
      match a, b with
      | .Seq _ xs, .Seq _ ys =>
        -- `_seqLess`
        seqLessLoop H xs ys (decide (xs.length < ys.length))
      | .Table ha ta, .Table hb tb =>
        -- `_tableLess`
        if ha = hb then .ok false
        else if tableSize ta ≠ tableSize tb then .ok false
        else tableLessLoop H ta tb 0 (tableSize ta)
      | a, b => opLtPlain H a b

/-- The loop of `_seqLess`, on the elements of `a` and of `b` from the current index on; the
loop ends at the shorter length and the result is then `final`, the test `alen < blen`. -/
def seqLessLoop (H : CBHeader) : List CBVar → List CBVar → Bool → Except CBError Bool
  | suba :: as, subb :: bs, final =>
    match cmpOf (opEq H suba subb) (opLt H suba subb) with
    | .error e => .error e
    | .ok c =>
      if c < 0 then .ok true
      else if c > 0 then .ok false
      else seqLessLoop H as bs final
  | [], _, final => .ok final
  | _ :: _, [], final => .ok final

/-- The loop of `_tableLess`, on the entries that the iterator of `a` still yields; `len`
counts the entries compared so far and `size` is the size of `a`. -/
def tableLessLoop (H : CBHeader) :
    List (CBString × CBVar) → List (CBString × CBVar) → Nat → Nat → Except CBError Bool
  | [], _, len, size => .ok (decide (size < len))
  | (k, v) :: rest, tb, len, size =>
    if !(tableContains tb k) then .ok false
    else
      match tableAt tb k with
      | none => .ok false
      | some bval =>
        match cmpOf (opEq H v bval) (opLt H v bval) with
        | .error e => .error e
        | .ok c =>
          if c < 0 then .ok true
          else if c > 0 then .ok false
          else tableLessLoop H rest tb (len + 1) size

end

/-- The function `cmp`. -/
def cmp (H : CBHeader) (a b : CBVar) : Except CBError Int :=
  cmpOf (opEq H a b) (opLt H a b)

/-- The loop of `_seqLessEq`; `final` is the test `alen <= blen`. -/
def seqLessEqLoop (H : CBHeader) : List CBVar → List CBVar → Bool → Except CBError Bool
  | suba :: as, subb :: bs, final =>
    match cmp H suba subb with
    | .error e => .error e
    | .ok c =>
      if c < 0 then .ok true
      else if c > 0 then .ok false
      else seqLessEqLoop H as bs final
  | [], _, final => .ok final
  | _ :: _, [], final => .ok final

/-- The loop of `_tableLessEq`; `len` counts the entries compared so far and `size` is the
size of `a`. -/
def tableLessEqLoop (H : CBHeader) :
    List (CBString × CBVar) → List (CBString × CBVar) → Nat → Nat → Except CBError Bool
  | [], _, len, size => .ok (decide (size ≤ len))
  | (k, v) :: rest, tb, len, size =>
    if !(tableContains tb k) then .ok false
    else
      match tableAt tb k with
      | none => .ok false
      | some bval =>
        match cmp H v bval with
        | .error e => .error e
        | .ok c =>
          if c < 0 then .ok true
          else if c > 0 then .ok false
          else tableLessEqLoop H rest tb (len + 1) size

/-- The operator `<=` on `CBVar`. -/
def opLe (H : CBHeader) (a b : CBVar) : Except CBError Bool :=
  if a.valueType ≠ b.valueType then
    .error (.InvalidVarTypeError "Comparison <= between two different value types")
  else
    match a, b with
    | .Enum va ida ita, .Enum vb idb itb =>
      if ida ≠ idb ∨ ita ≠ itb then
        .error (.InvalidVarTypeError
          "Comparison <= between two different kind of enums (vendor/type)")
      else .ok (decide (va ≤ vb))
    | .Bool x, .Bool y => .ok (!x || y)
    | .Int x, .Int y => .ok (decide (x ≤ y))
    | .Float x, .Float y => .ok (CBFloat.fle x y)
    | .Int2 x, .Int2 y => .ok (CBVECTOR_CMP intLess x y true)
    | .Int3 x, .Int3 y => .ok (CBVECTOR_CMP intLess x y true)
    | .Int4 x, .Int4 y => .ok (CBVECTOR_CMP intLess x y true)
    | .Int8 x, .Int8 y => .ok (CBVECTOR_CMP intLess x y true)
    | .Int16 x, .Int16 y => .ok (CBVECTOR_CMP intLess x y true)
    | .Float2 x, .Float2 y => .ok (CBVECTOR_CMP CBFloat.flt x y true)
    | .Float3 x, .Float3 y => .ok (CBVECTOR_CMP CBFloat.flt x y true)
    | .Float4 x, .Float4 y => .ok (CBVECTOR_CMP CBFloat.flt x y true)
    | .Color x, .Color y =>
      .ok (decide (x.r ≤ y.r) && decide (x.g ≤ y.g) && decide (x.b ≤ y.b) &&
        decide (x.a ≤ y.a))
    | .Path pa la ma, .Path pb lb mb => .ok (textLessEq pa la ma pb lb mb)
    | .ContextVar pa la ma, .ContextVar pb lb mb => .ok (textLessEq pa la ma pb lb mb)
    | .String pa la ma, .String pb lb mb => .ok (textLessEq pa la ma pb lb mb)
    | .Seq _ xs, .Seq _ ys =>
      -- `_seqLessEq`
      seqLessEqLoop H xs ys (decide (xs.length ≤ ys.length))
    | .Table ha ta, .Table hb tb =>
      -- `_tableLessEq`
      if ha = hb then .ok false
      else if tableSize ta ≠ tableSize tb then .ok false
      else tableLessEqLoop H ta tb 0 (tableSize ta)
    | .Bytes pa xs, .Bytes pb ys =>
      if pa = pb ∧ xs.length = ys.length then .ok true
      else .ok (string_view_le xs ys)
    | .Array _ pa la ma, .Array _ pb lb mb =>
      if pa = pb ∧ la = lb then .ok true
      else
        .ok (string_view_le (string_view_n ma (la * H.sizeofCBVarPayload))
          (string_view_n mb (lb * H.sizeofCBVarPayload)))
    | a, _ =>
      match type2Name a.valueType with
      | .error e => .error e
      | .ok name =>
        .error (.InvalidVarTypeError
          ("Comparison operator <= not supported for the given type: " ++ name))

/-- The operator `>` on `CBVar`. -/
def opGt (H : CBHeader) (a b : CBVar) : Except CBError Bool := opLt H b a

/-- The operator `>=` on `CBVar`. -/
def opGe (H : CBHeader) (a b : CBVar) : Except CBError Bool := opLe H b a

/-- A header for examples: a payload of 16 bytes, the flags of the bit depths `1 << 2` and
`1 << 3`. -/
def exampleHeader : CBHeader := ⟨16, 4, 8⟩

/-! ## Vocabulary of the statements -/

/-- Lexicographic order on the lanes: some lane `i` has `a[i] < b[i]`, and every lane `j`
before it has `a[j]` neither less nor greater than `b[j]`. -/
def LaneLess {α : Type} (lt : α → α → Bool) {n : Nat} (a b : Fin n → α) : Prop :=
  ∃ i, lt (a i) (b i) = true ∧ ∀ j, j < i → lt (a j) (b j) = false ∧ lt (b j) (a j) = false

/-- No lane differs: every lane of `a` is neither less nor greater than the lane of `b`. -/
def NoLaneDiffers {α : Type} (lt : α → α → Bool) {n : Nat} (a b : Fin n → α) : Prop :=
  ∀ i, lt (a i) (b i) = false ∧ lt (b i) (a i) = false

/-- What C5 says of two values `va`, `vb` of a vector kind with lanes `a`, `b`: `va < vb`
returns a boolean, which is true iff `a` is lexicographically less than `b`; and when no lane
differs `va < vb` is false and `va <= vb` is true. -/
def VectorOrderSpec (H : CBHeader) {α : Type} (lt : α → α → Bool) {n : Nat}
    (a b : Fin n → α) (va vb : CBVar) : Prop :=
  (∃ r, opLt H va vb = .ok r ∧ (r = true ↔ LaneLess lt a b)) ∧
    (NoLaneDiffers lt a b → opLt H va vb = .ok false ∧ opLe H va vb = .ok true)

/-- The kinds whose values the operators `<` and `<=` refuse to order. -/
def unorderedKinds : List CBType := [.None, .Any, .Object, .Image, .Block, .Chain]

/-- Both values are `Enum` values and their vendor ids or their type ids differ. -/
def EnumIdsDiffer (a b : CBVar) : Prop :=
  ∃ va ida ita vb idb itb, a = .Enum va ida ita ∧ b = .Enum vb idb itb ∧
    (ida ≠ idb ∨ ita ≠ itb)

/-- The rational number `(-1)^neg * m * 2^e` that a finite floating point datum stands for. -/
def CBFloat.value (neg : Bool) (m : Nat) (e : Int) : ℚ :=
  (if neg then -1 else 1) * (m : ℚ) * (2 : ℚ) ^ e

/-- The byte sequence of a text value as C9 defines it: its first `stringLen` bytes when
`stringLen > 0`, otherwise the bytes before the first NUL. -/
def textBytes (stringLen : Nat) (mem : List Nat) : List Nat :=
  if 0 < stringLen then mem.take stringLen else mem.takeWhile (fun c => decide (c ≠ 0))

/-- What C9 says of a text kind with constructor `mk`: `a == b` is true iff the pointers are
identical or the byte sequences are equal; `a < b` returns a boolean, true iff the pointers
differ and the byte sequence of `a` is lexicographically less than that of `b`; and a
length-tagged text and a null-terminated text that hold the same bytes `s` compare equal. -/
def TextOrderSpec (H : CBHeader) (mk : Nat → Nat → List Nat → CBVar) : Prop :=
  (∀ pa la ma pb lb mb,
    (opEq H (mk pa la ma) (mk pb lb mb) = true ↔
      pa = pb ∨ textBytes la ma = textBytes lb mb) ∧
    ∃ r, opLt H (mk pa la ma) (mk pb lb mb) = .ok r ∧
      (r = true ↔ pa ≠ pb ∧ List.Lex (· < ·) (textBytes la ma) (textBytes lb mb))) ∧
  (∀ (s r1 r2 : List Nat) (pa pb : Nat), s ≠ [] → 0 ∉ s →
    opEq H (mk pa s.length (s ++ r1)) (mk pb 0 (s ++ 0 :: r2)) = true)

/-- The kinds of C4. -/
def trichotomousKinds : List CBType :=
  [.Int, .Int2, .Int3, .Int4, .Int8, .Int16, .String, .Path, .ContextVar, .Bytes]

/-- Exactly one of three propositions holds. -/
def ExactlyOne (p q r : Prop) : Prop :=
  (p ∧ ¬q ∧ ¬r) ∨ (¬p ∧ q ∧ ¬r) ∨ (¬p ∧ ¬q ∧ r)

mutual

/-- Every table inside the value (the value itself, an element of a sequence, a value of a
table, at any depth) has an iterator that yields pairwise distinct keys. -/
def CBVar.distinctKeys : CBVar → Bool
  | .Seq _ items => distinctKeysSeq items
  | .Table _ entries => decide ((entries.map Prod.fst).Nodup) && distinctKeysTable entries
  | _ => true

/-- The elements of a sequence all have distinct keys. -/
def distinctKeysSeq : List CBVar → Bool
  | [] => true
  | x :: xs => x.distinctKeys && distinctKeysSeq xs

/-- The values of a table all have distinct keys. -/
def distinctKeysTable : List (CBString × CBVar) → Bool
  | [] => true
  | (_, v) :: rest => v.distinctKeys && distinctKeysTable rest

end

/-- The elements of `a` and `b` agree: no index below both lengths has `a[i] == b[i]` false. -/
def SeqAgree (H : CBHeader) (xs ys : List CBVar) : Prop :=
  ∀ (i : Nat) (x y : CBVar), xs[i]? = some x → ys[i]? = some y → opEq H x y = true

/-- Index `i`, with the elements `x` of `a` and `y` of `b` there, is the first index below
both lengths at which `a[i] == b[i]` is false. -/
def FirstUnequal (H : CBHeader) (xs ys : List CBVar) (i : Nat) (x y : CBVar) : Prop :=
  xs[i]? = some x ∧ ys[i]? = some y ∧ opEq H x y = false ∧
    ∀ (j : Nat) (u v : CBVar), j < i → xs[j]? = some u → ys[j]? = some v → opEq H u v = true

/-- The order on sequences as C12 states it: at the first index where `a[i] == b[i]` is
false, `a[i] < b[i]` is true; or there is no such index and `a` is strictly shorter. -/
def SeqLessSpec (H : CBHeader) (xs ys : List CBVar) : Prop :=
  (∃ i x y, FirstUnequal H xs ys i x y ∧ opLt H x y = .ok true) ∨
    (SeqAgree H xs ys ∧ xs.length < ys.length)

/-- The number of bytes of the pixel buffer that the `Image` case of `operator==` compares. -/
def imageBytes (H : CBHeader) (x : CBImage) : Nat :=
  x.channels * x.width * x.height * pixsize H x.flags

/-- The four dimensions of two images agree: pixel byte-width, channels, width, height. -/
def ImageDimsAgree (H : CBHeader) (x y : CBImage) : Prop :=
  pixsize H x.flags = pixsize H y.flags ∧ x.channels = y.channels ∧ x.width = y.width ∧
    x.height = y.height

/-! ## `CBTypeInfo` and `CBExposedTypeInfo` -/

/-- The struct `CBTypeInfo`: the tag `basicType` and the members of its union.  The members
`object` and `enumeration` of the union are the same pair of integers, `vendorId` and
`typeId`.  A nullable array (`seqTypes`, `table.keys`, `table.types`) is `none` when its
`elements` pointer is null and otherwise the list of its `len` elements.  The members that the
tag does not select are never read by the operators. -/
inductive CBTypeInfo where
  | mk (basicType : CBType) (vendorId typeId : Int)
      (seqTypes : Option (List CBTypeInfo))
      (tableKeys : Option (List CBString)) (tableTypes : Option (List CBTypeInfo))

namespace CBTypeInfo

/-- The field `basicType`. -/
def basicType : CBTypeInfo → CBType
  | mk bt _ _ _ _ _ => bt

/-- The field `object.vendorId`, which is also `enumeration.vendorId`. -/
def vendorId : CBTypeInfo → Int
  | mk _ v _ _ _ _ => v

/-- The field `object.typeId`, which is also `enumeration.typeId`. -/
def typeId : CBTypeInfo → Int
  | mk _ _ t _ _ _ => t

/-- The field `seqTypes`. -/
def seqTypes : CBTypeInfo → Option (List CBTypeInfo)
  | mk _ _ _ s _ _ => s

/-- The field `table.keys`. -/
def tableKeys : CBTypeInfo → Option (List CBString)
  | mk _ _ _ _ k _ => k

/-- The field `table.types`. -/
def tableTypes : CBTypeInfo → Option (List CBTypeInfo)
  | mk _ _ _ _ _ t => t

/-- The field `len` of a nullable array (zero for a null array). -/
def len {α : Type} (xs : Option (List α)) : Nat := (xs.getD []).length

/-- The test on the keys in the `Table` case of `operator==`: passed when `a` has no keys
(`a.table.keys.elements` is null), otherwise `strcmp(a.table.keys.elements[i],
b.table.keys.elements[j]) == 0`.  (A key read past the end of its array, or from a null array
of `b`, is not a match.) -/
def keyMatch (akeys : Option (List CBString)) (i : Nat) (bkeys : Option (List CBString))
    (j : Nat) : Bool :=
  match akeys with
  | none => true
  | some ks =>
    match ks[i]?, (bkeys.getD [])[j]? with
    | some ka, some kb => ka == kb
    | _, _ => false

mutual

/-- The operator `==` on `CBTypeInfo`. -/
def opEq : CBTypeInfo → CBTypeInfo → Bool
  | mk bta va ta sa ka tya, b =>
    if bta ≠ b.basicType then false
    else
      match bta with
      | .Object => if va ≠ b.vendorId then false else ta == b.typeId
      | .Enum => if va ≠ b.vendorId then false else ta == b.typeId
      | .Seq =>
        match sa, b.seqTypes with
        | none, none => true
        | some la, some lb =>
          if la.length ≠ lb.length then false else seqLoop la lb
        | _, _ => false
      | .Table =>
        if len tya ≠ len b.tableTypes then false
        else if len ka ≠ len b.tableKeys then false
        else
          match tya with
          | none => true
          | some la => tableLoop la 0 ka (b.tableTypes.getD []) b.tableKeys
      | _ => true

/-- The outer loop of the `Seq` case, on the elements of `a` from the current index on: the
inner loop looks for an element of `b` that is `==` to the element of `a`. -/
def seqLoop : List CBTypeInfo → List CBTypeInfo → Bool
  | [], _ => true
  | x :: xs, lb => if lb.any (fun y => opEq x y) then seqLoop xs lb else false

/-- The outer loop of the `Table` case, on the types of `a` from index `i` on: the inner loop
looks for an index `j` of `b` whose type is `==` to the type of `a` and whose key passes the
test on the keys. -/
def tableLoop : List CBTypeInfo → Nat → Option (List CBString) → List CBTypeInfo →
    Option (List CBString) → Bool
  | [], _, _, _, _ => true
  | x :: xs, i, ka, lb, kb =>
    if (List.range lb.length).any (fun j =>
        match lb[j]? with
        | some y => opEq x y && keyMatch ka i kb j
        | none => false)
    then tableLoop xs (i + 1) ka lb kb else false

end

/-- The operator `!=` on `CBTypeInfo`. -/
def opNe (a b : CBTypeInfo) : Bool := !(opEq a b)

end CBTypeInfo

/-- The hash functions of the C++ library that `ops.hpp` uses, `std::hash<int>` and
`std::hash<std::string>`, which are implementation defined, and the integer values of the
members of `CBType`, which `chainblocks.h` declares: parameters of the hash functions. -/
structure StdHash where
  hashInt : Int → Nat
  hashString : String → Nat
  typeValue : CBType → Int

namespace CBTypeInfo

/-- The loop `res = res ^ hash<string>()(keys.elements[i])` over the keys of a table. -/
def hashKeys (E : StdHash) : List CBString → Nat → Nat
  | [], res => res
  | k :: ks, res => hashKeys E ks (res ^^^ E.hashString k)

mutual

/-- The function `std::hash<CBTypeInfo>`. -/
def hash (E : StdHash) : CBTypeInfo → Nat
  | mk bt v t s k ty =>
    let res := E.hashInt (E.typeValue bt)
    if bt = .Table then
      let res1 :=
        match k with
        | some ks => hashKeys E ks res
        | none => res
      match ty with
      | some ts => hashTypes E ts res1
      | none => res1
    else if bt = .Seq then
      match s with
      | some ts => hashTypes E ts res
      | none => res
    else if bt = .Object then (res ^^^ E.hashInt v) ^^^ E.hashInt t
    else if bt = .Enum then (res ^^^ E.hashInt v) ^^^ E.hashInt t
    else res

/-- The loop `res = res ^ hash<CBTypeInfo>()(elements[i])` over an array of types. -/
def hashTypes (E : StdHash) : List CBTypeInfo → Nat → Nat
  | [], res => res
  | x :: xs, res => hashTypes E xs (res ^^^ hash E x)

end

mutual

/-- Well formed descriptors: in a `Table` descriptor the keys, when present, are as many as
the types, and the types are well formed; in a `Seq` descriptor the element types are well
formed. -/
def wellFormed : CBTypeInfo → Bool
  | mk bt _ _ s k ty =>
    match bt with
    | .Seq =>
      match s with
      | some l => wellFormedList l
      | none => true
    | .Table =>
      (match k with
        | some ks => decide (ks.length = len ty)
        | none => true) &&
      (match ty with
        | some l => wellFormedList l
        | none => true)
    | _ => true

/-- Every descriptor of the list is well formed. -/
def wellFormedList : List CBTypeInfo → Bool
  | [] => true
  | x :: xs => wellFormed x && wellFormedList xs

end

/-- A descriptor of a kind without members: the tag alone. -/
def basic (t : CBType) : CBTypeInfo := mk t 0 0 none none none

/-- A `Seq` descriptor with the given element types. -/
def seqOf (l : List CBTypeInfo) : CBTypeInfo := mk .Seq 0 0 (some l) none none

end CBTypeInfo

/-- The struct `CBExposedTypeInfo`. -/
structure CBExposedTypeInfo where
  name : CBString
  exposedType : CBTypeInfo
  isMutable : Bool
  isProtected : Bool
  isTableEntry : Bool
  global : Bool

namespace CBExposedTypeInfo

/-- The operator `==` on `CBExposedTypeInfo`; `strcmp(a.name, b.name) != 0` is the
inequality of the two names. -/
def opEq (a b : CBExposedTypeInfo) : Bool :=
  if a.name ≠ b.name ∨ CBTypeInfo.opNe a.exposedType b.exposedType = true ∨
      a.isMutable ≠ b.isMutable ∨ a.isProtected ≠ b.isProtected ∨ a.global ≠ b.global then
    false
  else true

/-- The conversion of a `bool` to `int`. -/
def boolToInt (b : Bool) : Int := if b then 1 else 0

/-- The function `std::hash<CBExposedTypeInfo>`. -/
def hash (E : StdHash) (typeInfo : CBExposedTypeInfo) : Nat :=
  let res := E.hashString typeInfo.name
  let res := res ^^^ CBTypeInfo.hash E typeInfo.exposedType
  let res := res ^^^ E.hashInt (boolToInt typeInfo.isMutable)
  let res := res ^^^ E.hashInt (boolToInt typeInfo.isProtected)
  let res := res ^^^ E.hashInt (boolToInt typeInfo.isTableEntry)
  let res := res ^^^ E.hashInt (boolToInt typeInfo.global)
  res

end CBExposedTypeInfo

/-! ## `chainblocks.hpp`: `Var` and `Chain` -/

namespace CBFloat

/-- Rounding of the exact number `(-1)^neg * M * 2^e` to the format, to nearest, ties to even,
for any exponent `e`: the result is a multiple of the smallest subnormal of the format. -/
def roundAny (fmt : FloatFormat) (neg : Bool) (M : Nat) (e : Int) : CBFloat :=
  let s := max (bitLength M - fmt.prec) (2 - fmt.emax - fmt.prec - e).toNat
  if s = 0 then finish fmt neg M e
  else
    let q := M / 2 ^ s
    let r := M % 2 ^ s
    let half := 2 ^ (s - 1)
    let q1 := if half < r ∨ (r = half ∧ q % 2 = 1) then q + 1 else q
    finish fmt neg q1 (e + s)

/-- The conversion of an integer to the format (`static_cast<double>` and
`static_cast<float>` of an `int64_t`). -/
def ofInt (fmt : FloatFormat) (i : Int) : CBFloat :=
  if i = 0 then fin false 0 0 else roundAny fmt (decide (i < 0)) i.natAbs 0

/-- The conversion of a floating point datum to the format (`static_cast<float>` of a
`double`). -/
def convert (fmt : FloatFormat) : CBFloat → CBFloat
  | nan => nan
  | inf s => inf s
  | fin s m e => if m = 0 then fin s 0 0 else roundAny fmt s m e

end CBFloat

namespace Var

/-- The constructor `Var()`. -/
def ctor : CBVar := .None .Continue

/-- The function `Var::Stop`. -/
def Stop : CBVar := .None .Stop

/-- The function `Var::Restart`. -/
def Restart : CBVar := .None .Restart

/-- The function `Var::Return`. -/
def Return : CBVar := .None .Return

/-- The function `Var::Rebase`. -/
def Rebase : CBVar := .None .Rebase

/-- The conversion `Var::operator bool`: the test `valueType != Bool` is the test on the
constructor, after which the payload is the field `boolValue`. -/
def operator_bool : CBVar → Except CBError Bool
  | .Bool boolValue => .ok boolValue
  | _ => .error (.CBException "Invalid variable casting! expected Bool")

/-- The conversion `Var::operator int64_t`. -/
def operator_int64_t : CBVar → Except CBError Int
  | .Int intValue => .ok intValue
  | _ => .error (.CBException "Invalid variable casting! expected Int")

/-- The conversion `Var::operator float`. -/
def operator_float : CBVar → Except CBError CBFloat
  | .Float floatValue => .ok (CBFloat.convert binary32 floatValue)
  | .Int intValue => .ok (CBFloat.ofInt binary32 intValue)
  | _ => .error (.CBException "Invalid variable casting! expected Float")

/-- The conversion `Var::operator double`. -/
def operator_double : CBVar → Except CBError CBFloat
  | .Float floatValue => .ok floatValue
  | .Int intValue => .ok (CBFloat.ofInt binary64 intValue)
  | _ => .error (.CBException "Invalid variable casting! expected Float")

end Var

/-- The field `payload.chainState` of a `None` value (the payload of another kind holds no
control code). -/
def CBVar.chainState : CBVar → Option CBChainState
  | .None s => some s
  | _ => none

/-- The class `Chain`: its members `_name`, `_looped`, `_unsafe` and `_blocks`, the last a
vector of pointers to blocks. -/
structure Chain where
  _name : String
  _looped : Bool
  _unsafe : Bool
  _blocks : List Nat

namespace Chain

/-- The constructor `Chain(String name)`. -/
def ctor (name : String) : Chain := ⟨name, false, false, []⟩

/-- The function `Chain::block`.  The block is made and set up by `createBlock`, `setup` and
`setParam`, which belong to the block and not to the chain; `blk` is the pointer that
`createBlock` returned, which the function appends to `_blocks`. -/
def block (c : Chain) (blk : Nat) : Chain := { c with _blocks := c._blocks ++ [blk] }

/-- The function `Chain::let`, which appends the pointer `blk` of the `Const` block that
`createBlock` returned. -/
def let_ (c : Chain) (blk : Nat) : Chain := { c with _blocks := c._blocks ++ [blk] }

/-- The function `Chain::looped`. -/
def looped (c : Chain) (looped : Bool) : Chain := { c with _looped := looped }

/-- The function `Chain::name`. -/
def name (c : Chain) (name : String) : Chain := { c with _name := name }

/-- The conversion `Chain::operator CBVar`.  The result starts as a `Seq` with a null array;
every `stbds_arrpush` stores a `Block` value at the end of the array, which it may move: `arr`
is the address of the array after a push (the allocator is not part of the sources at hand).
The conversion returns the value and leaves the chain with `_blocks` cleared. -/
def operator_CBVar (c : Chain) (arr : Nat) : CBVar × Chain :=
  let res : Nat × List CBVar :=
    c._blocks.foldl (fun res blk => (arr, res.2 ++ [CBVar.Block blk])) (0, [])
  (.Seq res.1 res.2, { c with _blocks := [] })

end Chain

end chainblocks

/-! ## `gfx/geom.cpp`: the mesh generators -/

namespace gfx

namespace geom

/-- The widths in bits of the two integer types of the generators: `size_t`, the type of the
segment counts and of the loop counters, and `index_t`, the type of an element of `indices`,
which `geom.hpp` declares, a header that is not part of the sources at hand. -/
structure IntTypes where
  sizeBits : Nat
  indexBits : Nat

/-- The result in `size_t` of an arithmetic operation whose exact result is `n`. -/
def size_t (T : IntTypes) (n : Nat) : Nat := n % 2 ^ T.sizeBits

/-- The conversion of a `size_t` to `index_t`. -/
def index_t (T : IntTypes) (n : Nat) : Nat := n % 2 ^ T.indexBits

/-- The struct `GeneratorBase`: the vectors `vertices` and `indices`.  The type `V` stands for
`VertexPNT`, which `geom.hpp` declares. -/
structure GeneratorBase (V : Type) where
  vertices : List V
  indices : List Nat

namespace GeneratorBase

/-- Modelled from the spec: the member `reset` of `GeneratorBase`, defined in `geom.hpp`, a
header that is not part of the sources at hand: it empties `vertices` and `indices`, so that
`generate` fills them anew. -/
def reset {V : Type} (_g : GeneratorBase V) : GeneratorBase V := ⟨[], []⟩

/-- The statement `vertices.emplace_back()` followed by the setters of the new vertex, whose
final value is `v`. -/
def emplace_back {V : Type} (g : GeneratorBase V) (v : V) : GeneratorBase V :=
  { g with vertices := g.vertices ++ [v] }

/-- The statement `indices.push_back(n)`, which converts `n` to `index_t`. -/
def push_back {V : Type} (T : IntTypes) (g : GeneratorBase V) (n : Nat) : GeneratorBase V :=
  { g with indices := g.indices ++ [index_t T n] }

end GeneratorBase

/-- The loop `for (size_t i = 0; i < n; i++) body`, from the state `s`. -/
def forLoop {σ : Type} (n : Nat) (body : Nat → σ → σ) (s : σ) : σ :=
  (List.range n).foldl (fun s i => body i s) s

/-- The struct `PlaneGenerator`, with its segment counts (its members `width` and `height`
only enter the attributes of the vertices). -/
structure PlaneGenerator (V : Type) extends GeneratorBase V where
  widthSegments : Nat
  heightSegments : Nat

/-- The function `PlaneGenerator::generate`.  The position, normal and texture coordinate
that the body of the first loop gives the vertex at `(ix, iy)` are the value `vertex ix iy`:
they are computed in `float` arithmetic from `ix`, `iy` and the members of the generator and
stored by the setters of `VertexPNT`. -/
def PlaneGenerator.generate {V : Type} (T : IntTypes) (vertex : Nat → Nat → V)
    (g : PlaneGenerator V) : PlaneGenerator V :=
  let s := g.toGeneratorBase.reset
  let gridX := g.widthSegments
  let gridY := g.heightSegments
  let gridX1 := size_t T (gridX + 1)
  let gridY1 := size_t T (gridY + 1)
  let s := forLoop gridY1 (fun iy s =>
    forLoop gridX1 (fun ix s => s.emplace_back (vertex ix iy)) s) s
  let s := forLoop gridY (fun iy s =>
    forLoop gridX (fun ix s =>
      let a := size_t T (ix + size_t T (gridX1 * iy))
      let b := size_t T (ix + size_t T (gridX1 * size_t T (iy + 1)))
      let c := size_t T (size_t T (ix + 1) + size_t T (gridX1 * size_t T (iy + 1)))
      let d := size_t T (size_t T (ix + 1) + size_t T (gridX1 * iy))
      let s := s.push_back T a
      let s := s.push_back T b
      let s := s.push_back T d
      let s := s.push_back T b
      let s := s.push_back T c
      let s := s.push_back T d
      s) s) s
  { g with toGeneratorBase := s }

/-- The two triangles `(a, b, d)` and `(b, c, d)` of the grid cell `(ix, iy)` of a plane with
`X` width segments, as C30 names them. -/
def cellTriangles (X ix iy : Nat) : List Nat :=
  let a := ix + (X + 1) * iy
  let b := ix + (X + 1) * (iy + 1)
  let c := ix + 1 + (X + 1) * (iy + 1)
  let d := ix + 1 + (X + 1) * iy
  [a, b, d, b, c, d]

end geom

end gfx

namespace gfx

namespace geom

/-- The conversion of an integer to `int`, a two's complement type of `b` bits.  The result of
an arithmetic operation on `int` is converted in this way too: where the exact result is out of
the range of `int` the C++ operation is undefined, and the theorems assume the range. -/
def int_t (b : Nat) (z : Int) : Int := (z + 2 ^ (b - 1)) % 2 ^ b - 2 ^ (b - 1)

/-- The conversion of an `int` to `size_t`. -/
def size_t_of_int (T : IntTypes) (z : Int) : Nat := (z % 2 ^ T.sizeBits).toNat

/-- The conversion of an `int` to `index_t`. -/
def index_t_of_int (T : IntTypes) (z : Int) : Nat := (z % 2 ^ T.indexBits).toNat

/-- A loop `for (i = 0; i < n; i++) body` whose body may fail: the result is `none` when
some iteration fails. -/
def forLoopM {σ : Type} (n : Nat) (body : Nat → σ → Option σ) (s : σ) : Option σ :=
  (List.range n).foldlM (fun s i => body i s) s

/-- The struct `CubeGenerator`, with its segment counts (its members `width`, `height` and
`depth` only enter the attributes of the vertices). -/
structure CubeGenerator (V : Type) extends GeneratorBase V where
  widthSegments : Nat
  heightSegments : Nat
  depthSegments : Nat

/-- The lambda `buildPlane` of `CubeGenerator::generate`, on the vectors of the generator and
the captured variable `vertexOffset`; `b` is the width of `int`.  The attributes that the body
of the first loop gives the vertex at `(ix, iy)` are the value `vertex ix iy`; among them are
the quotients `ix / gridX` and `iy / gridY` of `int`, which are undefined when the divisor is
zero: the body fails then. -/
def CubeGenerator.buildPlane {V : Type} (T : IntTypes) (b : Nat) (vertex : Nat → Nat → V)
    (gridX gridY : Int) (st : GeneratorBase V × Nat) : Option (GeneratorBase V × Nat) :=
  let vertexOffset := st.2
  let gridX1 := int_t b (gridX + 1)
  let gridY1 := int_t b (gridY + 1)
  let vertexCounter := 0
  match forLoopM gridY1.toNat (fun iy st =>
      forLoopM gridX1.toNat (fun ix st =>
        if gridX = 0 ∨ gridY = 0 then none
        else some (st.1.emplace_back (vertex ix iy), size_t T (st.2 + 1))) st)
      (st.1, vertexCounter) with
  | none => none
  | some (s, vertexCounter) =>
    let s := forLoop gridY.toNat (fun iy s =>
      forLoop gridX.toNat (fun ix s =>
        let a := size_t T (size_t T (vertexOffset + size_t_of_int T ix) +
          size_t_of_int T (int_t b (gridX1 * iy)))
        let b1 := size_t T (size_t T (vertexOffset + size_t_of_int T ix) +
          size_t_of_int T (int_t b (gridX1 * int_t b (iy + 1))))
        let c := size_t T (size_t T (vertexOffset + size_t_of_int T (int_t b (ix + 1))) +
          size_t_of_int T (int_t b (gridX1 * int_t b (iy + 1))))
        let d := size_t T (size_t T (vertexOffset + size_t_of_int T (int_t b (ix + 1))) +
          size_t_of_int T (int_t b (gridX1 * iy)))
        let s := s.push_back T a
        let s := s.push_back T b1
        let s := s.push_back T d
        let s := s.push_back T b1
        let s := s.push_back T c
        let s := s.push_back T d
        s) s) s
    some (s, size_t T (vertexOffset + vertexCounter))

/-- The function `CubeGenerator::generate`: six calls of `buildPlane`, for the faces px, nx,
py, ny, pz, nz in this order; `vertex k` gives the attributes of the vertices of face `k`.  The
segment counts are converted to `int`, the type of the parameters `gridX` and `gridY`. -/
def CubeGenerator.generate {V : Type} (T : IntTypes) (b : Nat) (vertex : Nat → Nat → Nat → V)
    (g : CubeGenerator V) : Option (CubeGenerator V) :=
  let s := g.toGeneratorBase.reset
  let vertexOffset := 0
  let w := int_t b g.widthSegments
  let h := int_t b g.heightSegments
  let d := int_t b g.depthSegments
  match CubeGenerator.buildPlane T b (vertex 0) d h (s, vertexOffset) with
  | none => none
  | some st =>
  match CubeGenerator.buildPlane T b (vertex 1) d h st with
  | none => none
  | some st =>
  match CubeGenerator.buildPlane T b (vertex 2) w d st with
  | none => none
  | some st =>
  match CubeGenerator.buildPlane T b (vertex 3) w d st with
  | none => none
  | some st =>
  match CubeGenerator.buildPlane T b (vertex 4) w h st with
  | none => none
  | some st =>
  match CubeGenerator.buildPlane T b (vertex 5) w h st with
  | none => none
  | some st => some { g with toGeneratorBase := st.1 }

/-- The indices of a face of the cube with `gridX` by `gridY` segments whose vertices start at
`off`: for each cell, row after row, the two triangles of its corner vertices. -/
def faceIndices (off gridX gridY : Nat) : List Nat :=
  (List.range gridY).flatMap (fun iy =>
    (List.range gridX).flatMap (fun ix => (cellTriangles gridX ix iy).map (fun n => off + n)))

/-- The six faces of a cube with `w`, `h`, `d` segments, in the order of their building: for
each face the offset of its first vertex and its two segment counts. -/
def cubeFaces (w h d : Nat) : List (Nat × Nat × Nat) :=
  [(0, d, h),
    ((d + 1) * (h + 1), d, h),
    (2 * ((d + 1) * (h + 1)), w, d),
    (2 * ((d + 1) * (h + 1)) + (w + 1) * (d + 1), w, d),
    (2 * ((d + 1) * (h + 1)) + 2 * ((w + 1) * (d + 1)), w, h),
    (2 * ((d + 1) * (h + 1)) + 2 * ((w + 1) * (d + 1)) + (w + 1) * (h + 1), w, h)]

end geom

end gfx

namespace chainblocks

namespace CBFloat

/-- The negation `-a`. -/
def fneg : CBFloat → CBFloat
  | nan => nan
  | inf s => inf (!s)
  | fin s m e => fin (!s) m e

/-- The addition `a + b` of the format, in the default rounding mode. -/
def fadd (fmt : FloatFormat) (a b : CBFloat) : CBFloat := fsub fmt a (fneg b)

/-- The comparison `a == b` of floating point numbers (false when either is a NaN). -/
def feq (a b : CBFloat) : Bool := fle a b && fle b a

/-- The function `std::min` on floating point numbers: `b` when `b < a`, else `a`. -/
def fmin (a b : CBFloat) : CBFloat := if flt b a then b else a

/-- The division `a / b` of the format, in the default rounding mode.  The quotient of two
finite numbers is computed with more bits than the format holds, the last of them set when
the division leaves a remainder, and then rounded. -/
def fdiv (fmt : FloatFormat) : CBFloat → CBFloat → CBFloat
  | nan, _ => nan
  | _, nan => nan
  | inf _, inf _ => nan
  | inf s, fin t _ _ => inf (s != t)
  | fin s _ _, inf t => fin (s != t) 0 0
  | fin s m e, fin t n f =>
    if n = 0 then (if m = 0 then nan else inf (s != t))
    else if m = 0 then fin (s != t) 0 0
    else
      let k := fmt.prec + 2 + bitLength n
      let q := m * 2 ^ k / n
      let r := m * 2 ^ k % n
      roundAny fmt (s != t) (2 * q + (if r = 0 then 0 else 1)) (e - f - k - 1)

/-- The conversion of a floating point number to an integer type, which discards the
fractional part.  (The conversion of a NaN, of an infinity or of a number out of the range of
the integer type is undefined in C++; the model gives 0 for the first two.) -/
def truncToInt : CBFloat → Int
  | nan => 0
  | inf _ => 0
  | fin s m e =>
    let k : Int := if 0 ≤ e then (m * 2 ^ e.toNat : Nat) else (m / 2 ^ (-e).toNat : Nat)
    if s then -k else k

end CBFloat

end chainblocks

namespace gfx

namespace geom

open chainblocks

/-- What `math.hpp` and `geom.hpp` declare for the angles of the sphere, headers that are not
part of the sources at hand: the floating point format of the members `thetaStart` and
`thetaLength`, and the constant `pi` in that format. -/
structure MathHeader where
  angle : FloatFormat
  pi : CBFloat

/-- A header for examples: the angles are `float` numbers and `pi` is the `float` nearest to
the number pi, `13176795 * 2^-22`. -/
def exampleMath : MathHeader := ⟨binary32, .fin false 13176795 (-22)⟩

/-- The statement `indices.push_back(a)` for a value `a` of the type `index_t`. -/
def GeneratorBase.push_back_index {V : Type} (g : GeneratorBase V) (a : Nat) :
    GeneratorBase V :=
  { g with indices := g.indices ++ [a] }

/-- The struct `SphereGenerator`, with its segment counts and the two angles that the
control flow of `generate` reads (its members `radius`, `phiStart` and `phiLength` only enter
the positions of the vertices). -/
structure SphereGenerator (V : Type) extends GeneratorBase V where
  widthSegments : Nat
  heightSegments : Nat
  thetaStart : CBFloat
  thetaLength : CBFloat

/-- The variable `uOffset` of `SphereGenerator::generate` in row `iy`.  It is declared by
`auto uOffset = 0;` and so has the type `int`: each assignment converts the quotient, a
`double`, to `int`. -/
def SphereGenerator.uOffset (M : MathHeader) (thetaStart thetaEnd : CBFloat)
    (widthSegments heightSegments iy : Nat) : Int :=
  let uOffset : Int := 0
  if iy = 0 ∧ CBFloat.feq thetaStart (CBFloat.ofInt M.angle 0) = true then
    CBFloat.truncToInt
      (CBFloat.fdiv binary64 (.fin false 1 (-1)) (CBFloat.ofInt binary64 widthSegments))
  else if iy = heightSegments ∧ CBFloat.feq thetaEnd M.pi = true then
    CBFloat.truncToInt
      (CBFloat.fdiv binary64 (.fin true 1 (-1)) (CBFloat.ofInt binary64 widthSegments))
  else uOffset

/-- The texture coordinate `float2(u + uOffset, 1 - v)` of the vertex at `(ix, iy)`, with
`u = float(ix) / widthSegments` and `v = float(iy) / heightSegments`, in `float`
arithmetic. -/
def SphereGenerator.texCoord (widthSegments heightSegments ix iy : Nat) (uOffset : Int) :
    CBFloat × CBFloat :=
  let v := CBFloat.fdiv binary32 (CBFloat.ofInt binary32 iy) (CBFloat.ofInt binary32 heightSegments)
  let u := CBFloat.fdiv binary32 (CBFloat.ofInt binary32 ix) (CBFloat.ofInt binary32 widthSegments)
  (CBFloat.fadd binary32 u (CBFloat.ofInt binary32 uOffset),
    CBFloat.fsub binary32 (CBFloat.ofInt binary32 1) v)

/-- The function `SphereGenerator::generate`; `b` is the width of `int`, the type of the
variable `index`.  The attributes of the vertex at `(ix, iy)` are the value
`vertex ix iy uv` for its texture coordinate `uv`: the position and the normal are computed
with `std::cos` and `std::sin` from `ix`, `iy` and the members of the generator.  The first
loops run while `iy <= heightSegments` and `ix <= widthSegments`.  A read of `grid` out of
its range has no defined result: the function fails there. -/
def SphereGenerator.generate {V : Type} (T : IntTypes) (b : Nat) (M : MathHeader)
    (vertex : Nat → Nat → CBFloat × CBFloat → V) (g : SphereGenerator V) :
    Option (SphereGenerator V) :=
  let s := g.toGeneratorBase.reset
  let widthSegments := max 3 g.widthSegments
  let heightSegments := max 2 g.heightSegments
  let thetaEnd := CBFloat.fmin (CBFloat.fadd M.angle g.thetaStart g.thetaLength) M.pi
  let index : Int := 0
  let grid : List (List Nat) := []
  let st := forLoop (heightSegments + 1)
    (fun iy (st : GeneratorBase V × Int × List (List Nat)) =>
      let verticesRow : List Nat := []
      let uOffset :=
        SphereGenerator.uOffset M g.thetaStart thetaEnd widthSegments heightSegments iy
      let st1 := forLoop (widthSegments + 1)
        (fun ix (st1 : GeneratorBase V × Int × List Nat) =>
          (st1.1.emplace_back
              (vertex ix iy (SphereGenerator.texCoord widthSegments heightSegments ix iy uOffset)),
            int_t b (st1.2.1 + 1), st1.2.2 ++ [index_t_of_int T st1.2.1]))
        (st.1, st.2.1, verticesRow)
      (st1.1, st1.2.1, st.2.2 ++ [st1.2.2]))
    (s, index, grid)
  let grid := st.2.2
  match forLoopM heightSegments (fun iy s =>
      forLoopM widthSegments (fun ix s =>
        match grid[iy]?, grid[size_t T (iy + 1)]? with
        | some row0, some row1 =>
          match row0[size_t T (ix + 1)]?, row0[ix]?, row1[ix]?, row1[size_t T (ix + 1)]? with
          | some a, some b1, some c, some d =>
            let s :=
              if iy ≠ 0 ∨ CBFloat.flt (CBFloat.ofInt M.angle 0) g.thetaStart = true then
                ((s.push_back_index a).push_back_index b1).push_back_index d
              else s
            let s :=
              if iy ≠ size_t T (heightSegments - 1) ∨ CBFloat.flt thetaEnd M.pi = true then
                ((s.push_back_index b1).push_back_index c).push_back_index d
              else s
            some s
          | _, _, _, _ => none
        | _, _ => none) s) st.1 with
  | none => none
  | some s => some { g with toGeneratorBase := s }

end geom

end gfx

namespace gfx

namespace geom

/-- The grid of vertex numbers that the first loops of `SphereGenerator::generate` build for
`W` by `H` segments: row `iy` holds at `ix` the number `iy * (W + 1) + ix`, converted to
`index_t`. -/
def SphereGenerator.gridOf (T : IntTypes) (W H : Nat) : List (List Nat) :=
  (List.range (H + 1)).map (fun iy =>
    (List.range (W + 1)).map (fun ix => index_t T (iy * (W + 1) + ix)))

/-- The indices that a cell `(ix, iy)` of a sphere with `W` width segments contributes: the
triangle `(a, b, d)` when `first` holds and the triangle `(b, c, d)` when `second` holds,
for the entries `a = grid[iy][ix + 1]`, `b = grid[iy][ix]`, `c = grid[iy + 1][ix]` and
`d = grid[iy + 1][ix + 1]`, the grid holding at `[iy][ix]` the number `iy * (W + 1) + ix` of
the vertex, converted to `index_t`. -/
def SphereGenerator.cellIndices (T : IntTypes) (W : Nat) (first second : Bool)
    (ix iy : Nat) : List Nat :=
  let a := index_t T (iy * (W + 1) + (ix + 1))
  let b := index_t T (iy * (W + 1) + ix)
  let c := index_t T ((iy + 1) * (W + 1) + ix)
  let d := index_t T ((iy + 1) * (W + 1) + (ix + 1))
  (if first then [a, b, d] else []) ++ (if second then [b, c, d] else [])

end geom

end gfx

namespace chainblocks

/-! ## Theorems -/

/-! ### The runtime helpers -/

theorem memcmp_eq_zero_iff : ∀ (xs ys : List Nat) (n : Nat),
    memcmp xs ys n = 0 ↔ xs.take n = ys.take n
  | xs, ys, 0 => by simp [memcmp]
  | [], [], n + 1 => by simp [memcmp]
  | [], y :: ys, n + 1 => by simp [memcmp]
  | x :: xs, [], n + 1 => by simp [memcmp]
  | x :: xs, y :: ys, n + 1 => by
    have ih := memcmp_eq_zero_iff xs ys n
    rw [memcmp]
    rcases Nat.lt_trichotomy x y with h | h | h
    · simp [h, Nat.ne_of_lt h]
    · subst h
      simp [ih]
    · have h1 : ¬ x < y := by omega
      simp [h, h1, Nat.ne_of_gt h]

theorem memcmp_swap : ∀ (xs ys : List Nat) (n : Nat), memcmp ys xs n = - memcmp xs ys n
  | xs, ys, 0 => by simp [memcmp]
  | [], [], n + 1 => by simp [memcmp]
  | [], y :: ys, n + 1 => by simp [memcmp]
  | x :: xs, [], n + 1 => by simp [memcmp]
  | x :: xs, y :: ys, n + 1 => by
    have ih := memcmp_swap xs ys n
    rw [memcmp, memcmp]
    rcases Nat.lt_trichotomy x y with h | h | h
    · have h1 : ¬ y < x := by omega
      simp [h, h1]
    · subst h
      simp [ih]
    · have h1 : ¬ x < y := by omega
      simp [h, h1]

theorem string_view_eq_iff (x y : List Nat) : string_view_eq x y = true ↔ x = y := by
  unfold string_view_eq
  simp only [Bool.and_eq_true, beq_iff_eq, memcmp_eq_zero_iff]
  constructor
  · rintro ⟨hl, ht⟩
    rw [List.take_length, hl, List.take_length] at ht
    exact ht
  · rintro rfl
    exact ⟨rfl, rfl⟩

theorem string_view_compare_nil_nil : string_view_compare [] [] = 0 := rfl

theorem string_view_compare_nil_cons (b : Nat) (bs : List Nat) :
    string_view_compare [] (b :: bs) = -1 := by
  simp [string_view_compare, memcmp]

theorem string_view_compare_cons_nil (a : Nat) (as : List Nat) :
    string_view_compare (a :: as) [] = 1 := by
  simp [string_view_compare, memcmp]

theorem string_view_compare_cons_cons (a : Nat) (as : List Nat) (b : Nat) (bs : List Nat) :
    string_view_compare (a :: as) (b :: bs) =
      if a < b then -1 else if b < a then 1 else string_view_compare as bs := by
  unfold string_view_compare
  simp only [List.length_cons, Nat.succ_min_succ, memcmp, Nat.add_lt_add_iff_right]
  by_cases h1 : a < b
  · simp [h1]
  · by_cases h2 : b < a
    · simp [h1, h2]
    · simp [h1, h2]

theorem string_view_compare_neg_iff : ∀ (x y : List Nat),
    string_view_compare x y < 0 ↔ List.Lex (· < ·) x y
  | [], [] => by simp [string_view_compare_nil_nil]
  | [], b :: bs => by simp [string_view_compare_nil_cons, List.Lex.nil]
  | a :: as, [] => by simp [string_view_compare_cons_nil]
  | a :: as, b :: bs => by
    have ih := string_view_compare_neg_iff as bs
    rw [string_view_compare_cons_cons]
    rcases Nat.lt_trichotomy a b with h | h | h
    · simp [h, List.Lex.rel h]
    · subst h
      simp [ih, List.Lex.cons_iff]
    · have h1 : ¬ a < b := by omega
      simp only [h1, h, if_true, if_false]
      constructor
      · intro h0; exact absurd h0 (by decide)
      · intro hl
        cases hl with
        | cons h' => omega
        | rel h' => omega

theorem string_view_compare_eq_zero_iff : ∀ (x y : List Nat),
    string_view_compare x y = 0 ↔ x = y
  | [], [] => by simp [string_view_compare_nil_nil]
  | [], b :: bs => by simp [string_view_compare_nil_cons]
  | a :: as, [] => by simp [string_view_compare_cons_nil]
  | a :: as, b :: bs => by
    have ih := string_view_compare_eq_zero_iff as bs
    rw [string_view_compare_cons_cons]
    rcases Nat.lt_trichotomy a b with h | h | h
    · simp [h, Nat.ne_of_lt h]
    · subst h
      simp [ih]
    · have h1 : ¬ a < b := by omega
      simp [h1, h, Nat.ne_of_gt h]

theorem string_view_compare_swap : ∀ (x y : List Nat),
    string_view_compare y x = - string_view_compare x y
  | [], [] => by simp [string_view_compare_nil_nil]
  | [], b :: bs => by simp [string_view_compare_nil_cons, string_view_compare_cons_nil]
  | a :: as, [] => by simp [string_view_compare_nil_cons, string_view_compare_cons_nil]
  | a :: as, b :: bs => by
    have ih := string_view_compare_swap as bs
    rw [string_view_compare_cons_cons, string_view_compare_cons_cons]
    rcases Nat.lt_trichotomy a b with h | h | h
    · have h1 : ¬ b < a := by omega
      simp [h, h1]
    · subst h
      simp [ih]
    · have h1 : ¬ a < b := by omega
      simp [h, h1]

theorem string_view_lt_iff (x y : List Nat) :
    string_view_lt x y = true ↔ List.Lex (· < ·) x y := by
  simp [string_view_lt, string_view_compare_neg_iff]

theorem string_view_le_iff (x y : List Nat) :
    string_view_le x y = true ↔ List.Lex (· < ·) x y ∨ x = y := by
  unfold string_view_le
  rw [decide_eq_true_iff, le_iff_lt_or_eq, string_view_compare_neg_iff,
    string_view_compare_eq_zero_iff]

/-! ### Loops over the lanes of a vector -/

theorem forLanes_eq_true_iff {n : Nat} (body : Fin n → Option Bool) (final : Bool) :
    ∀ (k : Nat) (h : k ≤ n), forLanes body final k h = true ↔
      (∃ i : Fin n, n - k ≤ i.val ∧ body i = some true ∧
          ∀ j : Fin n, n - k ≤ j.val → j.val < i.val → body j = none) ∨
        (final = true ∧ ∀ j : Fin n, n - k ≤ j.val → body j = none)
  | 0, h => by
    simp only [forLanes]
    constructor
    · intro hf
      exact Or.inr ⟨hf, fun j hj => absurd j.isLt (by omega)⟩
    · rintro (⟨i, hi, -⟩ | ⟨hf, -⟩)
      · exact absurd i.isLt (by omega)
      · exact hf
  | k + 1, h => by
    have ih := forLanes_eq_true_iff body final k (Nat.le_of_succ_le h)
    have hlt : n - (k + 1) < n := by omega
    have hstep : ∀ j : Fin n, n - (k + 1) ≤ j.val → j.val = n - (k + 1) ∨ n - k ≤ j.val := by
      intro j hj; omega
    rw [forLanes]
    cases hb : body ⟨n - (k + 1), hlt⟩ with
    | some r =>
      simp only []
      constructor
      · intro hr
        subst hr
        refine Or.inl ⟨⟨n - (k + 1), hlt⟩, le_refl _, hb, ?_⟩
        intro j hj hji
        exact absurd hji (by simp at hj ⊢; omega)
      · rintro (⟨i, hi, hbi, hall⟩ | ⟨-, hall⟩)
        · rcases hstep i hi with h0 | h1
          · have : i = ⟨n - (k + 1), hlt⟩ := Fin.ext h0
            rw [this, hb] at hbi
            exact Option.some.inj hbi
          · have := hall ⟨n - (k + 1), hlt⟩ (le_refl _) (by simp; omega)
            rw [hb] at this
            exact absurd this (by simp)
        · have := hall ⟨n - (k + 1), hlt⟩ (le_refl _)
          rw [hb] at this
          exact absurd this (by simp)
    | none =>
      simp only []
      rw [ih]
      constructor
      · rintro (⟨i, hi, hbi, hall⟩ | ⟨hf, hall⟩)
        · refine Or.inl ⟨i, by omega, hbi, ?_⟩
          intro j hj hji
          rcases hstep j hj with h0 | h1
          · have : j = ⟨n - (k + 1), hlt⟩ := Fin.ext h0
            rw [this, hb]
          · exact hall j h1 hji
        · refine Or.inr ⟨hf, ?_⟩
          intro j hj
          rcases hstep j hj with h0 | h1
          · have : j = ⟨n - (k + 1), hlt⟩ := Fin.ext h0
            rw [this, hb]
          · exact hall j h1
      · rintro (⟨i, hi, hbi, hall⟩ | ⟨hf, hall⟩)
        · rcases hstep i hi with h0 | h1
          · have : i = ⟨n - (k + 1), hlt⟩ := Fin.ext h0
            rw [this, hb] at hbi
            exact absurd hbi (by simp)
          · exact Or.inl ⟨i, h1, hbi, fun j hj hji => hall j (by omega) hji⟩
        · exact Or.inr ⟨hf, fun j hj => hall j (by omega)⟩

/-! ### The operators on two values of the same kind

Each case of the three `switch` statements, by evaluation. -/

@[simp] theorem opEq_None (H : CBHeader) (s t : CBChainState) :
    opEq H (.None s) (.None t) =
      true := rfl

@[simp] theorem opEq_Any (H : CBHeader) : opEq H .Any .Any = true := rfl

@[simp] theorem opEq_EndOfBlittableTypes (H : CBHeader) :
    opEq H .EndOfBlittableTypes .EndOfBlittableTypes = true := rfl

@[simp] theorem opEq_Object (H : CBHeader) (va : Nat) (ida ita : Int) (vb : Nat) (idb itb : Int) :
    opEq H (.Object va ida ita) (.Object vb idb itb) =
      (ida == idb && ita == itb && va == vb) := rfl

@[simp] theorem opEq_Enum (H : CBHeader) (va ida ita vb idb itb : Int) :
    opEq H (.Enum va ida ita) (.Enum vb idb itb) =
      (ida == idb && ita == itb && va == vb) := rfl

@[simp] theorem opEq_Bool (H : CBHeader) (x y : Bool) :
    opEq H (.Bool x) (.Bool y) =
      (x == y) := rfl

@[simp] theorem opEq_Int (H : CBHeader) (x y : Int) :
    opEq H (.Int x) (.Int y) =
      (x == y) := rfl

@[simp] theorem opEq_Float (H : CBHeader) (x y : CBFloat) :
    opEq H (.Float x) (.Float y) =
      CBFloat.fle (CBFloat.fabs (CBFloat.fsub binary64 x y)) FLT_EPSILON := rfl

@[simp] theorem opEq_Int2 (H : CBHeader) (x y : Fin 2 → Int) :
    opEq H (.Int2 x) (.Int2 y) =
      allLanes (vecEq x y) := rfl

@[simp] theorem opEq_Int3 (H : CBHeader) (x y : Fin 3 → Int) :
    opEq H (.Int3 x) (.Int3 y) =
      allLanes (vecEq x y) := rfl

@[simp] theorem opEq_Int4 (H : CBHeader) (x y : Fin 4 → Int) :
    opEq H (.Int4 x) (.Int4 y) =
      allLanes (vecEq x y) := rfl

@[simp] theorem opEq_Int8 (H : CBHeader) (x y : Fin 8 → Int) :
    opEq H (.Int8 x) (.Int8 y) =
      allLanes (vecEq x y) := rfl

@[simp] theorem opEq_Int16 (H : CBHeader) (x y : Fin 16 → Int) :
    opEq H (.Int16 x) (.Int16 y) =
      allLanes (vecEq x y) := rfl

@[simp] theorem opEq_Float2 (H : CBHeader) (x y : Fin 2 → CBFloat) :
    opEq H (.Float2 x) (.Float2 y) =
      allLanes (vecFloatEq binary64 x y) := rfl

@[simp] theorem opEq_Float3 (H : CBHeader) (x y : Fin 3 → CBFloat) :
    opEq H (.Float3 x) (.Float3 y) =
      allLanes (vecFloatEq binary32 x y) := rfl

@[simp] theorem opEq_Float4 (H : CBHeader) (x y : Fin 4 → CBFloat) :
    opEq H (.Float4 x) (.Float4 y) =
      allLanes (vecFloatEq binary32 x y) := rfl

@[simp] theorem opEq_Color (H : CBHeader) (x y : CBColor) :
    opEq H (.Color x) (.Color y) =
      (x.r == y.r && x.g == y.g && x.b == y.b && x.a == y.a) := rfl

@[simp] theorem opEq_Chain (H : CBHeader) (x y : Nat) :
    opEq H (.Chain x) (.Chain y) =
      (x == y) := rfl

@[simp] theorem opEq_Block (H : CBHeader) (x y : Nat) :
    opEq H (.Block x) (.Block y) =
      (x == y) := rfl

@[simp] theorem opEq_Path (H : CBHeader) (pa la : Nat) (ma : List Nat) (pb lb : Nat) (mb : List Nat) :
    opEq H (.Path pa la ma) (.Path pb lb mb) =
      textEq pa la ma pb lb mb := rfl

@[simp] theorem opEq_ContextVar (H : CBHeader) (pa la : Nat) (ma : List Nat) (pb lb : Nat) (mb : List Nat) :
    opEq H (.ContextVar pa la ma) (.ContextVar pb lb mb) =
      textEq pa la ma pb lb mb := rfl

@[simp] theorem opEq_String (H : CBHeader) (pa la : Nat) (ma : List Nat) (pb lb : Nat) (mb : List Nat) :
    opEq H (.String pa la ma) (.String pb lb mb) =
      textEq pa la ma pb lb mb := rfl

@[simp] theorem opEq_Image (H : CBHeader) (x y : CBImage) :
    opEq H (.Image x) (.Image y) =
      (pixsize H x.flags == pixsize H y.flags && x.channels == y.channels &&
        x.width == y.width && x.height == y.height &&
        (x.data == y.data ||
          memcmp x.mem y.mem (x.channels * x.width * x.height * pixsize H x.flags) == 0)) := rfl

@[simp] theorem opEq_Seq (H : CBHeader) (pa : Nat) (xs : List CBVar) (pb : Nat) (ys : List CBVar) :
    opEq H (.Seq pa xs) (.Seq pb ys) =
      (if pa = pb then true else if xs.length ≠ ys.length then false else seqEqLoop H xs ys) := rfl

@[simp] theorem opEq_Table (H : CBHeader) (ha : Nat) (ta : List (CBString × CBVar)) (hb : Nat)
    (tb : List (CBString × CBVar)) :
    opEq H (.Table ha ta) (.Table hb tb) =
      (if ha = hb then true else if tableSize ta ≠ tableSize tb then false
        else tableEqLoop H ta tb) := rfl

@[simp] theorem opEq_Bytes (H : CBHeader) (pa : Nat) (xs : List Nat) (pb : Nat) (ys : List Nat) :
    opEq H (.Bytes pa xs) (.Bytes pb ys) =
      (xs.length == ys.length && (pa == pb || memcmp xs ys xs.length == 0)) := rfl

@[simp] theorem opEq_Array (H : CBHeader) (ia : CBType) (pa la : Nat) (ma : List Nat) (ib : CBType) (pb lb : Nat)
    (mb : List Nat) :
    opEq H (.Array ia pa la ma) (.Array ib pb lb mb) =
      (la == lb && ia == ib && (pa == pb || memcmp ma mb (la * H.sizeofCBVarPayload) == 0)) := rfl

@[simp] theorem opLt_None (H : CBHeader) (s t : CBChainState) :
    opLt H (.None s) (.None t) =
      .error (.InvalidVarTypeError
        "Comparison operator < not supported for the given type: None") := rfl

@[simp] theorem opLt_Any (H : CBHeader) :
    opLt H .Any .Any =
      .error (.InvalidVarTypeError
        "Comparison operator < not supported for the given type: Any") := rfl

@[simp] theorem opLt_EndOfBlittableTypes (H : CBHeader) :
    opLt H .EndOfBlittableTypes .EndOfBlittableTypes =
      .error (.runtime_error "EndOfBlittableTypes is an invalid type") := rfl

@[simp] theorem opLt_Object (H : CBHeader) (va : Nat) (ida ita : Int) (vb : Nat) (idb itb : Int) :
    opLt H (.Object va ida ita) (.Object vb idb itb) =
      .error (.InvalidVarTypeError
        "Comparison operator < not supported for the given type: Object") := rfl

@[simp] theorem opLt_Chain (H : CBHeader) (x y : Nat) :
    opLt H (.Chain x) (.Chain y) =
      .error (.InvalidVarTypeError
        "Comparison operator < not supported for the given type: Chain") := rfl

@[simp] theorem opLt_Block (H : CBHeader) (x y : Nat) :
    opLt H (.Block x) (.Block y) =
      .error (.InvalidVarTypeError
        "Comparison operator < not supported for the given type: Block") := rfl

@[simp] theorem opLt_Image (H : CBHeader) (x y : CBImage) :
    opLt H (.Image x) (.Image y) =
      .error (.InvalidVarTypeError
        "Comparison operator < not supported for the given type: Image") := rfl

@[simp] theorem opLt_Enum (H : CBHeader) (va ida ita vb idb itb : Int) :
    opLt H (.Enum va ida ita) (.Enum vb idb itb) =
      (if ida ≠ idb ∨ ita ≠ itb then
        .error (.InvalidVarTypeError
          "Comparison < between two different kind of enums (vendor/type)")
      else .ok (decide (va < vb))) := rfl

@[simp] theorem opLt_Bool (H : CBHeader) (x y : Bool) :
    opLt H (.Bool x) (.Bool y) =
      .ok (!x && y) := rfl

@[simp] theorem opLt_Int (H : CBHeader) (x y : Int) :
    opLt H (.Int x) (.Int y) =
      .ok (decide (x < y)) := rfl

@[simp] theorem opLt_Float (H : CBHeader) (x y : CBFloat) :
    opLt H (.Float x) (.Float y) =
      .ok (CBFloat.flt x y) := rfl

@[simp] theorem opLt_Int2 (H : CBHeader) (x y : Fin 2 → Int) :
    opLt H (.Int2 x) (.Int2 y) =
      .ok (CBVECTOR_CMP intLess x y false) := rfl

@[simp] theorem opLt_Int3 (H : CBHeader) (x y : Fin 3 → Int) :
    opLt H (.Int3 x) (.Int3 y) =
      .ok (CBVECTOR_CMP intLess x y false) := rfl

@[simp] theorem opLt_Int4 (H : CBHeader) (x y : Fin 4 → Int) :
    opLt H (.Int4 x) (.Int4 y) =
      .ok (CBVECTOR_CMP intLess x y false) := rfl

@[simp] theorem opLt_Int8 (H : CBHeader) (x y : Fin 8 → Int) :
    opLt H (.Int8 x) (.Int8 y) =
      .ok (CBVECTOR_CMP intLess x y false) := rfl

@[simp] theorem opLt_Int16 (H : CBHeader) (x y : Fin 16 → Int) :
    opLt H (.Int16 x) (.Int16 y) =
      .ok (CBVECTOR_CMP intLess x y false) := rfl

@[simp] theorem opLt_Float2 (H : CBHeader) (x y : Fin 2 → CBFloat) :
    opLt H (.Float2 x) (.Float2 y) =
      .ok (CBVECTOR_CMP CBFloat.flt x y false) := rfl

@[simp] theorem opLt_Float3 (H : CBHeader) (x y : Fin 3 → CBFloat) :
    opLt H (.Float3 x) (.Float3 y) =
      .ok (CBVECTOR_CMP CBFloat.flt x y false) := rfl

@[simp] theorem opLt_Float4 (H : CBHeader) (x y : Fin 4 → CBFloat) :
    opLt H (.Float4 x) (.Float4 y) =
      .ok (CBVECTOR_CMP CBFloat.flt x y false) := rfl

@[simp] theorem opLt_Color (H : CBHeader) (x y : CBColor) :
    opLt H (.Color x) (.Color y) =
      .ok (decide (x.r < y.r) || decide (x.g < y.g) || decide (x.b < y.b) ||
        decide (x.a < y.a)) := rfl

@[simp] theorem opLt_Path (H : CBHeader) (pa la : Nat) (ma : List Nat) (pb lb : Nat) (mb : List Nat) :
    opLt H (.Path pa la ma) (.Path pb lb mb) =
      .ok (textLess pa la ma pb lb mb) := rfl

@[simp] theorem opLt_ContextVar (H : CBHeader) (pa la : Nat) (ma : List Nat) (pb lb : Nat) (mb : List Nat) :
    opLt H (.ContextVar pa la ma) (.ContextVar pb lb mb) =
      .ok (textLess pa la ma pb lb mb) := rfl

@[simp] theorem opLt_String (H : CBHeader) (pa la : Nat) (ma : List Nat) (pb lb : Nat) (mb : List Nat) :
    opLt H (.String pa la ma) (.String pb lb mb) =
      .ok (textLess pa la ma pb lb mb) := rfl

@[simp] theorem opLt_Bytes (H : CBHeader) (pa : Nat) (xs : List Nat) (pb : Nat) (ys : List Nat) :
    opLt H (.Bytes pa xs) (.Bytes pb ys) =
      (if pa = pb ∧ xs.length = ys.length then .ok false else .ok (string_view_lt xs ys)) := rfl

@[simp] theorem opLt_Array (H : CBHeader) (ia : CBType) (pa la : Nat) (ma : List Nat) (ib : CBType) (pb lb : Nat)
    (mb : List Nat) :
    opLt H (.Array ia pa la ma) (.Array ib pb lb mb) =
      (if pa = pb ∧ la = lb then .ok false
      else .ok (string_view_lt (string_view_n ma (la * H.sizeofCBVarPayload))
        (string_view_n mb (lb * H.sizeofCBVarPayload)))) := rfl

@[simp] theorem opLe_None (H : CBHeader) (s t : CBChainState) :
    opLe H (.None s) (.None t) =
      .error (.InvalidVarTypeError
        "Comparison operator <= not supported for the given type: None") := rfl

@[simp] theorem opLe_Any (H : CBHeader) :
    opLe H .Any .Any =
      .error (.InvalidVarTypeError
        "Comparison operator <= not supported for the given type: Any") := rfl

@[simp] theorem opLe_EndOfBlittableTypes (H : CBHeader) :
    opLe H .EndOfBlittableTypes .EndOfBlittableTypes =
      .error (.runtime_error "EndOfBlittableTypes is an invalid type") := rfl

@[simp] theorem opLe_Object (H : CBHeader) (va : Nat) (ida ita : Int) (vb : Nat) (idb itb : Int) :
    opLe H (.Object va ida ita) (.Object vb idb itb) =
      .error (.InvalidVarTypeError
        "Comparison operator <= not supported for the given type: Object") := rfl

@[simp] theorem opLe_Chain (H : CBHeader) (x y : Nat) :
    opLe H (.Chain x) (.Chain y) =
      .error (.InvalidVarTypeError
        "Comparison operator <= not supported for the given type: Chain") := rfl

@[simp] theorem opLe_Block (H : CBHeader) (x y : Nat) :
    opLe H (.Block x) (.Block y) =
      .error (.InvalidVarTypeError
        "Comparison operator <= not supported for the given type: Block") := rfl

@[simp] theorem opLe_Image (H : CBHeader) (x y : CBImage) :
    opLe H (.Image x) (.Image y) =
      .error (.InvalidVarTypeError
        "Comparison operator <= not supported for the given type: Image") := rfl

@[simp] theorem opLe_Enum (H : CBHeader) (va ida ita vb idb itb : Int) :
    opLe H (.Enum va ida ita) (.Enum vb idb itb) =
      (if ida ≠ idb ∨ ita ≠ itb then
        .error (.InvalidVarTypeError
          "Comparison <= between two different kind of enums (vendor/type)")
      else .ok (decide (va ≤ vb))) := rfl

@[simp] theorem opLe_Bool (H : CBHeader) (x y : Bool) :
    opLe H (.Bool x) (.Bool y) =
      .ok (!x || y) := rfl

@[simp] theorem opLe_Int (H : CBHeader) (x y : Int) :
    opLe H (.Int x) (.Int y) =
      .ok (decide (x ≤ y)) := rfl

@[simp] theorem opLe_Float (H : CBHeader) (x y : CBFloat) :
    opLe H (.Float x) (.Float y) =
      .ok (CBFloat.fle x y) := rfl

@[simp] theorem opLe_Int2 (H : CBHeader) (x y : Fin 2 → Int) :
    opLe H (.Int2 x) (.Int2 y) =
      .ok (CBVECTOR_CMP intLess x y true) := rfl

@[simp] theorem opLe_Int3 (H : CBHeader) (x y : Fin 3 → Int) :
    opLe H (.Int3 x) (.Int3 y) =
      .ok (CBVECTOR_CMP intLess x y true) := rfl

@[simp] theorem opLe_Int4 (H : CBHeader) (x y : Fin 4 → Int) :
    opLe H (.Int4 x) (.Int4 y) =
      .ok (CBVECTOR_CMP intLess x y true) := rfl

@[simp] theorem opLe_Int8 (H : CBHeader) (x y : Fin 8 → Int) :
    opLe H (.Int8 x) (.Int8 y) =
      .ok (CBVECTOR_CMP intLess x y true) := rfl

@[simp] theorem opLe_Int16 (H : CBHeader) (x y : Fin 16 → Int) :
    opLe H (.Int16 x) (.Int16 y) =
      .ok (CBVECTOR_CMP intLess x y true) := rfl

@[simp] theorem opLe_Float2 (H : CBHeader) (x y : Fin 2 → CBFloat) :
    opLe H (.Float2 x) (.Float2 y) =
      .ok (CBVECTOR_CMP CBFloat.flt x y true) := rfl

@[simp] theorem opLe_Float3 (H : CBHeader) (x y : Fin 3 → CBFloat) :
    opLe H (.Float3 x) (.Float3 y) =
      .ok (CBVECTOR_CMP CBFloat.flt x y true) := rfl

@[simp] theorem opLe_Float4 (H : CBHeader) (x y : Fin 4 → CBFloat) :
    opLe H (.Float4 x) (.Float4 y) =
      .ok (CBVECTOR_CMP CBFloat.flt x y true) := rfl

@[simp] theorem opLe_Color (H : CBHeader) (x y : CBColor) :
    opLe H (.Color x) (.Color y) =
      .ok (decide (x.r ≤ y.r) && decide (x.g ≤ y.g) && decide (x.b ≤ y.b) &&
        decide (x.a ≤ y.a)) := rfl

@[simp] theorem opLe_Path (H : CBHeader) (pa la : Nat) (ma : List Nat) (pb lb : Nat) (mb : List Nat) :
    opLe H (.Path pa la ma) (.Path pb lb mb) =
      .ok (textLessEq pa la ma pb lb mb) := rfl

@[simp] theorem opLe_ContextVar (H : CBHeader) (pa la : Nat) (ma : List Nat) (pb lb : Nat) (mb : List Nat) :
    opLe H (.ContextVar pa la ma) (.ContextVar pb lb mb) =
      .ok (textLessEq pa la ma pb lb mb) := rfl

@[simp] theorem opLe_String (H : CBHeader) (pa la : Nat) (ma : List Nat) (pb lb : Nat) (mb : List Nat) :
    opLe H (.String pa la ma) (.String pb lb mb) =
      .ok (textLessEq pa la ma pb lb mb) := rfl

@[simp] theorem opLe_Bytes (H : CBHeader) (pa : Nat) (xs : List Nat) (pb : Nat) (ys : List Nat) :
    opLe H (.Bytes pa xs) (.Bytes pb ys) =
      (if pa = pb ∧ xs.length = ys.length then .ok true else .ok (string_view_le xs ys)) := rfl

@[simp] theorem opLe_Array (H : CBHeader) (ia : CBType) (pa la : Nat) (ma : List Nat) (ib : CBType) (pb lb : Nat)
    (mb : List Nat) :
    opLe H (.Array ia pa la ma) (.Array ib pb lb mb) =
      (if pa = pb ∧ la = lb then .ok true
      else .ok (string_view_le (string_view_n ma (la * H.sizeofCBVarPayload))
        (string_view_n mb (lb * H.sizeofCBVarPayload)))) := rfl

@[simp] theorem opLt_Seq (H : CBHeader) (pa : Nat) (xs : List CBVar) (pb : Nat) (ys : List CBVar) :
    opLt H (.Seq pa xs) (.Seq pb ys) =
      seqLessLoop H xs ys (decide (xs.length < ys.length)) := rfl

@[simp] theorem opLe_Seq (H : CBHeader) (pa : Nat) (xs : List CBVar) (pb : Nat) (ys : List CBVar) :
    opLe H (.Seq pa xs) (.Seq pb ys) =
      seqLessEqLoop H xs ys (decide (xs.length ≤ ys.length)) := rfl

@[simp] theorem opLt_Table (H : CBHeader) (ha : Nat) (ta : List (CBString × CBVar)) (hb : Nat)
    (tb : List (CBString × CBVar)) :
    opLt H (.Table ha ta) (.Table hb tb) =
      (if ha = hb then .ok false else if tableSize ta ≠ tableSize tb then .ok false
        else tableLessLoop H ta tb 0 (tableSize ta)) := rfl

@[simp] theorem opLe_Table (H : CBHeader) (ha : Nat) (ta : List (CBString × CBVar)) (hb : Nat)
    (tb : List (CBString × CBVar)) :
    opLe H (.Table ha ta) (.Table hb tb) =
      (if ha = hb then .ok false else if tableSize ta ≠ tableSize tb then .ok false
        else tableLessEqLoop H ta tb 0 (tableSize ta)) := rfl

/-! ### Values of different kinds -/

/-- C1: when the discriminants (`valueType`) of `a` and `b` differ, `a == b` is false;
`operator==` returns a boolean on every input, it has no exception to raise. -/
theorem opEq_valueType_ne (H : CBHeader) (a b : CBVar) (h : a.valueType ≠ b.valueType) :
    opEq H a b = false := by
  rw [opEq.eq_def]
  simp [h]

/-- C1, at `Int 5` and `Float 5.0`. -/
theorem opEq_valueType_ne_witness :
    (CBVar.Int 5).valueType ≠ (CBVar.Float (.fin false 5 0)).valueType ∧
      opEq exampleHeader (.Int 5) (.Float (.fin false 5 0)) = false :=
  ⟨by decide, opEq_valueType_ne exampleHeader (.Int 5) (.Float (.fin false 5 0)) (by decide)⟩

/-- C2: when the discriminants of `a` and `b` differ, `a < b` and `a <= b` both throw
`InvalidVarTypeError`, whatever the payloads. -/
theorem opLt_opLe_valueType_ne (H : CBHeader) (a b : CBVar) (h : a.valueType ≠ b.valueType) :
    opLt H a b =
        .error (.InvalidVarTypeError "Comparison < between two different value types") ∧
      opLe H a b =
        .error (.InvalidVarTypeError "Comparison <= between two different value types") := by
  constructor
  · rw [opLt.eq_def]
    simp [h]
  · unfold opLe
    simp [h]

/-- C2, at `Int 5` and `Float 5.0`. -/
theorem opLt_opLe_valueType_ne_witness :
    (CBVar.Int 5).valueType ≠ (CBVar.Float (.fin false 5 0)).valueType ∧
      opLt exampleHeader (.Int 5) (.Float (.fin false 5 0)) =
        .error (.InvalidVarTypeError "Comparison < between two different value types") ∧
      opLe exampleHeader (.Int 5) (.Float (.fin false 5 0)) =
        .error (.InvalidVarTypeError "Comparison <= between two different value types") :=
  ⟨by decide,
    opLt_opLe_valueType_ne exampleHeader (.Int 5) (.Float (.fin false 5 0)) (by decide)⟩

/-- C8: on `Color` values, `a == b` is true iff the four channels are equal, and `a < b`
returns true iff some channel of `a` is strictly less than the same channel of `b`;
`Color(1,2,3,4) == Color(0,2,3,4)` is false and `Color(1,2,3,4) < Color(5,2,3,4)` is true. -/
theorem color_eq_lt (H : CBHeader) (x y : CBColor) :
    (opEq H (.Color x) (.Color y) = true ↔ x.r = y.r ∧ x.g = y.g ∧ x.b = y.b ∧ x.a = y.a) ∧
      opLt H (.Color x) (.Color y) =
        .ok (decide (x.r < y.r ∨ x.g < y.g ∨ x.b < y.b ∨ x.a < y.a)) ∧
      opEq H (.Color ⟨1, 2, 3, 4⟩) (.Color ⟨0, 2, 3, 4⟩) = false ∧
      opLt H (.Color ⟨1, 2, 3, 4⟩) (.Color ⟨5, 2, 3, 4⟩) = .ok true := by
  refine ⟨?_, ?_, ?_, ?_⟩
  · rw [opEq_Color]
    simp [and_assoc]
  · rw [opLt_Color]
    simp [Bool.decide_or, Bool.or_assoc]
  · rw [opEq_Color]
    simp
  · rw [opLt_Color]
    simp


/-! ### Vector kinds -/

theorem forLanes_full_iff {n : Nat} (body : Fin n → Option Bool) (final : Bool) :
    forLanes body final n (Nat.le_refl n) = true ↔
      (∃ i : Fin n, body i = some true ∧ ∀ j : Fin n, j < i → body j = none) ∨
        (final = true ∧ ∀ j : Fin n, body j = none) := by
  rw [forLanes_eq_true_iff]
  simp only [Nat.sub_self, Nat.zero_le, true_and, true_implies, Fin.lt_def]

theorem CBVECTOR_CMP_eq_true_iff {α : Type} (lt : α → α → Bool) {n : Nat} (a b : Fin n → α)
    (final : Bool) :
    CBVECTOR_CMP lt a b final = true ↔
      LaneLess lt a b ∨ (final = true ∧ NoLaneDiffers lt a b) := by
  have hsome : ∀ i : Fin n, ((if lt (a i) (b i) = true then some true
      else if lt (b i) (a i) = true then some false else none) = some true) ↔
        lt (a i) (b i) = true := by
    intro i
    by_cases h1 : lt (a i) (b i) = true
    · simp [h1]
    · by_cases h2 : lt (b i) (a i) = true <;> simp [h1, h2]
  have hnone : ∀ i : Fin n, ((if lt (a i) (b i) = true then some true
      else if lt (b i) (a i) = true then some false else none) = none) ↔
        (lt (a i) (b i) = false ∧ lt (b i) (a i) = false) := by
    intro i
    by_cases h1 : lt (a i) (b i) = true
    · simp [h1]
    · by_cases h2 : lt (b i) (a i) = true <;> simp [h1, h2]
  unfold CBVECTOR_CMP LaneLess NoLaneDiffers
  rw [forLanes_full_iff]
  simp only [hsome, hnone]

theorem vectorOrderSpec_of {α : Type} (H : CBHeader) (lt : α → α → Bool) {n : Nat}
    (a b : Fin n → α) (va vb : CBVar)
    (hlt : opLt H va vb = .ok (CBVECTOR_CMP lt a b false))
    (hle : opLe H va vb = .ok (CBVECTOR_CMP lt a b true)) :
    VectorOrderSpec H lt a b va vb := by
  refine ⟨⟨_, hlt, ?_⟩, ?_⟩
  · rw [CBVECTOR_CMP_eq_true_iff]
    simp
  · intro hno
    have h1 : CBVECTOR_CMP lt a b false = false := by
      rw [← Bool.not_eq_true, CBVECTOR_CMP_eq_true_iff]
      rintro (⟨i, hi, -⟩ | ⟨hf, -⟩)
      · rw [(hno i).1] at hi
        exact Bool.noConfusion hi
      · exact Bool.noConfusion hf
    have h2 : CBVECTOR_CMP lt a b true = true := by
      rw [CBVECTOR_CMP_eq_true_iff]
      exact Or.inr ⟨rfl, hno⟩
    rw [hlt, hle, h1, h2]
    exact ⟨rfl, rfl⟩

/-- C5: for two values of the same fixed-width vector kind (`Int2`, `Int3`, `Int4`, `Int8`,
`Int16`, `Float2`, `Float3`, `Float4`), `a < b` returns true iff some lane `i` has
`a[i] < b[i]` while `a[j]` is neither less nor greater than `b[j]` for every `j < i`; and
when no lane differs, `a < b` is false and `a <= b` is true. -/
theorem vector_lt_lexicographic (H : CBHeader) :
    (∀ a b : Fin 2 → CBInt, VectorOrderSpec H intLess a b (.Int2 a) (.Int2 b)) ∧
      (∀ a b : Fin 3 → CBInt, VectorOrderSpec H intLess a b (.Int3 a) (.Int3 b)) ∧
      (∀ a b : Fin 4 → CBInt, VectorOrderSpec H intLess a b (.Int4 a) (.Int4 b)) ∧
      (∀ a b : Fin 8 → CBInt, VectorOrderSpec H intLess a b (.Int8 a) (.Int8 b)) ∧
      (∀ a b : Fin 16 → CBInt, VectorOrderSpec H intLess a b (.Int16 a) (.Int16 b)) ∧
      (∀ a b : Fin 2 → CBFloat, VectorOrderSpec H CBFloat.flt a b (.Float2 a) (.Float2 b)) ∧
      (∀ a b : Fin 3 → CBFloat, VectorOrderSpec H CBFloat.flt a b (.Float3 a) (.Float3 b)) ∧
      (∀ a b : Fin 4 → CBFloat, VectorOrderSpec H CBFloat.flt a b (.Float4 a) (.Float4 b)) :=
  ⟨fun a b => vectorOrderSpec_of H intLess a b _ _ rfl rfl,
    fun a b => vectorOrderSpec_of H intLess a b _ _ rfl rfl,
    fun a b => vectorOrderSpec_of H intLess a b _ _ rfl rfl,
    fun a b => vectorOrderSpec_of H intLess a b _ _ rfl rfl,
    fun a b => vectorOrderSpec_of H intLess a b _ _ rfl rfl,
    fun a b => vectorOrderSpec_of H CBFloat.flt a b _ _ rfl rfl,
    fun a b => vectorOrderSpec_of H CBFloat.flt a b _ _ rfl rfl,
    fun a b => vectorOrderSpec_of H CBFloat.flt a b _ _ rfl rfl⟩

/-! ### Kinds without an order -/

theorem enumIdsDiffer_Enum (va ida ita vb idb itb : Int) :
    EnumIdsDiffer (.Enum va ida ita) (.Enum vb idb itb) ↔ (ida ≠ idb ∨ ita ≠ itb) := by
  constructor
  · rintro ⟨_, _, _, _, _, _, h1, h2, h3⟩
    cases h1
    cases h2
    exact h3
  · intro h
    exact ⟨va, ida, ita, vb, idb, itb, rfl, rfl, h⟩

/-- C6: for two values of the same kind other than `Seq` and `Table` (and other than the
reserved `EndOfBlittableTypes`, which is no kind of value), `a < b` throws iff the kind is
`None`, `Any`, `Object`, `Image`, `Block` or `Chain`, or the kind is `Enum` and the vendor ids
or type ids differ; `a <= b` throws in exactly the same cases; and for `Enum` values with the
same vendor and type ids the result is the comparison of the underlying integers. -/
theorem opLt_opLe_raise_iff (H : CBHeader) (a b : CBVar) (h : a.valueType = b.valueType)
    (hs : a.valueType ≠ .Seq) (ht : a.valueType ≠ .Table)
    (he : a.valueType ≠ .EndOfBlittableTypes) :
    ((∃ e, opLt H a b = .error e) ↔ a.valueType ∈ unorderedKinds ∨ EnumIdsDiffer a b) ∧
      ((∃ e, opLe H a b = .error e) ↔ a.valueType ∈ unorderedKinds ∨ EnumIdsDiffer a b) ∧
      (∀ va ida ita vb idb itb, a = .Enum va ida ita → b = .Enum vb idb itb →
        ida = idb → ita = itb →
          opLt H a b = .ok (decide (va < vb)) ∧ opLe H a b = .ok (decide (va ≤ vb))) := by
  cases a <;> cases b <;> first
    | (cases h; done)
    | exact absurd rfl hs
    | exact absurd rfl ht
    | exact absurd rfl he
    | (simp [unorderedKinds, EnumIdsDiffer, CBVar.valueType]; done)
    | skip
  · rename_i va ida ita vb idb itb
    by_cases hid : ida ≠ idb ∨ ita ≠ itb
    · refine ⟨?_, ?_, ?_⟩
      · simp [unorderedKinds, enumIdsDiffer_Enum, CBVar.valueType, hid]
      · simp [unorderedKinds, enumIdsDiffer_Enum, CBVar.valueType, hid]
      · intro va2 ida2 ita2 vb2 idb2 itb2 h1 h2 h3 h4
        cases h1
        cases h2
        exact absurd hid (by simp [h3, h4])
    · have hid2 : ida = idb ∧ ita = itb := by
        constructor
        · by_contra hc
          exact hid (Or.inl hc)
        · by_contra hc
          exact hid (Or.inr hc)
      refine ⟨?_, ?_, ?_⟩
      · simp [unorderedKinds, enumIdsDiffer_Enum, CBVar.valueType, hid2.1, hid2.2]
      · simp [unorderedKinds, enumIdsDiffer_Enum, CBVar.valueType, hid2.1, hid2.2]
      · intro va2 ida2 ita2 vb2 idb2 itb2 h1 h2 h3 h4
        cases h1
        cases h2
        simp [hid2.1, hid2.2]
  · rename_i pa xs pb ys
    by_cases hc : pa = pb ∧ xs.length = ys.length
    · simp [unorderedKinds, EnumIdsDiffer, CBVar.valueType, hc]
    · simp [unorderedKinds, EnumIdsDiffer, CBVar.valueType, hc]
  · rename_i ia pa la ma ib pb lb mb
    by_cases hc : pa = pb ∧ la = lb
    · simp [unorderedKinds, EnumIdsDiffer, CBVar.valueType, hc]
    · simp [unorderedKinds, EnumIdsDiffer, CBVar.valueType, hc]

/-- C6, at two `Enum` values of the same vendor and type. -/
theorem opLt_opLe_raise_iff_witness :
    (CBVar.Enum 1 7 9).valueType = (CBVar.Enum 2 7 9).valueType ∧
      (CBVar.Enum 1 7 9).valueType ≠ .Seq ∧ (CBVar.Enum 1 7 9).valueType ≠ .Table ∧
      (CBVar.Enum 1 7 9).valueType ≠ .EndOfBlittableTypes ∧
      ((∃ e, opLt exampleHeader (.Enum 1 7 9) (.Enum 2 7 9) = .error e) ↔
        (CBVar.Enum 1 7 9).valueType ∈ unorderedKinds ∨
          EnumIdsDiffer (.Enum 1 7 9) (.Enum 2 7 9)) ∧
      opLt exampleHeader (.Enum 1 7 9) (.Enum 2 7 9) = .ok (decide ((1 : Int) < 2)) :=
  ⟨by decide, by decide, by decide, by decide,
    (opLt_opLe_raise_iff exampleHeader (.Enum 1 7 9) (.Enum 2 7 9) (by decide) (by decide)
      (by decide) (by decide)).1,
    ((opLt_opLe_raise_iff exampleHeader (.Enum 1 7 9) (.Enum 2 7 9) (by decide) (by decide)
      (by decide) (by decide)).2.2 1 7 9 2 7 9 rfl rfl rfl rfl).1⟩

/-! ### `Float` -/

theorem scaled_cast (neg : Bool) (m : Nat) (e e0 : Int) (h : e0 ≤ e) :
    ((CBFloat.scaled neg m e e0 : Int) : ℚ) * (2 : ℚ) ^ e0 = CBFloat.value neg m e := by
  have h2 : ((2 : ℚ) ^ (e - e0).toNat) * (2 : ℚ) ^ e0 = (2 : ℚ) ^ e := by
    rw [← zpow_natCast, Int.toNat_of_nonneg (by omega), ← zpow_add₀ (by norm_num)]
    congr 1
    omega
  unfold CBFloat.scaled CBFloat.value
  cases neg
  · simp only [Bool.false_eq_true, if_false]
    push_cast
    rw [mul_assoc, h2, one_mul]
  · simp only [if_true]
    push_cast
    rw [neg_mul, mul_assoc, h2]
    ring

theorem flt_fin_iff (s : Bool) (m : Nat) (e : Int) (t : Bool) (n : Nat) (f : Int) :
    CBFloat.flt (.fin s m e) (.fin t n f) = true ↔ CBFloat.value s m e < CBFloat.value t n f := by
  have hpos : (0 : ℚ) < (2 : ℚ) ^ (min e f) := zpow_pos (by norm_num) _
  rw [← scaled_cast s m e (min e f) (min_le_left e f),
    ← scaled_cast t n f (min e f) (min_le_right e f), mul_lt_mul_right hpos, Int.cast_lt]
  simp [CBFloat.flt]

/-- C7: on `Float` values `==` is the test `fabs(a - b) <= FLT_EPSILON` and `<` is the exact
comparison of the two numbers, and there are `Float` values `a`, `b` (here `0.0` and `2^-24`)
for which `a == b` is true and `a < b` is true as well. -/
theorem float_eq_tolerance_lt_exact (H : CBHeader) :
    (∀ x y, opEq H (.Float x) (.Float y) =
        CBFloat.fle (CBFloat.fabs (CBFloat.fsub binary64 x y)) FLT_EPSILON) ∧
      (∀ s m e t n f, opLt H (.Float (.fin s m e)) (.Float (.fin t n f)) =
        .ok (decide (CBFloat.value s m e < CBFloat.value t n f))) ∧
      ∃ x y, CBFloat.representable binary64 x = true ∧
        CBFloat.representable binary64 y = true ∧
        opEq H (.Float x) (.Float y) = true ∧ opLt H (.Float x) (.Float y) = .ok true := by
  refine ⟨fun _ _ => rfl, ?_, ?_⟩
  · intro s m e t n f
    rw [opLt_Float]
    congr 1
    rw [Bool.eq_iff_iff, flt_fin_iff, decide_eq_true_iff]
  · refine ⟨.fin false 0 0, .fin false 1 (-24), by decide, by decide, ?_, ?_⟩
    · rw [opEq_Float]
      decide
    · rw [opLt_Float]
      rfl

/-! ### Text, `Bytes` and `Array` -/

theorem textView_eq_textBytes (stringLen : Nat) (mem : List Nat) :
    textView stringLen mem = textBytes stringLen mem := by
  unfold textView textBytes string_view_n string_view_z
  have hp : (fun c : Nat => c != 0) = (fun c : Nat => decide (c ≠ 0)) := by
    funext c
    by_cases hc : c = 0 <;> simp [hc]
  rw [hp]

theorem textEq_iff (pa la : Nat) (ma : List Nat) (pb lb : Nat) (mb : List Nat) :
    textEq pa la ma pb lb mb = true ↔ pa = pb ∨ textBytes la ma = textBytes lb mb := by
  unfold textEq
  by_cases h : pa = pb
  · simp [h]
  · simp only [h, if_false, false_or, string_view_eq_iff, textView_eq_textBytes]

theorem textLess_iff (pa la : Nat) (ma : List Nat) (pb lb : Nat) (mb : List Nat) :
    textLess pa la ma pb lb mb = true ↔
      pa ≠ pb ∧ List.Lex (· < ·) (textBytes la ma) (textBytes lb mb) := by
  unfold textLess
  by_cases h : pa = pb
  · simp [h]
  · simp only [h, if_false, ne_eq, not_false_eq_true, true_and, string_view_lt_iff,
      textView_eq_textBytes]

theorem textBytes_tagged (s r : List Nat) (hs : s ≠ []) :
    textBytes s.length (s ++ r) = s := by
  have hpos : 0 < s.length := List.length_pos.mpr hs
  simp [textBytes, hpos]

theorem textBytes_terminated (s r : List Nat) (h0 : 0 ∉ s) :
    textBytes 0 (s ++ 0 :: r) = s := by
  have hall : ∀ a ∈ s, (fun c : Nat => decide (c ≠ 0)) a = true := by
    intro a ha
    have : a ≠ 0 := fun h => h0 (h ▸ ha)
    simp [this]
  simp only [textBytes, Nat.lt_irrefl, if_false]
  rw [List.takeWhile_append_of_pos hall]
  simp

theorem textOrderSpec_of (H : CBHeader) (mk : Nat → Nat → List Nat → CBVar)
    (heq : ∀ pa la ma pb lb mb,
      opEq H (mk pa la ma) (mk pb lb mb) = textEq pa la ma pb lb mb)
    (hlt : ∀ pa la ma pb lb mb,
      opLt H (mk pa la ma) (mk pb lb mb) = .ok (textLess pa la ma pb lb mb)) :
    TextOrderSpec H mk := by
  refine ⟨fun pa la ma pb lb mb => ⟨?_, _, hlt pa la ma pb lb mb, ?_⟩, ?_⟩
  · rw [heq, textEq_iff]
  · rw [textLess_iff]
  · intro s r1 r2 pa pb hs h0
    rw [heq, textEq_iff, textBytes_tagged s r1 hs, textBytes_terminated s r2 h0]
    exact Or.inr rfl

/-- C9: for two values of the same text kind (`String`, `Path` or `ContextVar`), with the byte
sequence of a value being its first `stringLen` bytes when `stringLen > 0` and the bytes before
the first NUL otherwise: `a == b` is true iff the pointers are identical or the byte sequences
are equal, `a < b` returns true iff the pointers differ and the byte sequence of `a` is
lexicographically less than that of `b`; hence a length-tagged text and a null-terminated text
holding the same bytes compare equal. -/
theorem text_eq_lt (H : CBHeader) :
    TextOrderSpec H .String ∧ TextOrderSpec H .Path ∧ TextOrderSpec H .ContextVar :=
  ⟨textOrderSpec_of H .String (fun _ _ _ _ _ _ => rfl) (fun _ _ _ _ _ _ => rfl),
    textOrderSpec_of H .Path (fun _ _ _ _ _ _ => rfl) (fun _ _ _ _ _ _ => rfl),
    textOrderSpec_of H .ContextVar (fun _ _ _ _ _ _ => rfl) (fun _ _ _ _ _ _ => rfl)⟩

theorem lex_append_cons (xs : List Nat) (c : Nat) (cs : List Nat) :
    List.Lex (· < ·) xs (xs ++ c :: cs) := by
  induction xs with
  | nil => exact List.Lex.nil
  | cons x xs ih => exact List.Lex.cons ih

/-- C10: on `Bytes` values `a == b` is true iff the sizes are equal and the buffers are
identical or byte-for-byte equal, and `a < b` returns true iff pointer and size do not both
coincide and the bytes of `a` are lexicographically less than the bytes of `b`, a proper
prefix being less.  On `Array` values the same holds over the `len * sizeof(CBVarPayload)`
bytes, except that `==` also requires equal inner types, which `<` does not consult. -/
theorem bytes_array_eq_lt (H : CBHeader) :
    (∀ pa xs pb ys,
      (opEq H (.Bytes pa xs) (.Bytes pb ys) = true ↔
        xs.length = ys.length ∧ (pa = pb ∨ xs = ys)) ∧
      (∃ r, opLt H (.Bytes pa xs) (.Bytes pb ys) = .ok r ∧
        (r = true ↔ ¬(pa = pb ∧ xs.length = ys.length) ∧ List.Lex (· < ·) xs ys))) ∧
      (∀ pa pb xs c cs, opLt H (.Bytes pa xs) (.Bytes pb (xs ++ c :: cs)) = .ok true) ∧
      (∀ ia pa la ma ib pb lb mb,
        (opEq H (.Array ia pa la ma) (.Array ib pb lb mb) = true ↔
          la = lb ∧ ia = ib ∧
            (pa = pb ∨ ma.take (la * H.sizeofCBVarPayload) =
              mb.take (lb * H.sizeofCBVarPayload))) ∧
        (∃ r, opLt H (.Array ia pa la ma) (.Array ib pb lb mb) = .ok r ∧
          (r = true ↔ ¬(pa = pb ∧ la = lb) ∧
            List.Lex (· < ·) (ma.take (la * H.sizeofCBVarPayload))
              (mb.take (lb * H.sizeofCBVarPayload))))) := by
  refine ⟨fun pa xs pb ys => ⟨?_, ?_⟩, ?_, fun ia pa la ma ib pb lb mb => ⟨?_, ?_⟩⟩
  · rw [opEq_Bytes]
    simp only [Bool.and_eq_true, Bool.or_eq_true, beq_iff_eq, memcmp_eq_zero_iff,
      List.take_length]
    constructor
    · rintro ⟨hl, h | h⟩
      · exact ⟨hl, Or.inl h⟩
      · rw [hl, List.take_length] at h
        exact ⟨hl, Or.inr h⟩
    · rintro ⟨hl, h | h⟩
      · exact ⟨hl, Or.inl h⟩
      · subst h
        exact ⟨hl, Or.inr (by simp)⟩
  · rw [opLt_Bytes]
    by_cases hc : pa = pb ∧ xs.length = ys.length
    · exact ⟨false, by simp [hc], by simp [hc]⟩
    · exact ⟨string_view_lt xs ys, by simp [hc], by simp [hc, string_view_lt_iff]⟩
  · intro pa pb xs c cs
    rw [opLt_Bytes]
    have hne : ¬(pa = pb ∧ xs.length = (xs ++ c :: cs).length) := by
      rintro ⟨-, hl⟩
      simp at hl
    rw [if_neg hne, (string_view_lt_iff _ _).mpr (lex_append_cons xs c cs)]
  · rw [opEq_Array]
    simp only [Bool.and_eq_true, Bool.or_eq_true, beq_iff_eq, memcmp_eq_zero_iff]
    constructor
    · rintro ⟨⟨hl, hi⟩, h⟩
      subst hl
      exact ⟨rfl, hi, h⟩
    · rintro ⟨hl, hi, h⟩
      subst hl
      exact ⟨⟨rfl, hi⟩, h⟩
  · rw [opLt_Array]
    by_cases hc : pa = pb ∧ la = lb
    · exact ⟨false, by simp [hc], by simp [hc]⟩
    · exact ⟨string_view_lt (string_view_n ma (la * H.sizeofCBVarPayload))
        (string_view_n mb (lb * H.sizeofCBVarPayload)), by simp [hc],
        by simp [hc, string_view_lt_iff, string_view_n]⟩

/-! ### Trichotomy -/

theorem exactlyOne_of_int (c : Int) : ExactlyOne (c < 0) (c = 0) (-c < 0) := by
  unfold ExactlyOne
  omega

theorem forLanes_trichotomy {n : Nat} (a b : Fin n → CBInt) :
    ∀ (k : Nat) (h : k ≤ n),
      ExactlyOne
        (forLanes (fun i => if intLess (a i) (b i) then some true
          else if intLess (b i) (a i) then some false else none) false k h = true)
        (forLanes (fun i => if vecEq a b i = 0 then some false else none) true k h = true)
        (forLanes (fun i => if intLess (b i) (a i) then some true
          else if intLess (a i) (b i) then some false else none) false k h = true)
  | 0, h => by simp [forLanes, ExactlyOne]
  | k + 1, h => by
    have ih := forLanes_trichotomy a b k (Nat.le_of_succ_le h)
    have hlt : n - (k + 1) < n := by omega
    simp only [forLanes]
    rcases lt_trichotomy (a ⟨n - (k + 1), hlt⟩) (b ⟨n - (k + 1), hlt⟩) with hc | hc | hc
    · have h1 : ¬ b ⟨n - (k + 1), hlt⟩ < a ⟨n - (k + 1), hlt⟩ := not_lt.mpr (le_of_lt hc)
      simp [intLess, vecEq, hc, h1, ne_of_lt hc, ExactlyOne]
    · simp only [intLess, vecEq, hc, lt_self_iff_false, decide_False, Bool.false_eq_true,
        if_false, if_true]
      simpa [intLess, vecEq] using ih
    · have h1 : ¬ a ⟨n - (k + 1), hlt⟩ < b ⟨n - (k + 1), hlt⟩ := not_lt.mpr (le_of_lt hc)
      simp [intLess, vecEq, hc, h1, ne_of_gt hc, ExactlyOne]

theorem vector_trichotomy {n : Nat} (a b : Fin n → CBInt) :
    ExactlyOne (CBVECTOR_CMP intLess a b false = true) (allLanes (vecEq a b) = true)
      (CBVECTOR_CMP intLess b a false = true) :=
  forLanes_trichotomy a b n (Nat.le_refl n)

theorem CBVECTOR_CMP_self {n : Nat} (a : Fin n → CBInt) :
    CBVECTOR_CMP intLess a a false = false := by
  rw [← Bool.not_eq_true, CBVECTOR_CMP_eq_true_iff]
  rintro (⟨i, hi, -⟩ | ⟨hf, -⟩)
  · simp [intLess] at hi
  · exact Bool.noConfusion hf

theorem exactlyOne_ok (p q r : Bool) (h : ExactlyOne (p = true) (q = true) (r = true)) :
    ExactlyOne ((Except.ok p : Except CBError Bool) = .ok true) (q = true)
      ((Except.ok r : Except CBError Bool) = .ok true) := by
  simpa using h

theorem string_view_trichotomy (x y : List Nat) :
    ExactlyOne (string_view_lt x y = true) (string_view_eq x y = true)
      (string_view_lt y x = true) := by
  have h := exactlyOne_of_int (string_view_compare x y)
  rw [← string_view_compare_swap x y, string_view_compare_eq_zero_iff] at h
  simpa [string_view_lt, string_view_eq_iff] using h

theorem text_trichotomy (pa la : Nat) (ma : List Nat) (pb lb : Nat) (mb : List Nat) :
    ExactlyOne (textLess pa la ma pb lb mb = true) (textEq pa la ma pb lb mb = true)
      (textLess pb lb mb pa la ma = true) := by
  unfold textLess textEq
  by_cases h : pa = pb
  · subst h
    simp [ExactlyOne]
  · have h2 : ¬ pb = pa := fun hc => h hc.symm
    simp only [h, h2, if_false]
    exact string_view_trichotomy _ _

theorem textLess_self (pa la : Nat) (ma : List Nat) : textLess pa la ma pa la ma = false := by
  simp [textLess]

theorem bytes_trichotomy (H : CBHeader) (pa : Nat) (xs : List Nat) (pb : Nat) (ys : List Nat) :
    ExactlyOne (opLt H (.Bytes pa xs) (.Bytes pb ys) = .ok true)
      (opEq H (.Bytes pa xs) (.Bytes pb ys) = true)
      (opLt H (.Bytes pb ys) (.Bytes pa xs) = .ok true) := by
  rw [opLt_Bytes, opLt_Bytes, opEq_Bytes]
  by_cases hc : pa = pb ∧ xs.length = ys.length
  · obtain ⟨hp, hl⟩ := hc
    subst hp
    simp [hl, ExactlyOne]
  · have hc2 : ¬(pb = pa ∧ ys.length = xs.length) := fun h => hc ⟨h.1.symm, h.2.symm⟩
    have heq : (xs.length == ys.length && (pa == pb || memcmp xs ys xs.length == 0)) =
        string_view_eq xs ys := by
      unfold string_view_eq
      by_cases hl : xs.length = ys.length
      · have hp : ¬ pa = pb := fun h => hc ⟨h, hl⟩
        simp [hl, hp]
      · have hb : (xs.length == ys.length) = false := beq_eq_false_iff_ne.mpr hl
        rw [hb, Bool.false_and, Bool.false_and]
    rw [if_neg hc, if_neg hc2, heq]
    exact exactlyOne_ok _ _ _ (string_view_trichotomy xs ys)

/-- C4: for two values of the same kind among `Int`, `Int2`, `Int3`, `Int4`, `Int8`, `Int16`,
`String`, `Path`, `ContextVar` and `Bytes`, exactly one of `a < b`, `a == b`, `b < a` holds;
in particular `a < a` is false. -/
theorem lt_eq_gt_exactly_one (H : CBHeader) (a b : CBVar) (h : a.valueType = b.valueType)
    (hk : a.valueType ∈ trichotomousKinds) :
    ExactlyOne (opLt H a b = .ok true) (opEq H a b = true) (opLt H b a = .ok true) ∧
      opLt H a a = .ok false := by
  cases a <;> cases b <;> first
    | (cases h; done)
    | (simp [trichotomousKinds, CBVar.valueType] at hk; done)
    | skip
  · rename_i x y
    rw [opLt_Int, opLt_Int, opLt_Int, opEq_Int]
    have := lt_trichotomy x y
    simp only [ExactlyOne, Except.ok.injEq, decide_eq_true_iff, beq_iff_eq, lt_self_iff_false,
      decide_False, and_true]
    omega
  · rename_i x y
    exact ⟨exactlyOne_ok _ _ _ (vector_trichotomy x y), congrArg Except.ok (CBVECTOR_CMP_self x)⟩
  · rename_i x y
    exact ⟨exactlyOne_ok _ _ _ (vector_trichotomy x y), congrArg Except.ok (CBVECTOR_CMP_self x)⟩
  · rename_i x y
    exact ⟨exactlyOne_ok _ _ _ (vector_trichotomy x y), congrArg Except.ok (CBVECTOR_CMP_self x)⟩
  · rename_i x y
    exact ⟨exactlyOne_ok _ _ _ (vector_trichotomy x y), congrArg Except.ok (CBVECTOR_CMP_self x)⟩
  · rename_i x y
    exact ⟨exactlyOne_ok _ _ _ (vector_trichotomy x y), congrArg Except.ok (CBVECTOR_CMP_self x)⟩
  · rename_i pa la ma pb lb mb
    exact ⟨exactlyOne_ok _ _ _ (text_trichotomy pa la ma pb lb mb),
      congrArg Except.ok (textLess_self pa la ma)⟩
  · rename_i pa la ma pb lb mb
    exact ⟨exactlyOne_ok _ _ _ (text_trichotomy pa la ma pb lb mb),
      congrArg Except.ok (textLess_self pa la ma)⟩
  · rename_i pa la ma pb lb mb
    exact ⟨exactlyOne_ok _ _ _ (text_trichotomy pa la ma pb lb mb),
      congrArg Except.ok (textLess_self pa la ma)⟩
  · rename_i pa xs pb ys
    refine ⟨bytes_trichotomy H pa xs pb ys, ?_⟩
    rw [opLt_Bytes]
    simp

/-- C4, at the null-terminated text "a" and the length-tagged text "ab". -/
theorem lt_eq_gt_exactly_one_witness :
    (CBVar.String 100 0 [97, 0]).valueType = (CBVar.String 200 2 [97, 98]).valueType ∧
      (CBVar.String 100 0 [97, 0]).valueType ∈ trichotomousKinds ∧
      ExactlyOne
        (opLt exampleHeader (.String 100 0 [97, 0]) (.String 200 2 [97, 98]) = .ok true)
        (opEq exampleHeader (.String 100 0 [97, 0]) (.String 200 2 [97, 98]) = true)
        (opLt exampleHeader (.String 200 2 [97, 98]) (.String 100 0 [97, 0]) = .ok true) ∧
      opLt exampleHeader (.String 100 0 [97, 0]) (.String 100 0 [97, 0]) = .ok false :=
  ⟨by decide, by decide,
    lt_eq_gt_exactly_one exampleHeader (.String 100 0 [97, 0]) (.String 200 2 [97, 98])
      (by decide) (by decide)⟩

/-! ### Symmetry of `==` -/

theorem opEq_of_valueType_ne (H : CBHeader) (a b : CBVar) (h : a.valueType ≠ b.valueType) :
    opEq H a b = false := by
  rw [opEq.eq_def]
  simp [h]

theorem fabs_finish (fmt : FloatFormat) (neg : Bool) (q : Nat) (e : Int) :
    CBFloat.fabs (CBFloat.finish fmt neg q e) = CBFloat.finish fmt false q e := by
  unfold CBFloat.finish
  split <;> rfl

theorem fabs_roundNE (fmt : FloatFormat) (neg : Bool) (M : Nat) (e : Int) :
    CBFloat.fabs (CBFloat.roundNE fmt neg M e) = CBFloat.roundNE fmt false M e := by
  unfold CBFloat.roundNE
  split
  · exact fabs_finish _ _ _ _
  · exact fabs_finish _ _ _ _

theorem fabs_fsub_comm (fmt : FloatFormat) (x y : CBFloat) :
    CBFloat.fabs (CBFloat.fsub fmt x y) = CBFloat.fabs (CBFloat.fsub fmt y x) := by
  cases x with
  | nan => cases y <;> rfl
  | inf s =>
    cases y with
    | nan => rfl
    | inf t =>
      cases s <;> cases t <;> rfl
    | fin t n f => rfl
  | fin s m e =>
    cases y with
    | nan => rfl
    | inf t => rfl
    | fin t n f =>
      simp only [CBFloat.fsub, min_comm f e]
      have hneg : CBFloat.scaled t n f (min e f) - CBFloat.scaled s m e (min e f) =
          -(CBFloat.scaled s m e (min e f) - CBFloat.scaled t n f (min e f)) := by ring
      rw [hneg]
      by_cases hd : CBFloat.scaled s m e (min e f) - CBFloat.scaled t n f (min e f) = 0
      · simp [hd, CBFloat.fabs]
      · have hd2 : ¬ -(CBFloat.scaled s m e (min e f) - CBFloat.scaled t n f (min e f)) = 0 := by
          rw [neg_eq_zero]
          exact hd
        rw [if_neg hd, if_neg hd2, fabs_roundNE, fabs_roundNE, Int.natAbs_neg]

theorem allLanes_congr {n : Nat} (v w : Fin n → Int) (h : v = w) : allLanes v = allLanes w := by
  rw [h]

theorem vecEq_comm {n : Nat} (a b : Fin n → CBInt) : vecEq a b = vecEq b a := by
  funext i
  unfold vecEq
  by_cases h : a i = b i
  · simp [h]
  · have h2 : ¬ b i = a i := fun hc => h hc.symm
    simp [h, h2]

theorem vecFloatEq_comm (fmt : FloatFormat) {n : Nat} (a b : Fin n → CBFloat) :
    vecFloatEq fmt a b = vecFloatEq fmt b a := by
  funext i
  unfold vecFloatEq
  rw [fabs_fsub_comm]

theorem textEq_comm (pa la : Nat) (ma : List Nat) (pb lb : Nat) (mb : List Nat) :
    textEq pa la ma pb lb mb = textEq pb lb mb pa la ma := by
  rw [Bool.eq_iff_iff, textEq_iff, textEq_iff]
  constructor
  · rintro (h | h)
    · exact Or.inl h.symm
    · exact Or.inr h.symm
  · rintro (h | h)
    · exact Or.inl h.symm
    · exact Or.inr h.symm

theorem memcmp_beq_zero_comm (xs ys : List Nat) (n : Nat) :
    (memcmp xs ys n == 0) = (memcmp ys xs n == 0) := by
  rw [Bool.eq_iff_iff, beq_iff_eq, beq_iff_eq, memcmp_eq_zero_iff, memcmp_eq_zero_iff]
  exact eq_comm

theorem opEq_comm_plain (H : CBHeader) (a b : CBVar) (hs : a.valueType ≠ .Seq)
    (ht : a.valueType ≠ .Table) : opEq H a b = opEq H b a := by
  by_cases h : a.valueType = b.valueType
  · cases a <;> cases b <;> first
      | (cases h; done)
      | exact absurd rfl hs
      | exact absurd rfl ht
      | rfl
      | skip
    -- Object, Enum
    · rw [opEq_Object, opEq_Object, Bool.eq_iff_iff]
      simp only [Bool.and_eq_true, beq_iff_eq]
      constructor <;> rintro ⟨⟨h1, h2⟩, h3⟩ <;> exact ⟨⟨h1.symm, h2.symm⟩, h3.symm⟩
    · rw [opEq_Enum, opEq_Enum, Bool.eq_iff_iff]
      simp only [Bool.and_eq_true, beq_iff_eq]
      constructor <;> rintro ⟨⟨h1, h2⟩, h3⟩ <;> exact ⟨⟨h1.symm, h2.symm⟩, h3.symm⟩
    -- Bool, Int
    · rw [opEq_Bool, opEq_Bool, Bool.eq_iff_iff]
      simp only [beq_iff_eq]
      exact eq_comm
    · rw [opEq_Int, opEq_Int, Bool.eq_iff_iff]
      simp only [beq_iff_eq]
      exact eq_comm
    -- Int2 .. Int16
    · rw [opEq_Int2, opEq_Int2, vecEq_comm]
    · rw [opEq_Int3, opEq_Int3, vecEq_comm]
    · rw [opEq_Int4, opEq_Int4, vecEq_comm]
    · rw [opEq_Int8, opEq_Int8, vecEq_comm]
    · rw [opEq_Int16, opEq_Int16, vecEq_comm]
    -- Float, Float2 .. Float4
    · rw [opEq_Float, opEq_Float, fabs_fsub_comm]
    · rw [opEq_Float2, opEq_Float2, vecFloatEq_comm]
    · rw [opEq_Float3, opEq_Float3, vecFloatEq_comm]
    · rw [opEq_Float4, opEq_Float4, vecFloatEq_comm]
    -- Color, Chain, Block
    · rw [opEq_Color, opEq_Color, Bool.eq_iff_iff]
      simp only [Bool.and_eq_true, beq_iff_eq]
      constructor <;> rintro ⟨⟨⟨h1, h2⟩, h3⟩, h4⟩ <;>
        exact ⟨⟨⟨h1.symm, h2.symm⟩, h3.symm⟩, h4.symm⟩
    · rw [opEq_Chain, opEq_Chain, Bool.eq_iff_iff]
      simp only [beq_iff_eq]
      exact eq_comm
    · rw [opEq_Block, opEq_Block, Bool.eq_iff_iff]
      simp only [beq_iff_eq]
      exact eq_comm
    -- String, Path, ContextVar
    · rw [opEq_String, opEq_String, textEq_comm]
    · rw [opEq_Path, opEq_Path, textEq_comm]
    · rw [opEq_ContextVar, opEq_ContextVar, textEq_comm]
    -- Image
    · rename_i x y
      rw [opEq_Image, opEq_Image, Bool.eq_iff_iff]
      simp only [Bool.and_eq_true, Bool.or_eq_true, beq_iff_eq, memcmp_eq_zero_iff]
      constructor
      · rintro ⟨⟨⟨⟨h1, h2⟩, h3⟩, h4⟩, h5⟩
        refine ⟨⟨⟨⟨h1.symm, h2.symm⟩, h3.symm⟩, h4.symm⟩, ?_⟩
        rw [← h1, ← h2, ← h3, ← h4]
        exact h5.imp Eq.symm Eq.symm
      · rintro ⟨⟨⟨⟨h1, h2⟩, h3⟩, h4⟩, h5⟩
        refine ⟨⟨⟨⟨h1.symm, h2.symm⟩, h3.symm⟩, h4.symm⟩, ?_⟩
        rw [← h1, ← h2, ← h3, ← h4]
        exact h5.imp Eq.symm Eq.symm
    -- Bytes
    · rename_i pa xs pb ys
      rw [opEq_Bytes, opEq_Bytes, Bool.eq_iff_iff]
      simp only [Bool.and_eq_true, Bool.or_eq_true, beq_iff_eq, memcmp_eq_zero_iff]
      constructor
      · rintro ⟨h1, h2⟩
        refine ⟨h1.symm, ?_⟩
        rw [← h1]
        exact h2.imp Eq.symm Eq.symm
      · rintro ⟨h1, h2⟩
        refine ⟨h1.symm, ?_⟩
        rw [← h1]
        exact h2.imp Eq.symm Eq.symm
    -- Array
    · rename_i ia pa la ma ib pb lb mb
      rw [opEq_Array, opEq_Array, Bool.eq_iff_iff]
      simp only [Bool.and_eq_true, Bool.or_eq_true, beq_iff_eq, memcmp_eq_zero_iff]
      constructor
      · rintro ⟨⟨h1, h2⟩, h3⟩
        refine ⟨⟨h1.symm, h2.symm⟩, ?_⟩
        rw [← h1]
        exact h3.imp Eq.symm Eq.symm
      · rintro ⟨⟨h1, h2⟩, h3⟩
        refine ⟨⟨h1.symm, h2.symm⟩, ?_⟩
        rw [← h1]
        exact h3.imp Eq.symm Eq.symm
  · rw [opEq_of_valueType_ne H a b h, opEq_of_valueType_ne H b a (Ne.symm h)]

theorem distinctKeysSeq_iff (xs : List CBVar) :
    distinctKeysSeq xs = true ↔ ∀ x ∈ xs, x.distinctKeys = true := by
  induction xs with
  | nil => simp [distinctKeysSeq]
  | cons x xs ih => simp [distinctKeysSeq, ih]

theorem distinctKeysTable_iff (t : List (CBString × CBVar)) :
    distinctKeysTable t = true ↔ ∀ e ∈ t, e.2.distinctKeys = true := by
  induction t with
  | nil => simp [distinctKeysTable]
  | cons e t ih =>
    obtain ⟨k, v⟩ := e
    simp [distinctKeysTable, ih]

theorem seqEqLoop_cons (H : CBHeader) (x : CBVar) (xs : List CBVar) (y : CBVar)
    (ys : List CBVar) :
    seqEqLoop H (x :: xs) (y :: ys) = (if !(opEq H x y) then false else seqEqLoop H xs ys) :=
  rfl

theorem seqEqLoop_comm (H : CBHeader) :
    ∀ (xs ys : List CBVar), xs.length = ys.length →
      (∀ x ∈ xs, ∀ y ∈ ys, opEq H x y = opEq H y x) →
        seqEqLoop H xs ys = seqEqLoop H ys xs
  | [], [], _, _ => rfl
  | [], _ :: _, hl, _ => by simp at hl
  | _ :: _, [], hl, _ => by simp at hl
  | x :: xs, y :: ys, hl, hsym => by
    have ih := seqEqLoop_comm H xs ys (by simpa using hl)
      (fun a ha b hb => hsym a (List.mem_cons_of_mem _ ha) b (List.mem_cons_of_mem _ hb))
    rw [seqEqLoop_cons, seqEqLoop_cons, ih,
      hsym x (List.mem_cons_self _ _) y (List.mem_cons_self _ _)]

theorem tableAt_mem {α : Type} (t : List (CBString × α)) (k : CBString) (w : α)
    (h : tableAt t k = some w) : (k, w) ∈ t := by
  unfold tableAt at h
  rw [Option.map_eq_some'] at h
  obtain ⟨e, he, hw⟩ := h
  have hk := List.find?_some he
  have hm := List.mem_of_find?_eq_some he
  simp only [beq_iff_eq] at hk
  rw [← hk, ← hw]
  exact hm

theorem tableContains_of_mem {α : Type} (t : List (CBString × α)) (k : CBString) (w : α)
    (h : (k, w) ∈ t) : tableContains t k = true := by
  unfold tableContains
  rw [List.any_eq_true]
  exact ⟨(k, w), h, by simp⟩

theorem tableAt_of_mem {α : Type} :
    ∀ (t : List (CBString × α)) (k : CBString) (w : α), (t.map Prod.fst).Nodup →
      (k, w) ∈ t → tableAt t k = some w
  | [], _, _, _, h => by simp at h
  | (k', w') :: t, k, w, hn, h => by
    rw [List.map_cons, List.nodup_cons] at hn
    rcases List.mem_cons.mp h with h1 | h1
    · cases h1
      simp [tableAt]
    · have hne : k' ≠ k := by
        rintro rfl
        exact hn.1 (List.mem_map.mpr ⟨(k', w), h1, rfl⟩)
      have ih := tableAt_of_mem t k w hn.2 h1
      unfold tableAt at ih ⊢
      rw [List.find?_cons_of_neg _ (by simpa using hne)]
      exact ih

theorem tableEqLoop_nil (H : CBHeader) (tb : List (CBString × CBVar)) :
    tableEqLoop H [] tb = true := rfl

theorem tableEqLoop_cons (H : CBHeader) (k : CBString) (v : CBVar)
    (rest tb : List (CBString × CBVar)) :
    tableEqLoop H ((k, v) :: rest) tb =
      (if !(tableContains tb k) then false
      else
        match tableAt tb k with
        | none => false
        | some bval => if !(opEq H v bval) then false else tableEqLoop H rest tb) :=
  rfl

theorem tableEqLoop_iff (H : CBHeader) (tb : List (CBString × CBVar)) :
    ∀ (ta : List (CBString × CBVar)),
      tableEqLoop H ta tb = true ↔
        ∀ e ∈ ta, ∃ w, tableAt tb e.1 = some w ∧ opEq H e.2 w = true
  | [] => by simp [tableEqLoop_nil]
  | (k, v) :: rest => by
    have ih := tableEqLoop_iff H tb rest
    rw [tableEqLoop_cons]
    cases hat : tableAt tb k with
    | none =>
      constructor
      · intro h
        by_cases hc : tableContains tb k = true <;> simp [hc] at h
      · intro h
        obtain ⟨w, hw, -⟩ := h (k, v) (List.mem_cons_self _ _)
        rw [hat] at hw
        exact absurd hw (by simp)
    | some w =>
      have hc : tableContains tb k = true := tableContains_of_mem tb k w (tableAt_mem tb k w hat)
      simp only [hc, Bool.not_true, Bool.false_eq_true, if_false, List.mem_cons,
        forall_eq_or_imp, hat, Option.some.injEq, exists_eq_left']
      by_cases ho : opEq H v w = true
      · simp [ho, ih]
      · simp [ho]

theorem table_entries_transfer {α : Type} (R : α → α → Prop) (ta tb : List (CBString × α))
    (hna : (ta.map Prod.fst).Nodup) (hnb : (tb.map Prod.fst).Nodup)
    (hlen : ta.length = tb.length)
    (h : ∀ e ∈ ta, ∃ w, tableAt tb e.1 = some w ∧ R e.2 w) :
    ∀ e ∈ tb, ∃ v, tableAt ta e.1 = some v ∧ R v e.2 := by
  have hsub : ta.map Prod.fst ⊆ tb.map Prod.fst := by
    intro k hk
    obtain ⟨e, he, rfl⟩ := List.mem_map.mp hk
    obtain ⟨w, hw, -⟩ := h e he
    exact List.mem_map.mpr ⟨(e.1, w), tableAt_mem tb e.1 w hw, rfl⟩
  have hperm : List.Perm (ta.map Prod.fst) (tb.map Prod.fst) :=
    (List.subperm_of_subset hna hsub).perm_of_length_le (by simp [hlen])
  intro e he
  have hk : e.1 ∈ ta.map Prod.fst := hperm.mem_iff.mpr (List.mem_map_of_mem Prod.fst he)
  obtain ⟨e', he', hkk⟩ := List.mem_map.mp hk
  obtain ⟨w, hw, hr⟩ := h e' he'
  have h1 : tableAt tb e'.1 = some e.2 := by
    rw [hkk]
    exact tableAt_of_mem tb e.1 e.2 hnb he
  have hwe : w = e.2 := Option.some.inj (hw.symm.trans h1)
  refine ⟨e'.2, ?_, ?_⟩
  · rw [← hkk]
    exact tableAt_of_mem ta e'.1 e'.2 hna he'
  · rw [← hwe]
    exact hr

theorem tableEqLoop_comm (H : CBHeader) (ta tb : List (CBString × CBVar))
    (hna : (ta.map Prod.fst).Nodup) (hnb : (tb.map Prod.fst).Nodup)
    (hlen : ta.length = tb.length)
    (hsym : ∀ e ∈ ta, ∀ e' ∈ tb, opEq H e.2 e'.2 = opEq H e'.2 e.2) :
    tableEqLoop H ta tb = tableEqLoop H tb ta := by
  rw [Bool.eq_iff_iff, tableEqLoop_iff, tableEqLoop_iff]
  constructor
  · intro h e he
    obtain ⟨v, hv, hr⟩ :=
      table_entries_transfer (fun x y => opEq H x y = true) ta tb hna hnb hlen h e he
    refine ⟨v, hv, ?_⟩
    have hm := tableAt_mem ta e.1 v hv
    rw [← hsym (e.1, v) hm e he]
    exact hr
  · intro h e he
    obtain ⟨v, hv, hr⟩ :=
      table_entries_transfer (fun x y => opEq H x y = true) tb ta hnb hna hlen.symm h e he
    refine ⟨v, hv, ?_⟩
    have hm := tableAt_mem tb e.1 v hv
    rw [hsym e he (e.1, v) hm]
    exact hr

theorem opEq_comm_of_size (H : CBHeader) :
    ∀ (n : Nat) (a b : CBVar), sizeOf a ≤ n → a.distinctKeys = true → b.distinctKeys = true →
      opEq H a b = opEq H b a
  | 0, a, _, hn, _, _ => by
    cases a <;> simp at hn
  | n + 1, a, b, hn, hda, hdb => by
    have ih := opEq_comm_of_size H n
    by_cases hs : a.valueType = .Seq
    · cases a <;> first | (cases hs; done) | skip
      rename_i pa xs
      cases b <;> first | rfl | skip
      rename_i pb ys
      rw [opEq_Seq, opEq_Seq]
      by_cases hp : pa = pb
      · subst hp
        simp
      · have hp2 : ¬ pb = pa := fun h => hp h.symm
        by_cases hl : xs.length = ys.length
        · have hl2 : ys.length = xs.length := hl.symm
          rw [if_neg hp, if_neg hp2,
            if_neg (show ¬ (xs.length ≠ ys.length) from fun h => h hl),
            if_neg (show ¬ (ys.length ≠ xs.length) from fun h => h hl2)]
          apply seqEqLoop_comm H xs ys hl
          intro x hx y hy
          have hsz : sizeOf x < sizeOf (CBVar.Seq pa xs) := by
            have := List.sizeOf_lt_of_mem hx
            simp only [CBVar.Seq.sizeOf_spec]
            omega
          simp only [CBVar.distinctKeys, distinctKeysSeq_iff] at hda hdb
          exact ih x y (by omega) (hda x hx) (hdb y hy)
        · have hl2 : ¬ ys.length = xs.length := fun h => hl h.symm
          simp [hp, hp2, hl, hl2]
    · by_cases ht : a.valueType = .Table
      · cases a <;> first | (cases ht; done) | skip
        rename_i ha ta
        cases b <;> first | rfl | skip
        rename_i hb tb
        rw [opEq_Table, opEq_Table]
        by_cases hp : ha = hb
        · subst hp
          simp
        · have hp2 : ¬ hb = ha := fun h => hp h.symm
          by_cases hl : ta.length = tb.length
          · have hl2 : tb.length = ta.length := hl.symm
            rw [if_neg hp, if_neg hp2,
              if_neg (show ¬ (tableSize ta ≠ tableSize tb) from fun h => h hl),
              if_neg (show ¬ (tableSize tb ≠ tableSize ta) from fun h => h hl2)]
            simp only [CBVar.distinctKeys, Bool.and_eq_true, decide_eq_true_iff,
              distinctKeysTable_iff] at hda hdb
            apply tableEqLoop_comm H ta tb hda.1 hdb.1 hl
            intro e he e' he'
            have hsz : sizeOf e.2 < sizeOf (CBVar.Table ha ta) := by
              have h1 := List.sizeOf_lt_of_mem he
              have h2 : sizeOf e = 1 + sizeOf e.1 + sizeOf e.2 := by
                cases e
                rfl
              simp only [CBVar.Table.sizeOf_spec]
              omega
            exact ih e.2 e'.2 (by omega) (hda.2 e he) (hdb.2 e' he')
          · have hl2 : ¬ tb.length = ta.length := fun h => hl h.symm
            simp [hp, hp2, tableSize, hl, hl2]
      · exact opEq_comm_plain H a b hs ht

/-- C3: `==` is symmetric: for all values `a` and `b` of any kind, nested sequences and tables
included, in which the iterator of every table yields pairwise distinct keys, `a == b` and
`b == a` return the same boolean. -/
theorem opEq_symmetric (H : CBHeader) (a b : CBVar) (ha : a.distinctKeys = true)
    (hb : b.distinctKeys = true) : opEq H a b = opEq H b a :=
  opEq_comm_of_size H (sizeOf a) a b (Nat.le_refl _) ha hb

/-- C3, at two sequences that hold the same table with its entries in a different order. -/
theorem opEq_symmetric_witness :
    (CBVar.Seq 1 [.Int 1, .Table 10 [("x", .Int 1), ("y", .Int 2)]]).distinctKeys = true ∧
      (CBVar.Seq 2 [.Int 1, .Table 20 [("y", .Int 2), ("x", .Int 1)]]).distinctKeys = true ∧
      opEq exampleHeader (.Seq 1 [.Int 1, .Table 10 [("x", .Int 1), ("y", .Int 2)]])
          (.Seq 2 [.Int 1, .Table 20 [("y", .Int 2), ("x", .Int 1)]]) =
        opEq exampleHeader (.Seq 2 [.Int 1, .Table 20 [("y", .Int 2), ("x", .Int 1)]])
          (.Seq 1 [.Int 1, .Table 10 [("x", .Int 1), ("y", .Int 2)]]) :=
  ⟨by decide, by decide,
    opEq_symmetric exampleHeader (.Seq 1 [.Int 1, .Table 10 [("x", .Int 1), ("y", .Int 2)]])
      (.Seq 2 [.Int 1, .Table 20 [("y", .Int 2), ("x", .Int 1)]]) (by decide) (by decide)⟩

/-! ### Sequences -/

theorem seqEqLoop_nil (H : CBHeader) (ys : List CBVar) : seqEqLoop H [] ys = true := rfl

theorem seqAgree_cons (H : CBHeader) (x : CBVar) (xs : List CBVar) (y : CBVar)
    (ys : List CBVar) :
    SeqAgree H (x :: xs) (y :: ys) ↔ opEq H x y = true ∧ SeqAgree H xs ys := by
  constructor
  · intro h
    exact ⟨h 0 x y (by simp) (by simp),
      fun i u v hu hv => h (i + 1) u v (by simpa using hu) (by simpa using hv)⟩
  · rintro ⟨hxy, h⟩ i u v hu hv
    cases i with
    | zero =>
      simp only [List.getElem?_cons_zero, Option.some.injEq] at hu hv
      rw [← hu, ← hv]
      exact hxy
    | succ j =>
      simp only [List.getElem?_cons_succ] at hu hv
      exact h j u v hu hv

theorem seqAgree_nil_left (H : CBHeader) (ys : List CBVar) : SeqAgree H [] ys := by
  intro i x y hx
  simp at hx

theorem seqAgree_nil_right (H : CBHeader) (xs : List CBVar) : SeqAgree H xs [] := by
  intro i x y _ hy
  simp at hy

theorem seqEqLoop_iff (H : CBHeader) :
    ∀ (xs ys : List CBVar), xs.length = ys.length →
      (seqEqLoop H xs ys = true ↔ SeqAgree H xs ys)
  | [], [], _ => by simp [seqEqLoop_nil, seqAgree_nil_left]
  | [], _ :: _, hl => by simp at hl
  | _ :: _, [], hl => by simp at hl
  | x :: xs, y :: ys, hl => by
    have ih := seqEqLoop_iff H xs ys (by simpa using hl)
    rw [seqEqLoop_cons, seqAgree_cons, ← ih]
    by_cases hxy : opEq H x y = true
    · simp [hxy]
    · simp [hxy]

/-- C11: on `Seq` values `a == b` is true iff the two share the same element storage, or
they have equal lengths and `a[i] == b[i]` at every index `i`; two views over the same storage
are equal whatever their elements and lengths are. -/
theorem seq_eq_iff (H : CBHeader) (pa : Nat) (xs : List CBVar) (pb : Nat) (ys : List CBVar) :
    (opEq H (.Seq pa xs) (.Seq pb ys) = true ↔
        pa = pb ∨ (xs.length = ys.length ∧
          ∀ (i : Nat) (x y : CBVar), xs[i]? = some x → ys[i]? = some y → opEq H x y = true)) ∧
      opEq H (.Seq pa xs) (.Seq pa ys) = true := by
  refine ⟨?_, by simp⟩
  rw [opEq_Seq]
  by_cases hp : pa = pb
  · simp [hp]
  · by_cases hl : xs.length = ys.length
    · rw [if_neg hp, if_neg (show ¬ (xs.length ≠ ys.length) from fun h => h hl),
        seqEqLoop_iff H xs ys hl]
      simp [hp, hl, SeqAgree]
    · simp [hp, hl]

theorem seqLessLoop_cons (H : CBHeader) (x : CBVar) (xs : List CBVar) (y : CBVar)
    (ys : List CBVar) (final : Bool) :
    seqLessLoop H (x :: xs) (y :: ys) final =
      if opEq H x y = true then seqLessLoop H xs ys final else opLt H x y := by
  have h : seqLessLoop H (x :: xs) (y :: ys) final =
      (match cmpOf (opEq H x y) (opLt H x y) with
      | .error e => .error e
      | .ok c =>
        if c < 0 then .ok true
        else if c > 0 then .ok false
        else seqLessLoop H xs ys final) := rfl
  rw [h]
  cases h1 : opEq H x y
  · cases h2 : opLt H x y with
    | error e => simp [cmpOf]
    | ok r => cases r <;> simp [cmpOf]
  · simp [cmpOf]

theorem seqLessLoop_nil_left (H : CBHeader) (ys : List CBVar) (final : Bool) :
    seqLessLoop H [] ys final = .ok final := rfl

theorem seqLessLoop_nil_right (H : CBHeader) (xs : List CBVar) (final : Bool) :
    seqLessLoop H xs [] final = .ok final := by
  cases xs <;> rfl

theorem firstUnequal_cons_zero (H : CBHeader) (x : CBVar) (xs : List CBVar) (y : CBVar)
    (ys : List CBVar) (u v : CBVar) :
    FirstUnequal H (x :: xs) (y :: ys) 0 u v ↔ x = u ∧ y = v ∧ opEq H u v = false := by
  unfold FirstUnequal
  simp

theorem firstUnequal_cons_succ (H : CBHeader) (x : CBVar) (xs : List CBVar) (y : CBVar)
    (ys : List CBVar) (i : Nat) (u v : CBVar) :
    FirstUnequal H (x :: xs) (y :: ys) (i + 1) u v ↔
      opEq H x y = true ∧ FirstUnequal H xs ys i u v := by
  unfold FirstUnequal
  simp only [List.getElem?_cons_succ]
  constructor
  · rintro ⟨hu, hv, huv, hall⟩
    refine ⟨hall 0 x y (Nat.succ_pos i) (by simp) (by simp), hu, hv, huv, ?_⟩
    intro j a b hj ha hb
    exact hall (j + 1) a b (Nat.succ_lt_succ hj) (by simpa using ha) (by simpa using hb)
  · rintro ⟨hxy, hu, hv, huv, hall⟩
    refine ⟨hu, hv, huv, ?_⟩
    intro j a b hj ha hb
    cases j with
    | zero =>
      simp only [List.getElem?_cons_zero, Option.some.injEq] at ha hb
      rw [← ha, ← hb]
      exact hxy
    | succ k =>
      simp only [List.getElem?_cons_succ] at ha hb
      exact hall k a b (Nat.lt_of_succ_lt_succ hj) ha hb

theorem not_firstUnequal_nil_left (H : CBHeader) (ys : List CBVar) (i : Nat) (u v : CBVar) :
    ¬ FirstUnequal H [] ys i u v := by
  rintro ⟨hu, -⟩
  simp at hu

theorem not_firstUnequal_nil_right (H : CBHeader) (xs : List CBVar) (i : Nat) (u v : CBVar) :
    ¬ FirstUnequal H xs [] i u v := by
  rintro ⟨-, hv, -⟩
  simp at hv

theorem seqLessLoop_eq_ok_true_iff (H : CBHeader) (final : Bool) :
    ∀ (xs ys : List CBVar),
      seqLessLoop H xs ys final = .ok true ↔
        (∃ i x y, FirstUnequal H xs ys i x y ∧ opLt H x y = .ok true) ∨
          (SeqAgree H xs ys ∧ final = true)
  | [], ys => by
    rw [seqLessLoop_nil_left]
    constructor
    · intro h
      exact Or.inr ⟨seqAgree_nil_left H ys, Except.ok.inj h⟩
    · rintro (⟨i, x, y, h, -⟩ | ⟨-, h⟩)
      · exact absurd h (not_firstUnequal_nil_left H ys i x y)
      · rw [h]
  | x :: xs, [] => by
    rw [seqLessLoop_nil_right]
    constructor
    · intro h
      exact Or.inr ⟨seqAgree_nil_right H _, Except.ok.inj h⟩
    · rintro (⟨i, u, v, h, -⟩ | ⟨-, h⟩)
      · exact absurd h (not_firstUnequal_nil_right H _ i u v)
      · rw [h]
  | x :: xs, y :: ys => by
    have ih := seqLessLoop_eq_ok_true_iff H final xs ys
    rw [seqLessLoop_cons, seqAgree_cons]
    by_cases hxy : opEq H x y = true
    · rw [if_pos hxy, ih]
      constructor
      · rintro (⟨i, u, v, h, hlt⟩ | ⟨h, hf⟩)
        · exact Or.inl ⟨i + 1, u, v, (firstUnequal_cons_succ H x xs y ys i u v).mpr ⟨hxy, h⟩, hlt⟩
        · exact Or.inr ⟨⟨hxy, h⟩, hf⟩
      · rintro (⟨i, u, v, h, hlt⟩ | ⟨⟨-, h⟩, hf⟩)
        · cases i with
          | zero =>
            obtain ⟨h1, h2, h3⟩ := (firstUnequal_cons_zero H x xs y ys u v).mp h
            rw [← h1, ← h2, hxy] at h3
            exact absurd h3 (by simp)
          | succ j =>
            exact Or.inl ⟨j, u, v, ((firstUnequal_cons_succ H x xs y ys j u v).mp h).2, hlt⟩
        · exact Or.inr ⟨h, hf⟩
    · rw [if_neg hxy]
      have hxy' : opEq H x y = false := by simpa using hxy
      constructor
      · intro h
        exact Or.inl ⟨0, x, y, (firstUnequal_cons_zero H x xs y ys x y).mpr ⟨rfl, rfl, hxy'⟩, h⟩
      · rintro (⟨i, u, v, h, hlt⟩ | ⟨⟨h, -⟩, -⟩)
        · cases i with
          | zero =>
            obtain ⟨h1, h2, -⟩ := (firstUnequal_cons_zero H x xs y ys u v).mp h
            rw [h1, h2]
            exact hlt
          | succ j =>
            exact absurd ((firstUnequal_cons_succ H x xs y ys j u v).mp h).1 hxy
        · exact absurd h hxy

theorem seqLessLoop_total (H : CBHeader) (final : Bool) :
    ∀ (xs ys : List CBVar),
      (∀ (i : Nat) (x y : CBVar), xs[i]? = some x → ys[i]? = some y →
        ∃ r, opLt H x y = .ok r) →
        ∃ r, seqLessLoop H xs ys final = .ok r
  | [], ys, _ => ⟨final, seqLessLoop_nil_left H ys final⟩
  | x :: xs, [], _ => ⟨final, seqLessLoop_nil_right H _ final⟩
  | x :: xs, y :: ys, h => by
    rw [seqLessLoop_cons]
    by_cases hxy : opEq H x y = true
    · rw [if_pos hxy]
      exact seqLessLoop_total H final xs ys
        (fun i u v hu hv => h (i + 1) u v (by simpa using hu) (by simpa using hv))
    · rw [if_neg hxy]
      exact h 0 x y (by simp) (by simp)

theorem seqLessLoop_of_agree (H : CBHeader) (final : Bool) :
    ∀ (xs ys : List CBVar), SeqAgree H xs ys → seqLessLoop H xs ys final = .ok final
  | [], ys, _ => seqLessLoop_nil_left H ys final
  | x :: xs, [], _ => seqLessLoop_nil_right H _ final
  | x :: xs, y :: ys, h => by
    rw [seqAgree_cons] at h
    rw [seqLessLoop_cons, if_pos h.1]
    exact seqLessLoop_of_agree H final xs ys h.2

theorem seqAgree_append_self (H : CBHeader) (l : List CBVar) :
    ∀ (xs : List CBVar), (∀ x ∈ xs, opEq H x x = true) →
      SeqAgree H xs (xs ++ l) ∧ SeqAgree H (xs ++ l) xs
  | [], _ => ⟨seqAgree_nil_left H _, seqAgree_nil_right H _⟩
  | x :: xs, h => by
    have ih := seqAgree_append_self H l xs (fun y hy => h y (List.mem_cons_of_mem _ hy))
    have hx := h x (List.mem_cons_self _ _)
    rw [List.cons_append, seqAgree_cons, seqAgree_cons]
    exact ⟨⟨hx, ih.1⟩, ⟨hx, ih.2⟩⟩

/-- C12, as amended: for `Seq` values `a`, `b` whose element comparisons do not raise,
`a < b` returns true iff either `a[i] < b[i]` is true at the first index `i` (below both
lengths) where `a[i] == b[i]` is false, or there is no such index and `a` is strictly
shorter than `b`.  In particular, when `a` is a proper prefix of `b` and every element of `a`
is `==` to itself, `a < b` is true and `b < a` is false. -/
theorem seq_lt_iff (H : CBHeader) (pa : Nat) (xs : List CBVar) (pb : Nat) (ys : List CBVar)
    (hnr : ∀ (i : Nat) (x y : CBVar), xs[i]? = some x → ys[i]? = some y →
      ∃ r, opLt H x y = .ok r) :
    (∃ r, opLt H (.Seq pa xs) (.Seq pb ys) = .ok r ∧ (r = true ↔ SeqLessSpec H xs ys)) ∧
      ((∀ x ∈ xs, opEq H x x = true) → ∀ (c : CBVar) (cs : List CBVar),
        opLt H (.Seq pa xs) (.Seq pb (xs ++ c :: cs)) = .ok true ∧
          opLt H (.Seq pb (xs ++ c :: cs)) (.Seq pa xs) = .ok false) := by
  constructor
  · obtain ⟨r, hr⟩ := seqLessLoop_total H (decide (xs.length < ys.length)) xs ys hnr
    refine ⟨r, by rw [opLt_Seq, hr], ?_⟩
    have h := seqLessLoop_eq_ok_true_iff H (decide (xs.length < ys.length)) xs ys
    rw [hr] at h
    simp only [Except.ok.injEq, decide_eq_true_iff] at h
    exact h
  · intro hrefl c cs
    obtain ⟨hab, hba⟩ := seqAgree_append_self H (c :: cs) xs hrefl
    rw [opLt_Seq, opLt_Seq, seqLessLoop_of_agree H _ _ _ hab,
      seqLessLoop_of_agree H _ _ _ hba]
    have h1 : decide (xs.length < (xs ++ c :: cs).length) = true :=
      decide_eq_true (by simp)
    have h2 : decide ((xs ++ c :: cs).length < xs.length) = false :=
      decide_eq_false (by simp)
    rw [h1, h2]
    exact ⟨rfl, rfl⟩

/-- C12, as amended, at the sequences `[1, 2]` and `[1, 3, 0]`. -/
theorem seq_lt_iff_witness :
    (∀ (i : Nat) (x y : CBVar), [CBVar.Int 1, .Int 2][i]? = some x →
      [CBVar.Int 1, .Int 3, .Int 0][i]? = some y → ∃ r, opLt exampleHeader x y = .ok r) ∧
      ∃ r, opLt exampleHeader (.Seq 1 [.Int 1, .Int 2]) (.Seq 2 [.Int 1, .Int 3, .Int 0]) =
          .ok r ∧
        (r = true ↔ SeqLessSpec exampleHeader [.Int 1, .Int 2] [.Int 1, .Int 3, .Int 0]) := by
  have hnr : ∀ (i : Nat) (x y : CBVar), [CBVar.Int 1, .Int 2][i]? = some x →
      [CBVar.Int 1, .Int 3, .Int 0][i]? = some y → ∃ r, opLt exampleHeader x y = .ok r := by
    intro i x y hx hy
    match i with
    | 0 =>
      simp only [List.getElem?_cons_zero, Option.some.injEq] at hx hy
      rw [← hx, ← hy]
      exact ⟨_, rfl⟩
    | 1 =>
      simp only [List.getElem?_cons_succ, List.getElem?_cons_zero, Option.some.injEq] at hx hy
      rw [← hx, ← hy]
      exact ⟨_, rfl⟩
    | k + 2 => simp at hx
  exact ⟨hnr, (seq_lt_iff exampleHeader 1 [.Int 1, .Int 2] 2 [.Int 1, .Int 3, .Int 0] hnr).1⟩

/-- C12 as stated fails: `[NaN]` is a proper prefix of `[NaN, 1]` and no element comparison
raises, yet `[NaN] < [NaN, 1]` is false, because a NaN `Float` is not `==` to itself and is
not `<` itself. -/
theorem seq_prefix_not_less :
    [CBVar.Float .nan, CBVar.Int 1] = [CBVar.Float .nan] ++ [CBVar.Int 1] ∧
      opLt exampleHeader (.Float .nan) (.Float .nan) = .ok false ∧
      opLt exampleHeader (.Seq 1 [.Float .nan]) (.Seq 2 [.Float .nan, .Int 1]) = .ok false :=
  ⟨rfl, rfl, rfl⟩

/-- C13, as amended: `Seq[Int 1, Int 2] < Seq[Int 1, Int 2, Int 3]` yields true, and
`Seq[Int 1, Int 2, Int 3] < Seq[Int 1, Int 2]` yields false: the shorter sequence is the
lesser one on a common prefix. -/
theorem seq_12_lt_123 (H : CBHeader) (pa pb : Nat) :
    opLt H (.Seq pa [.Int 1, .Int 2]) (.Seq pb [.Int 1, .Int 2, .Int 3]) = .ok true ∧
      opLt H (.Seq pa [.Int 1, .Int 2, .Int 3]) (.Seq pb [.Int 1, .Int 2]) = .ok false :=
  ⟨rfl, rfl⟩

/-- C13 as stated fails: `Seq[Int 1, Int 2, Int 3] < Seq[Int 1, Int 2]` yields false. -/
theorem seq_123_lt_12_false :
    opLt exampleHeader (.Seq 1 [.Int 1, .Int 2, .Int 3]) (.Seq 2 [.Int 1, .Int 2]) =
      .ok false :=
  rfl

/-! ### Tables -/

/-- C14, as amended: for `Table` values with distinct handles, `a == b` is true iff the two
tables report the same size and every key that the iterator of `a` yields is contained in `b`
with a value that is `==` to the value of `a` for that key.  Consequently two tables that hold
the same entries, with distinct keys and with values that are `==` to themselves, compare
equal whatever the order of the entries. -/
theorem table_eq_iff (H : CBHeader) (ha : Nat) (ta : List (CBString × CBVar)) (hb : Nat)
    (tb : List (CBString × CBVar)) (hne : ha ≠ hb) :
    (opEq H (.Table ha ta) (.Table hb tb) = true ↔
        tableSize ta = tableSize tb ∧
          ∀ e ∈ ta, tableContains tb e.1 = true ∧
            ∃ w, tableAt tb e.1 = some w ∧ opEq H e.2 w = true) ∧
      (List.Perm ta tb → (ta.map Prod.fst).Nodup → (∀ e ∈ ta, opEq H e.2 e.2 = true) →
        opEq H (.Table ha ta) (.Table hb tb) = true) := by
  have hmain : opEq H (.Table ha ta) (.Table hb tb) = true ↔
      tableSize ta = tableSize tb ∧
        ∀ e ∈ ta, tableContains tb e.1 = true ∧
          ∃ w, tableAt tb e.1 = some w ∧ opEq H e.2 w = true := by
    rw [opEq_Table, if_neg hne]
    by_cases hs : tableSize ta = tableSize tb
    · rw [if_neg (show ¬ (tableSize ta ≠ tableSize tb) from fun h => h hs), tableEqLoop_iff]
      constructor
      · intro h
        refine ⟨hs, fun e he => ?_⟩
        obtain ⟨w, hw, hv⟩ := h e he
        exact ⟨tableContains_of_mem tb e.1 w (tableAt_mem tb e.1 w hw), w, hw, hv⟩
      · rintro ⟨-, h⟩ e he
        exact (h e he).2
    · simp [hs]
  refine ⟨hmain, ?_⟩
  intro hperm hnd hrefl
  rw [hmain]
  refine ⟨hperm.length_eq, fun e he => ?_⟩
  have hmem : (e.1, e.2) ∈ tb := hperm.mem_iff.mp he
  have hndb : (tb.map Prod.fst).Nodup := (hperm.map Prod.fst).nodup_iff.mp hnd
  exact ⟨tableContains_of_mem tb e.1 e.2 hmem, e.2, tableAt_of_mem tb e.1 e.2 hndb hmem,
    hrefl e he⟩

/-- C14, as amended, at two tables that hold the same two entries in a different order. -/
theorem table_eq_iff_witness :
    (1 : Nat) ≠ 2 ∧
      (opEq exampleHeader (.Table 1 [("x", .Int 1), ("y", .Int 2)])
          (.Table 2 [("y", .Int 2), ("x", .Int 1)]) = true ↔
        tableSize [(("x" : CBString), CBVar.Int 1), ("y", .Int 2)] =
            tableSize [(("y" : CBString), CBVar.Int 2), ("x", .Int 1)] ∧
          ∀ e ∈ [(("x" : CBString), CBVar.Int 1), ("y", .Int 2)],
            tableContains [(("y" : CBString), CBVar.Int 2), ("x", .Int 1)] e.1 = true ∧
              ∃ w, tableAt [(("y" : CBString), CBVar.Int 2), ("x", .Int 1)] e.1 = some w ∧
                opEq exampleHeader e.2 w = true) :=
  ⟨by decide,
    (table_eq_iff exampleHeader 1 [("x", .Int 1), ("y", .Int 2)] 2
      [("y", .Int 2), ("x", .Int 1)] (by decide)).1⟩

/-- C14 as stated fails: two tables with distinct handles that hold the same single entry,
the key "x" with a NaN `Float`, compare unequal, because a NaN `Float` is not `==` to
itself. -/
theorem table_same_entries_not_eq :
    opEq exampleHeader (.Table 1 [("x", .Float .nan)]) (.Table 2 [("x", .Float .nan)]) =
      false :=
  rfl

/-- C15: for `Table` values with distinct handles and different reported sizes, `a == b`,
`a < b` and `a <= b` all return false, whatever the entries are. -/
theorem table_size_mismatch (H : CBHeader) (ha : Nat) (ta : List (CBString × CBVar))
    (hb : Nat) (tb : List (CBString × CBVar)) (hne : ha ≠ hb)
    (hs : tableSize ta ≠ tableSize tb) :
    opEq H (.Table ha ta) (.Table hb tb) = false ∧
      opLt H (.Table ha ta) (.Table hb tb) = .ok false ∧
      opLe H (.Table ha ta) (.Table hb tb) = .ok false := by
  rw [opEq_Table, opLt_Table, opLe_Table, if_neg hne, if_neg hne, if_neg hne, if_pos hs,
    if_pos hs, if_pos hs]
  exact ⟨rfl, rfl, rfl⟩

/-- C15, at a table whose entries are a subset of the entries of the other, which also holds
an `Object`, a value that `<` cannot order. -/
theorem table_size_mismatch_witness :
    (1 : Nat) ≠ 2 ∧
      tableSize [(("x" : CBString), CBVar.Int 1)] ≠
        tableSize [(("x" : CBString), CBVar.Int 1), ("y", .Object 0 1 2)] ∧
      opEq exampleHeader (.Table 1 [("x", .Int 1)])
        (.Table 2 [("x", .Int 1), ("y", .Object 0 1 2)]) = false ∧
      opLt exampleHeader (.Table 1 [("x", .Int 1)])
        (.Table 2 [("x", .Int 1), ("y", .Object 0 1 2)]) = .ok false ∧
      opLe exampleHeader (.Table 1 [("x", .Int 1)])
        (.Table 2 [("x", .Int 1), ("y", .Object 0 1 2)]) = .ok false :=
  ⟨by decide, by decide,
    table_size_mismatch exampleHeader 1 [("x", .Int 1)] 2
      [("x", .Int 1), ("y", .Object 0 1 2)] (by decide) (by decide)⟩

/-! ### Images -/

theorem and_two_pow_eq_iff (n k : Nat) : n &&& 2 ^ k = 2 ^ k ↔ n.testBit k = true := by
  constructor
  · intro h
    have h2 := congrArg (fun m => Nat.testBit m k) h
    simp only [Nat.testBit_and, Nat.testBit_two_pow_self, Bool.and_true] at h2
    exact h2
  · intro h
    apply Nat.eq_of_testBit_eq
    intro i
    rw [Nat.testBit_and, Nat.testBit_two_pow]
    by_cases hki : k = i
    · subst hki
      simp [h]
    · simp [hki]

/-- C16: with the pixel byte-width of an image being 2 when its 16-bit-integer flag is set,
otherwise 4 when its 32-bit-float flag is set, otherwise 1: on `Image` values `a == b` is true
iff the pixel byte-widths, the channel counts, the widths and the heights are equal and the
pixel buffers are the same buffer or hold the same `channels * width * height * pixelByteWidth`
bytes; when the four dimensions do not agree the result is false whatever the buffers hold. -/
theorem image_eq_iff (H : CBHeader) (x y : CBImage) :
    (opEq H (.Image x) (.Image y) = true ↔
        ImageDimsAgree H x y ∧
          (x.data = y.data ∨ x.mem.take (imageBytes H x) = y.mem.take (imageBytes H x))) ∧
      (¬ ImageDimsAgree H x y → ∀ m1 m2 : List Nat,
        opEq H (.Image { x with mem := m1 }) (.Image { y with mem := m2 }) = false) ∧
      (∀ flags i j : Nat, H.CBIMAGE_FLAGS_16BITS_INT = 2 ^ i →
        H.CBIMAGE_FLAGS_32BITS_FLOAT = 2 ^ j →
          pixsize H flags =
            if flags.testBit i = true then 2 else if flags.testBit j = true then 4 else 1) := by
  have hmain : ∀ a b : CBImage, opEq H (.Image a) (.Image b) = true ↔
      ImageDimsAgree H a b ∧
        (a.data = b.data ∨ a.mem.take (imageBytes H a) = b.mem.take (imageBytes H a)) := by
    intro a b
    rw [opEq_Image]
    simp only [Bool.and_eq_true, Bool.or_eq_true, beq_iff_eq, memcmp_eq_zero_iff,
      ImageDimsAgree, imageBytes, and_assoc]
  refine ⟨hmain x y, ?_, ?_⟩
  · intro hd m1 m2
    rw [← Bool.not_eq_true, hmain]
    rintro ⟨h, -⟩
    exact hd h
  · intro flags i j hi hj
    unfold pixsize
    rw [hi, hj]
    simp only [and_two_pow_eq_iff]

/-! ### `CBTypeInfo` -/

namespace CBTypeInfo

theorem opEq_seq_some (va ta : Int) (la : List CBTypeInfo) (ka : Option (List CBString))
    (tya : Option (List CBTypeInfo)) (vb tb : Int) (lb : List CBTypeInfo)
    (kb : Option (List CBString)) (tyb : Option (List CBTypeInfo)) :
    opEq (mk .Seq va ta (some la) ka tya) (mk .Seq vb tb (some lb) kb tyb) =
      (if la.length ≠ lb.length then false else seqLoop la lb) :=
  rfl

theorem seqLoop_nil (lb : List CBTypeInfo) : seqLoop [] lb = true := rfl

theorem seqLoop_cons (x : CBTypeInfo) (xs lb : List CBTypeInfo) :
    seqLoop (x :: xs) lb = (if lb.any (fun y => opEq x y) then seqLoop xs lb else false) :=
  rfl

theorem seqLoop_iff (lb : List CBTypeInfo) :
    ∀ (la : List CBTypeInfo),
      seqLoop la lb = true ↔ ∀ x ∈ la, ∃ y ∈ lb, opEq x y = true
  | [] => by simp [seqLoop_nil]
  | x :: xs => by
    have ih := seqLoop_iff lb xs
    rw [seqLoop_cons]
    by_cases h : lb.any (fun y => opEq x y) = true
    · rw [if_pos h, ih]
      rw [List.any_eq_true] at h
      simp only [List.mem_cons, forall_eq_or_imp]
      exact ⟨fun h2 => ⟨h, h2⟩, fun h2 => h2.2⟩
    · rw [if_neg h]
      rw [List.any_eq_true] at h
      simp only [List.mem_cons, forall_eq_or_imp]
      constructor
      · intro hf
        exact absurd hf (by simp)
      · intro h2
        exact absurd h2.1 h

theorem tableLoop_nil (i : Nat) (ka : Option (List CBString)) (lb : List CBTypeInfo)
    (kb : Option (List CBString)) : tableLoop [] i ka lb kb = true := rfl

theorem tableLoop_cons (x : CBTypeInfo) (xs : List CBTypeInfo) (i : Nat)
    (ka : Option (List CBString)) (lb : List CBTypeInfo) (kb : Option (List CBString)) :
    tableLoop (x :: xs) i ka lb kb =
      (if (List.range lb.length).any (fun j =>
          match lb[j]? with
          | some y => opEq x y && keyMatch ka i kb j
          | none => false)
      then tableLoop xs (i + 1) ka lb kb else false) :=
  rfl

theorem tableInner_iff (x : CBTypeInfo) (i : Nat) (ka : Option (List CBString))
    (lb : List CBTypeInfo) (kb : Option (List CBString)) :
    (List.range lb.length).any (fun j =>
        match lb[j]? with
        | some y => opEq x y && keyMatch ka i kb j
        | none => false) = true ↔
      ∃ (j : Nat) (y : CBTypeInfo), lb[j]? = some y ∧ opEq x y = true ∧
        keyMatch ka i kb j = true := by
  rw [List.any_eq_true]
  constructor
  · rintro ⟨j, -, hj⟩
    cases hy : lb[j]? with
    | none => simp [hy] at hj
    | some y =>
      simp only [hy, Bool.and_eq_true] at hj
      exact ⟨j, y, hy, hj.1, hj.2⟩
  · rintro ⟨j, y, hy, h1, h2⟩
    have hlt : j < lb.length := (List.getElem?_eq_some_iff.mp hy).1
    refine ⟨j, List.mem_range.mpr hlt, ?_⟩
    simp [hy, h1, h2]

theorem tableLoop_iff (ka : Option (List CBString)) (lb : List CBTypeInfo)
    (kb : Option (List CBString)) :
    ∀ (la : List CBTypeInfo) (i : Nat),
      tableLoop la i ka lb kb = true ↔
        ∀ (n : Nat) (x : CBTypeInfo), la[n]? = some x →
          ∃ (j : Nat) (y : CBTypeInfo), lb[j]? = some y ∧ opEq x y = true ∧
            keyMatch ka (i + n) kb j = true
  | [], i => by simp [tableLoop_nil]
  | x :: xs, i => by
    have ih := tableLoop_iff ka lb kb xs (i + 1)
    rw [tableLoop_cons]
    by_cases h : (List.range lb.length).any (fun j =>
        match lb[j]? with
        | some y => opEq x y && keyMatch ka i kb j
        | none => false) = true
    · rw [if_pos h, ih]
      rw [tableInner_iff] at h
      constructor
      · intro h2 n u hu
        cases n with
        | zero =>
          simp only [List.getElem?_cons_zero, Option.some.injEq] at hu
          rw [← hu]
          exact h
        | succ m =>
          simp only [List.getElem?_cons_succ] at hu
          have := h2 m u hu
          rw [show i + (m + 1) = i + 1 + m by omega]
          exact this
      · intro h2 n u hu
        have := h2 (n + 1) u (by simpa using hu)
        rw [show i + (n + 1) = i + 1 + n by omega] at this
        exact this
    · rw [if_neg h]
      rw [tableInner_iff] at h
      constructor
      · intro hf
        exact absurd hf (by simp)
      · intro h2
        exact absurd (h2 0 x (by simp)) h

theorem wellFormedList_iff (l : List CBTypeInfo) :
    wellFormedList l = true ↔ ∀ x ∈ l, wellFormed x = true := by
  induction l with
  | nil => simp [wellFormedList]
  | cons x xs ih => simp [wellFormedList, ih]

theorem opEq_refl_of_size :
    ∀ (n : Nat) (a : CBTypeInfo), sizeOf a ≤ n → wellFormed a = true → opEq a a = true
  | 0, a, hn, _ => by
    cases a
    simp at hn
  | n + 1, mk bt v t s k ty, hn, hwf => by
    have ih := opEq_refl_of_size n
    cases bt <;> first | rfl | skip
    · -- Object
      simp [opEq, vendorId, typeId, basicType]
    · -- Enum
      simp [opEq, vendorId, typeId, basicType]
    · -- Seq
      cases s with
      | none => rfl
      | some la =>
        rw [opEq_seq_some, if_neg (by simp), seqLoop_iff]
        intro x hx
        have hwx : wellFormed x = true := (wellFormedList_iff la).mp hwf x hx
        have hsz : sizeOf x < sizeOf (mk .Seq v t (some la) k ty) := by
          have := List.sizeOf_lt_of_mem hx
          simp only [mk.sizeOf_spec, Option.some.sizeOf_spec]
          omega
        exact ⟨x, hx, ih x (by omega) hwx⟩
    · -- Table
      cases ty with
      | none => simp [opEq, basicType, tableTypes, tableKeys]
      | some la =>
        have hstep : opEq (mk .Table v t s k (some la)) (mk .Table v t s k (some la)) =
            tableLoop la 0 k la k := by
          simp [opEq, basicType, tableTypes, tableKeys]
        rw [hstep, tableLoop_iff]
        intro m x hx
        have hmem : x ∈ la := List.getElem?_mem hx
        have hwl : wellFormedList la = true := by
          have := hwf
          simp only [wellFormed, Bool.and_eq_true] at this
          exact this.2
        have hwx : wellFormed x = true := (wellFormedList_iff la).mp hwl x hmem
        have hsz : sizeOf x < sizeOf (mk .Table v t s k (some la)) := by
          have := List.sizeOf_lt_of_mem hmem
          simp only [mk.sizeOf_spec, Option.some.sizeOf_spec]
          omega
        refine ⟨m, x, hx, ih x (by omega) hwx, ?_⟩
        cases k with
        | none => rfl
        | some ks =>
          have hl : ks.length = la.length := by
            have := hwf
            simp only [wellFormed, Bool.and_eq_true, decide_eq_true_iff, len,
              Option.getD_some] at this
            exact this.1
          have hm : m < ks.length := by
            rw [hl]
            exact (List.getElem?_eq_some_iff.mp hx).1
          simp [keyMatch, List.getElem?_eq_getElem hm]

theorem opEq_refl (a : CBTypeInfo) (h : wellFormed a = true) : opEq a a = true :=
  opEq_refl_of_size (sizeOf a) a (Nat.le_refl _) h

end CBTypeInfo

namespace CBTypeInfo

theorem opEq_seq_iff (a b : CBTypeInfo) (la lb : List CBTypeInfo)
    (ha : a.basicType = .Seq) (hb : b.basicType = .Seq) (hsa : a.seqTypes = some la)
    (hsb : b.seqTypes = some lb) :
    opEq a b = true ↔ la.length = lb.length ∧ ∀ x ∈ la, ∃ y ∈ lb, opEq x y = true := by
  obtain ⟨bta, va, ta, sa, ka, tya⟩ := a
  obtain ⟨btb, vb, tb, sb, kb, tyb⟩ := b
  simp only [basicType, seqTypes] at ha hb hsa hsb
  subst ha hb hsa hsb
  rw [opEq_seq_some]
  by_cases hl : la.length = lb.length
  · rw [if_neg (show ¬ (la.length ≠ lb.length) from fun h => h hl), seqLoop_iff]
    exact ⟨fun h => ⟨hl, h⟩, fun h => h.2⟩
  · simp [hl]

/-- C17: for two `Seq` descriptors `a` and `b` with non-empty (hence non-null) element lists,
where the list of `b` is a permutation of the list of `a` and the element descriptors are
well formed, `a == b` is true. -/
theorem seq_perm_eq (a b : CBTypeInfo) (la lb : List CBTypeInfo)
    (ha : a.basicType = .Seq) (hb : b.basicType = .Seq) (hsa : a.seqTypes = some la)
    (hsb : b.seqTypes = some lb) (hp : List.Perm la lb) (hwf : wellFormedList la = true) :
    opEq a b = true := by
  rw [opEq_seq_iff a b la lb ha hb hsa hsb]
  refine ⟨hp.length_eq, fun x hx => ⟨x, hp.mem_iff.mp hx, ?_⟩⟩
  exact opEq_refl x ((wellFormedList_iff la).mp hwf x hx)

/-- C17, at the element lists `[Int, Seq [Float], String]` and `[Seq [Float], String, Int]`. -/
theorem seq_perm_eq_witness :
    (seqOf [basic .Int, seqOf [basic .Float], basic .String]).basicType = .Seq ∧
      (seqOf [seqOf [basic .Float], basic .String, basic .Int]).basicType = .Seq ∧
      List.Perm [basic .Int, seqOf [basic .Float], basic .String]
        [seqOf [basic .Float], basic .String, basic .Int] ∧
      wellFormedList [basic .Int, seqOf [basic .Float], basic .String] = true ∧
      opEq (seqOf [basic .Int, seqOf [basic .Float], basic .String])
        (seqOf [seqOf [basic .Float], basic .String, basic .Int]) = true :=
  have hp : List.Perm [basic .Int, seqOf [basic .Float], basic .String]
      [seqOf [basic .Float], basic .String, basic .Int] :=
    @List.perm_append_comm CBTypeInfo [basic .Int] [seqOf [basic .Float], basic .String]
  ⟨rfl, rfl, hp, by decide,
    seq_perm_eq (seqOf [basic .Int, seqOf [basic .Float], basic .String])
      (seqOf [seqOf [basic .Float], basic .String, basic .Int]) _ _ rfl rfl rfl rfl hp
      (by decide)⟩

/-- What the `Seq` case of `==` computes: for `Seq` descriptors `a`, `b` with non-null
element lists, `a == b` is true iff the two lists have the same length and every element of
`a` equals some element of `b`. -/
theorem seq_eq_iff_length_and_subset (a b : CBTypeInfo) (la lb : List CBTypeInfo)
    (ha : a.basicType = .Seq) (hb : b.basicType = .Seq) (hsa : a.seqTypes = some la)
    (hsb : b.seqTypes = some lb) :
    opEq a b = true ↔ la.length = lb.length ∧ ∀ x ∈ la, ∃ y ∈ lb, opEq x y = true :=
  opEq_seq_iff a b la lb ha hb hsa hsb

/-- The `Seq` case of `==` at the element lists `[Int, Int]` and `[Int, Float]`. -/
theorem seq_eq_iff_length_and_subset_witness :
    (seqOf [basic .Int, basic .Int]).basicType = .Seq ∧
      (seqOf [basic .Int, basic .Float]).basicType = .Seq ∧
      (opEq (seqOf [basic .Int, basic .Int]) (seqOf [basic .Int, basic .Float]) = true ↔
        [basic .Int, basic .Int].length = [basic .Int, basic .Float].length ∧
          ∀ x ∈ [basic .Int, basic .Int], ∃ y ∈ [basic .Int, basic .Float],
            opEq x y = true) :=
  ⟨rfl, rfl,
    seq_eq_iff_length_and_subset (seqOf [basic .Int, basic .Int])
      (seqOf [basic .Int, basic .Float]) _ _ rfl rfl rfl rfl⟩

/-- C18, what the code does when an element type is repeated: with the element lists
`[Int, Int]` for `a` and `[Int, Float]` for `b`, `a == b` is true although the element `Float`
of `b` equals no element of `a`, and `b == a` is false; and the hashes of the two descriptors
are equal only if `std::hash<int>` gives the same number for the tags `Int` and `Float`. -/
theorem seq_eq_not_set_equality :
    opEq (seqOf [basic .Int, basic .Int]) (seqOf [basic .Int, basic .Float]) = true ∧
      (¬ ∃ x ∈ [basic .Int, basic .Int], opEq (basic .Float) x = true) ∧
      opEq (seqOf [basic .Int, basic .Float]) (seqOf [basic .Int, basic .Int]) = false ∧
      ∀ E : StdHash,
        (hash E (seqOf [basic .Int, basic .Int]) = hash E (seqOf [basic .Int, basic .Float]) ↔
          E.hashInt (E.typeValue .Int) = E.hashInt (E.typeValue .Float)) := by
  refine ⟨by decide, ?_, by decide, ?_⟩
  · rintro ⟨x, hx, h⟩
    simp only [List.mem_cons, List.mem_singleton, List.not_mem_nil, or_false, or_self] at hx
    rw [hx] at h
    exact absurd h (by decide)
  · intro E
    have ha : hash E (seqOf [basic .Int, basic .Int]) =
        (E.hashInt (E.typeValue .Seq) ^^^ E.hashInt (E.typeValue .Int)) ^^^
          E.hashInt (E.typeValue .Int) := rfl
    have hb : hash E (seqOf [basic .Int, basic .Float]) =
        (E.hashInt (E.typeValue .Seq) ^^^ E.hashInt (E.typeValue .Int)) ^^^
          E.hashInt (E.typeValue .Float) := rfl
    rw [ha, hb]
    constructor
    · intro h
      exact Nat.xor_right_injective h
    · intro h
      rw [h]

theorem hashTypes_eq_foldl (E : StdHash) :
    ∀ (l : List CBTypeInfo) (res : Nat),
      hashTypes E l res = l.foldl (fun r x => r ^^^ hash E x) res
  | [], _ => rfl
  | x :: xs, res => by
    have h : hashTypes E (x :: xs) res = hashTypes E xs (res ^^^ hash E x) := rfl
    rw [h, hashTypes_eq_foldl E xs]
    rfl

theorem hashKeys_eq_foldl (E : StdHash) :
    ∀ (l : List CBString) (res : Nat),
      hashKeys E l res = l.foldl (fun r k => r ^^^ E.hashString k) res
  | [], _ => rfl
  | k :: ks, res => by
    rw [hashKeys, hashKeys_eq_foldl E ks]
    rfl

theorem xor_right_comm (z x y : Nat) : (z ^^^ x) ^^^ y = (z ^^^ y) ^^^ x := by
  rw [Nat.xor_assoc, Nat.xor_comm x y, ← Nat.xor_assoc]

theorem hashTypes_perm (E : StdHash) (la lb : List CBTypeInfo) (hp : List.Perm la lb)
    (res : Nat) : hashTypes E la res = hashTypes E lb res := by
  rw [hashTypes_eq_foldl, hashTypes_eq_foldl]
  exact hp.foldl_eq' (fun x _ y _ z => xor_right_comm z (hash E x) (hash E y)) res

theorem hashKeys_perm (E : StdHash) (la lb : List CBString) (hp : List.Perm la lb)
    (res : Nat) : hashKeys E la res = hashKeys E lb res := by
  rw [hashKeys_eq_foldl, hashKeys_eq_foldl]
  exact hp.foldl_eq' (fun x _ y _ z => xor_right_comm z (E.hashString x) (E.hashString y)) res

theorem hash_seq (E : StdHash) (v t : Int) (s : Option (List CBTypeInfo))
    (k : Option (List CBString)) (ty : Option (List CBTypeInfo)) :
    hash E (mk .Seq v t s k ty) = hashTypes E (s.getD []) (E.hashInt (E.typeValue .Seq)) := by
  cases s <;> rfl

theorem hash_table (E : StdHash) (v t : Int) (s : Option (List CBTypeInfo))
    (k : Option (List CBString)) (ty : Option (List CBTypeInfo)) :
    hash E (mk .Table v t s k ty) =
      hashTypes E (ty.getD [])
        (hashKeys E (k.getD []) (E.hashInt (E.typeValue .Table))) := by
  cases k <;> cases ty <;> rfl

/-- C19: the hash of a `CBTypeInfo` is invariant under reordering of container entries: two
`Seq` descriptors whose element lists are permutations of each other have the same hash, and
so have two `Table` descriptors whose type lists are permutations of each other and whose key
lists are permutations of each other. -/
theorem hash_perm_invariant (E : StdHash) :
    (∀ a b : CBTypeInfo, a.basicType = .Seq → b.basicType = .Seq →
        List.Perm (a.seqTypes.getD []) (b.seqTypes.getD []) → hash E a = hash E b) ∧
      (∀ a b : CBTypeInfo, a.basicType = .Table → b.basicType = .Table →
        List.Perm (a.tableTypes.getD []) (b.tableTypes.getD []) →
        List.Perm (a.tableKeys.getD []) (b.tableKeys.getD []) → hash E a = hash E b) := by
  constructor
  · rintro ⟨bta, va, ta, sa, ka, tya⟩ ⟨btb, vb, tb, sb, kb, tyb⟩ ha hb hp
    simp only [basicType, seqTypes] at ha hb hp
    subst ha hb
    rw [hash_seq, hash_seq]
    exact hashTypes_perm E _ _ hp _
  · rintro ⟨bta, va, ta, sa, ka, tya⟩ ⟨btb, vb, tb, sb, kb, tyb⟩ ha hb hpt hpk
    simp only [basicType, tableTypes, tableKeys] at ha hb hpt hpk
    subst ha hb
    rw [hash_table, hash_table, hashKeys_perm E _ _ hpk]
    exact hashTypes_perm E _ _ hpt _

end CBTypeInfo

/-! ### `CBExposedTypeInfo` -/

namespace CBExposedTypeInfo

/-- C20, what the code does: `operator==` compares the names, the `exposedType` fields and
the flags `isMutable`, `isProtected` and `global`, and never reads `isTableEntry`; two
bindings that differ only in `isTableEntry` compare equal. -/
theorem opEq_ignores_isTableEntry :
    (∀ a b : CBExposedTypeInfo, opEq a b = true ↔
        a.name = b.name ∧ CBTypeInfo.opEq a.exposedType b.exposedType = true ∧
          a.isMutable = b.isMutable ∧ a.isProtected = b.isProtected ∧ a.global = b.global) ∧
      opEq ⟨"x", CBTypeInfo.basic .Int, false, false, false, false⟩
        ⟨"x", CBTypeInfo.basic .Int, false, false, true, false⟩ = true := by
  refine ⟨?_, by decide⟩
  · intro a b
    unfold opEq CBTypeInfo.opNe
    by_cases h1 : a.name = b.name <;>
    by_cases h2 : CBTypeInfo.opEq a.exposedType b.exposedType = true <;>
    by_cases h3 : a.isMutable = b.isMutable <;>
    by_cases h4 : a.isProtected = b.isProtected <;>
    by_cases h5 : a.global = b.global <;>
    simp [h1, h2, h3, h4, h5]

end CBExposedTypeInfo

/-! ### Hash of `CBExposedTypeInfo` -/

namespace CBExposedTypeInfo

/-- C21, what the code does at two bindings that differ only in `isTableEntry`: `a == b` is
true, while their hashes are equal only if `std::hash<int>` gives the same number for 0 and
for 1; so `a == b` does not imply `hash(a) == hash(b)`. -/
theorem opEq_true_hash_differs (E : StdHash) :
    opEq ⟨"x", CBTypeInfo.basic .Int, false, false, false, false⟩
        ⟨"x", CBTypeInfo.basic .Int, false, false, true, false⟩ = true ∧
      (hash E ⟨"x", CBTypeInfo.basic .Int, false, false, false, false⟩ =
          hash E ⟨"x", CBTypeInfo.basic .Int, false, false, true, false⟩ ↔
        E.hashInt 0 = E.hashInt 1) := by
  refine ⟨by decide, ?_⟩
  simp only [hash, boolToInt, if_true, Bool.false_eq_true, if_false]
  constructor
  · intro h
    exact Nat.xor_right_injective (Nat.xor_left_injective h)
  · intro h
    rw [h]

end CBExposedTypeInfo

/-! ### The conversions of `Var` -/

/-- C22: extracting a `bool` raises a `CBException` iff the discriminant is not `Bool` and
otherwise returns the stored boolean; extracting an `int64_t` raises a `CBException` iff the
discriminant is not `Int` and otherwise returns the stored integer unchanged. -/
theorem cast_bool_int64 :
    (∀ v : CBVar, (Var.operator_bool v =
          .error (.CBException "Invalid variable casting! expected Bool") ↔
        v.valueType ≠ .Bool) ∧
      ((∃ e, Var.operator_bool v = .error e) ↔ v.valueType ≠ .Bool)) ∧
    (∀ b : Bool, Var.operator_bool (.Bool b) = .ok b) ∧
    (∀ v : CBVar, (Var.operator_int64_t v =
          .error (.CBException "Invalid variable casting! expected Int") ↔
        v.valueType ≠ .Int) ∧
      ((∃ e, Var.operator_int64_t v = .error e) ↔ v.valueType ≠ .Int)) ∧
    (∀ i : Int, Var.operator_int64_t (.Int i) = .ok i) := by
  refine ⟨?_, fun _ => rfl, ?_, fun _ => rfl⟩
  · intro v
    cases v <;> simp [Var.operator_bool, CBVar.valueType]
  · intro v
    cases v <;> simp [Var.operator_int64_t, CBVar.valueType]

/-- C23, as amended: extracting a `double` or a `float` raises a `CBException` iff the
discriminant is neither `Float` nor `Int`; a `Float` value yields its stored number (converted
to `float` by the `float` conversion) and an `Int` value yields its integer converted to the
floating point type. -/
theorem cast_float_double :
    (∀ v : CBVar, (Var.operator_double v =
          .error (.CBException "Invalid variable casting! expected Float") ↔
        v.valueType ≠ .Float ∧ v.valueType ≠ .Int) ∧
      ((∃ e, Var.operator_double v = .error e) ↔ v.valueType ≠ .Float ∧ v.valueType ≠ .Int) ∧
      (Var.operator_float v =
          .error (.CBException "Invalid variable casting! expected Float") ↔
        v.valueType ≠ .Float ∧ v.valueType ≠ .Int) ∧
      ((∃ e, Var.operator_float v = .error e) ↔ v.valueType ≠ .Float ∧ v.valueType ≠ .Int)) ∧
    (∀ x : CBFloat, Var.operator_double (.Float x) = .ok x ∧
      Var.operator_float (.Float x) = .ok (CBFloat.convert binary32 x)) ∧
    (∀ i : Int, Var.operator_double (.Int i) = .ok (CBFloat.ofInt binary64 i) ∧
      Var.operator_float (.Int i) = .ok (CBFloat.ofInt binary32 i)) := by
  refine ⟨?_, fun _ => ⟨rfl, rfl⟩, fun _ => ⟨rfl, rfl⟩⟩
  intro v
  cases v <;> simp [Var.operator_double, Var.operator_float, CBVar.valueType]

/-- C23 fails as stated: the value `Int 5`, whose discriminant is not `Float`, yields the
number 5 both as a `double` and as a `float`. -/
theorem cast_int_yields_number :
    (CBVar.Int 5).valueType ≠ .Float ∧
      Var.operator_double (.Int 5) = .ok (.fin false 5 0) ∧
      Var.operator_float (.Int 5) = .ok (.fin false 5 0) :=
  ⟨by decide, rfl, rfl⟩

/-! ### The chain builder -/

theorem Chain.foldl_block (bs : List Nat) :
    ∀ (c : Chain), bs.foldl Chain.block c = { c with _blocks := c._blocks ++ bs } := by
  induction bs with
  | nil => intro c; simp
  | cons b bs ih => intro c; rw [List.foldl_cons, ih]; simp [Chain.block]

theorem Chain.operator_CBVar_foldl (arr : Nat) (bs : List Nat) :
    ∀ (p : Nat) (acc : List CBVar),
      bs.foldl (fun (res : Nat × List CBVar) blk => (arr, res.2 ++ [CBVar.Block blk])) (p, acc) =
        (if bs = [] then p else arr, acc ++ bs.map CBVar.Block) := by
  induction bs with
  | nil => intro p acc; simp
  | cons b bs ih =>
    intro p acc
    rw [List.foldl_cons, ih]
    by_cases h : bs = [] <;> simp [h]

/-- C24: for a chain to which the blocks `bs` have been appended (by `block`, or by `let`,
which appends in the same way), the conversion to `CBVar` returns a `Seq` whose elements are
the `Block` values of `bs`, as many as `bs` and in the order of appending (its array is null
when there is no block, and the array of the pushes otherwise), and leaves the chain with no
blocks and with its name, loop flag and unsafe flag unchanged; a second conversion right after
returns the empty `Seq`. -/
theorem chain_materialize (nm : String) (lp us : Bool) (bs : List Nat) (arr arr2 : Nat) :
    (∀ (c : Chain) (blk : Nat), Chain.let_ c blk = Chain.block c blk) ∧
    (Chain.operator_CBVar (bs.foldl Chain.block ⟨nm, lp, us, []⟩) arr).1 =
        .Seq (if bs = [] then 0 else arr) (bs.map CBVar.Block) ∧
      (bs.map CBVar.Block).length = bs.length ∧
      (∀ (i : Nat) (blk : Nat), bs[i]? = some blk →
        (bs.map CBVar.Block)[i]? = some (CBVar.Block blk)) ∧
      (Chain.operator_CBVar (bs.foldl Chain.block ⟨nm, lp, us, []⟩) arr).2 =
        ⟨nm, lp, us, []⟩ ∧
      (Chain.operator_CBVar
        (Chain.operator_CBVar (bs.foldl Chain.block ⟨nm, lp, us, []⟩) arr).2 arr2).1 =
        .Seq 0 [] := by
  rw [Chain.foldl_block]
  refine ⟨fun _ _ => rfl, ?_, by simp, ?_, rfl, rfl⟩
  · simp only [Chain.operator_CBVar, List.nil_append]
    rw [Chain.operator_CBVar_foldl]
    simp
  · intro i blk h
    simp [h]

/-! ### `Color` is not ordered -/

/-- C25: the relation `<` on `Color` values is not transitive: for `a = (2, 0, 0, 0)`,
`b = (1, 1, 0, 0)` and `c = (2, 0, 0, 0)`, `a < b` and `b < c` are true and `a < c` is
false. -/
theorem color_lt_not_transitive (H : CBHeader) :
    ∃ a b c : CBColor, opLt H (.Color a) (.Color b) = .ok true ∧
      opLt H (.Color b) (.Color c) = .ok true ∧ opLt H (.Color a) (.Color c) = .ok false :=
  ⟨⟨2, 0, 0, 0⟩, ⟨1, 1, 0, 0⟩, ⟨2, 0, 0, 0⟩, by rw [opLt_Color]; rfl, by rw [opLt_Color]; rfl,
    by rw [opLt_Color]; rfl⟩

/-! ### The control codes of `None` -/

/-- C26: the values of `Var()`, `Var::Stop()`, `Var::Restart()`, `Var::Return()` and
`Var::Rebase()` have the discriminant `None` and carry the control codes `Continue`, `Stop`,
`Restart`, `Return` and `Rebase`; any two of them are `==`, and so are any two `None` values
whatever their control codes. -/
theorem control_values_eq (H : CBHeader) :
    ([Var.ctor, Var.Stop, Var.Restart, Var.Return, Var.Rebase].map CBVar.valueType =
        [.None, .None, .None, .None, .None]) ∧
      ([Var.ctor, Var.Stop, Var.Restart, Var.Return, Var.Rebase].map CBVar.chainState =
        [some .Continue, some .Stop, some .Restart, some .Return, some .Rebase]) ∧
      (∀ a ∈ [Var.ctor, Var.Stop, Var.Restart, Var.Return, Var.Rebase],
        ∀ b ∈ [Var.ctor, Var.Stop, Var.Restart, Var.Return, Var.Rebase], opEq H a b = true) ∧
      (∀ s t : CBChainState, opEq H (.None s) (.None t) = true) := by
  refine ⟨rfl, rfl, ?_, fun s t => opEq_None H s t⟩
  intro a ha b hb
  simp only [List.mem_cons, List.mem_singleton, List.not_mem_nil, or_false] at ha hb
  rcases ha with rfl | rfl | rfl | rfl | rfl <;> rcases hb with rfl | rfl | rfl | rfl | rfl <;>
    exact opEq_None H _ _

/-! ### Tables that share their handle -/

/-- C27: for two `Table` values with the same handle, whatever the entries of either are,
`a == b` is true and `a < b` and `a <= b` are both false. -/
theorem table_same_handle (H : CBHeader) (h : Nat) (ta tb : List (CBString × CBVar)) :
    opEq H (.Table h ta) (.Table h tb) = true ∧ opLt H (.Table h ta) (.Table h tb) = .ok false ∧
      opLe H (.Table h ta) (.Table h tb) = .ok false := by
  simp

/-! ### `Table` descriptors -/

namespace CBTypeInfo

theorem keyMatch_iff (ka : Option (List CBString)) (i : Nat) (kb : Option (List CBString))
    (j : Nat) (hi : ∀ ks, ka = some ks → i < ks.length) :
    keyMatch ka i kb j = true ↔ ∀ ks, ka = some ks → ks[i]? = (kb.getD [])[j]? := by
  cases ka with
  | none => simp [keyMatch]
  | some ks =>
    have hlt : i < ks.length := hi ks rfl
    simp only [keyMatch, List.getElem?_eq_getElem hlt, Option.some.injEq, forall_eq']
    cases h : (kb.getD [])[j]? with
    | none => simp
    | some k => simp

theorem opEq_table (va ta : Int) (sa : Option (List CBTypeInfo))
    (ka : Option (List CBString)) (tya : Option (List CBTypeInfo)) (vb tb : Int)
    (sb : Option (List CBTypeInfo)) (kb : Option (List CBString))
    (tyb : Option (List CBTypeInfo)) :
    opEq (mk .Table va ta sa ka tya) (mk .Table vb tb sb kb tyb) =
      (if len tya ≠ len tyb then false
      else if len ka ≠ len kb then false
      else tableLoop (tya.getD []) 0 ka (tyb.getD []) kb) := by
  cases tya with
  | none => simp [opEq, basicType, tableTypes, tableKeys, tableLoop_nil]
  | some la => simp [opEq, basicType, tableTypes, tableKeys]

/-- C28: for `Table` descriptors `a`, `b`, where the keys of `a`, when present, are as many
as its types: `a == b` is true iff the two have the same number of types and the same number
of keys and, for every index `i` of `a`, some index `j` of `b` has `types_a[i] == types_b[j]`
and, when `a` carries keys, the key of `a` at `i` equal to the key of `b` at `j`.  The search
for `i` goes over every `j`, so a slot with an equal type and another key does not end it. -/
theorem table_descriptor_eq_iff (va ta : Int) (sa : Option (List CBTypeInfo))
    (ka : Option (List CBString)) (tya : Option (List CBTypeInfo)) (vb tb : Int)
    (sb : Option (List CBTypeInfo)) (kb : Option (List CBString))
    (tyb : Option (List CBTypeInfo))
    (hk : ∀ ks, ka = some ks → ks.length = len tya) :
    opEq (mk .Table va ta sa ka tya) (mk .Table vb tb sb kb tyb) = true ↔
      len tya = len tyb ∧ len ka = len kb ∧
        ∀ (i : Nat) (x : CBTypeInfo), (tya.getD [])[i]? = some x →
          ∃ (j : Nat) (y : CBTypeInfo), (tyb.getD [])[j]? = some y ∧ opEq x y = true ∧
            ∀ ks, ka = some ks → ks[i]? = (kb.getD [])[j]? := by
  rw [opEq_table]
  by_cases h1 : len tya = len tyb
  · by_cases h2 : len ka = len kb
    · rw [if_neg (fun h => h h1), if_neg (fun h => h h2), tableLoop_iff]
      simp only [h1, h2, true_and, Nat.zero_add]
      have hi : ∀ (i : Nat) (x : CBTypeInfo), (tya.getD [])[i]? = some x →
          ∀ ks, ka = some ks → i < ks.length := by
        intro i x hx ks hks
        rw [hk ks hks]
        exact (List.getElem?_eq_some_iff.mp hx).1
      constructor
      · intro h i x hx
        obtain ⟨j, y, hy, hxy, hkm⟩ := h i x hx
        exact ⟨j, y, hy, hxy, (keyMatch_iff ka i kb j (hi i x hx)).mp hkm⟩
      · intro h i x hx
        obtain ⟨j, y, hy, hxy, hkm⟩ := h i x hx
        exact ⟨j, y, hy, hxy, (keyMatch_iff ka i kb j (hi i x hx)).mpr hkm⟩
    · simp [h1, h2]
  · simp [h1]

/-- C28 at two descriptors with the types `[Int, Int]` and the keys `["x", "y"]` and
`["y", "x"]`: they are `==`, although the first slot of `b` has an equal type and another key
than the first slot of `a`. -/
theorem table_descriptor_eq_iff_witness :
    (∀ ks, some ["x", "y"] = some ks → ks.length = len (some [basic .Int, basic .Int])) ∧
      opEq (mk .Table 0 0 none (some ["x", "y"]) (some [basic .Int, basic .Int]))
        (mk .Table 0 0 none (some ["y", "x"]) (some [basic .Int, basic .Int])) = true ∧
      (opEq (mk .Table 0 0 none (some ["x", "y"]) (some [basic .Int, basic .Int]))
          (mk .Table 0 0 none (some ["y", "x"]) (some [basic .Int, basic .Int])) = true ↔
        len (some [basic .Int, basic .Int]) = len (some [basic .Int, basic .Int]) ∧
          len (some ["x", "y"]) = len (some ["y", "x"]) ∧
          ∀ (i : Nat) (x : CBTypeInfo),
            ((some [basic .Int, basic .Int]).getD [])[i]? = some x →
            ∃ (j : Nat) (y : CBTypeInfo),
              ((some [basic .Int, basic .Int]).getD [])[j]? = some y ∧ opEq x y = true ∧
              ∀ ks, some ["x", "y"] = some ks → ks[i]? = ((some ["y", "x"]).getD [])[j]?) :=
  ⟨by intro ks h; cases h; rfl, by decide,
    table_descriptor_eq_iff 0 0 none (some ["x", "y"]) (some [basic .Int, basic .Int]) 0 0 none
      (some ["y", "x"]) (some [basic .Int, basic .Int]) (by intro ks h; cases h; rfl)⟩

end CBTypeInfo

/-! ### Failures of the order on sequences -/

theorem seqLessLoop_of_firstUnequal (H : CBHeader) (final : Bool) :
    ∀ (xs ys : List CBVar) (i : Nat) (u v : CBVar), FirstUnequal H xs ys i u v →
      seqLessLoop H xs ys final = opLt H u v
  | [], ys, i, u, v, h => absurd h (not_firstUnequal_nil_left H ys i u v)
  | x :: xs, [], i, u, v, h => absurd h (not_firstUnequal_nil_right H _ i u v)
  | x :: xs, y :: ys, 0, u, v, h => by
    obtain ⟨h1, h2, h3⟩ := (firstUnequal_cons_zero H x xs y ys u v).mp h
    subst h1 h2
    rw [seqLessLoop_cons, if_neg (by simp [h3])]
  | x :: xs, y :: ys, i + 1, u, v, h => by
    obtain ⟨h1, h2⟩ := (firstUnequal_cons_succ H x xs y ys i u v).mp h
    rw [seqLessLoop_cons, if_pos h1]
    exact seqLessLoop_of_firstUnequal H final xs ys i u v h2

theorem seqAgree_or_firstUnequal (H : CBHeader) :
    ∀ (xs ys : List CBVar), SeqAgree H xs ys ∨ ∃ i u v, FirstUnequal H xs ys i u v
  | [], ys => Or.inl (seqAgree_nil_left H ys)
  | x :: xs, [] => Or.inl (seqAgree_nil_right H _)
  | x :: xs, y :: ys => by
    by_cases hxy : opEq H x y = true
    · rcases seqAgree_or_firstUnequal H xs ys with h | ⟨i, u, v, h⟩
      · exact Or.inl ((seqAgree_cons H x xs y ys).mpr ⟨hxy, h⟩)
      · exact Or.inr ⟨i + 1, u, v, (firstUnequal_cons_succ H x xs y ys i u v).mpr ⟨hxy, h⟩⟩
    · exact Or.inr ⟨0, x, y,
        (firstUnequal_cons_zero H x xs y ys x y).mpr ⟨rfl, rfl, by simpa using hxy⟩⟩

/-- C29: for `Seq` values `a`, `b`, `a < b` raises iff there is an index `i` below both
lengths such that `a[j] == b[j]` for every `j < i`, `a[i] == b[i]` is false and `a[i] < b[i]`
raises; at such a first unequal index the result of `a < b` is the result of `a[i] < b[i]`,
whatever the elements after `i` are; and `Seq[Int 1] < Seq[Float 1.0]` raises the failure of
comparing an `Int` with a `Float`. -/
theorem seq_lt_raises_iff (H : CBHeader) (pa : Nat) (xs : List CBVar) (pb : Nat)
    (ys : List CBVar) :
    ((∃ e, opLt H (.Seq pa xs) (.Seq pb ys) = .error e) ↔
        ∃ (i : Nat) (x y : CBVar), FirstUnequal H xs ys i x y ∧ ∃ e, opLt H x y = .error e) ∧
      (∀ (i : Nat) (x y : CBVar), FirstUnequal H xs ys i x y →
        opLt H (.Seq pa xs) (.Seq pb ys) = opLt H x y) ∧
      opLt H (.Seq pa [.Int 1]) (.Seq pb [.Float (.fin false 1 0)]) =
        .error (.InvalidVarTypeError "Comparison < between two different value types") ∧
      opLt H (.Int 1) (.Float (.fin false 1 0)) =
        .error (.InvalidVarTypeError "Comparison < between two different value types") := by
  refine ⟨?_, ?_, rfl, rfl⟩
  · rw [opLt_Seq]
    constructor
    · rintro ⟨e, he⟩
      rcases seqAgree_or_firstUnequal H xs ys with h | ⟨i, u, v, h⟩
      · rw [seqLessLoop_of_agree H _ xs ys h] at he
        cases he
      · refine ⟨i, u, v, h, e, ?_⟩
        rw [← seqLessLoop_of_firstUnequal H _ xs ys i u v h]
        exact he
    · rintro ⟨i, u, v, h, e, he⟩
      exact ⟨e, by rw [seqLessLoop_of_firstUnequal H _ xs ys i u v h]; exact he⟩
  · intro i x y h
    rw [opLt_Seq]
    exact seqLessLoop_of_firstUnequal H _ xs ys i x y h

end chainblocks

/-! ### The plane generator -/

namespace gfx

namespace geom

theorem size_t_of_lt (T : IntTypes) (n : Nat) (h : n < 2 ^ T.sizeBits) : size_t T n = n :=
  Nat.mod_eq_of_lt h

theorem index_t_of_lt (T : IntTypes) (n : Nat) (h : n < 2 ^ T.indexBits) : index_t T n = n :=
  Nat.mod_eq_of_lt h

theorem index_t_le (T : IntTypes) (n : Nat) : index_t T n ≤ n :=
  Nat.mod_le n _

theorem foldl_vertices {V ι : Type} (f : ι → List V) :
    ∀ (l : List ι) (s : GeneratorBase V),
      l.foldl (fun s i => (⟨s.vertices ++ f i, s.indices⟩ : GeneratorBase V)) s =
        ⟨s.vertices ++ l.flatMap f, s.indices⟩
  | [], s => by simp
  | i :: l, s => by
    rw [List.foldl_cons, foldl_vertices f l]
    simp [List.flatMap_cons]

theorem foldl_indices {V ι : Type} (f : ι → List Nat) :
    ∀ (l : List ι) (s : GeneratorBase V),
      l.foldl (fun s i => (⟨s.vertices, s.indices ++ f i⟩ : GeneratorBase V)) s =
        ⟨s.vertices, s.indices ++ l.flatMap f⟩
  | [], s => by simp
  | i :: l, s => by
    rw [List.foldl_cons, foldl_indices f l]
    simp [List.flatMap_cons]

theorem length_flatMap_const {ι α : Type} (f : ι → List α) (k : Nat) :
    ∀ (l : List ι), (∀ i ∈ l, (f i).length = k) → (l.flatMap f).length = l.length * k
  | [], _ => by simp
  | i :: l, h => by
    rw [List.flatMap_cons, List.length_append, h i (List.mem_cons_self _ _),
      length_flatMap_const f k l (fun j hj => h j (List.mem_cons_of_mem _ hj)),
      List.length_cons]
    ring

theorem flatMap_congr_mem {ι α : Type} (f g : ι → List α) :
    ∀ (l : List ι), (∀ i ∈ l, f i = g i) → l.flatMap f = l.flatMap g
  | [], _ => rfl
  | i :: l, h => by
    rw [List.flatMap_cons, List.flatMap_cons, h i (List.mem_cons_self _ _),
      flatMap_congr_mem f g l (fun j hj => h j (List.mem_cons_of_mem _ hj))]

theorem forLoop_emplace {V : Type} (n : Nat) (f : Nat → V) (s : GeneratorBase V) :
    forLoop n (fun ix s => s.emplace_back (f ix)) s =
      ⟨s.vertices ++ (List.range n).flatMap (fun ix => [f ix]), s.indices⟩ :=
  foldl_vertices (fun ix => [f ix]) (List.range n) s

theorem forLoop_vertices {V : Type} (n : Nat) (F : Nat → List V) (s : GeneratorBase V) :
    forLoop n (fun i s => (⟨s.vertices ++ F i, s.indices⟩ : GeneratorBase V)) s =
      ⟨s.vertices ++ (List.range n).flatMap F, s.indices⟩ :=
  foldl_vertices F (List.range n) s

theorem forLoop_push6 {V : Type} (T : IntTypes) (n : Nat) (a b c d : Nat → Nat)
    (s : GeneratorBase V) :
    forLoop n (fun ix s =>
        GeneratorBase.push_back T (GeneratorBase.push_back T (GeneratorBase.push_back T
          (GeneratorBase.push_back T (GeneratorBase.push_back T
            (GeneratorBase.push_back T s (a ix)) (b ix)) (d ix)) (b ix)) (c ix)) (d ix)) s =
      ⟨s.vertices, s.indices ++
        (List.range n).flatMap (fun ix => [a ix, b ix, d ix, b ix, c ix, d ix].map (index_t T))⟩ := by
  have h := foldl_indices (fun ix => [a ix, b ix, d ix, b ix, c ix, d ix].map (index_t T))
    (List.range n) s
  rw [← h]
  unfold forLoop
  congr 1
  funext s ix
  simp [GeneratorBase.push_back]

theorem forLoop_indices {V : Type} (n : Nat) (F : Nat → List Nat) (s : GeneratorBase V) :
    forLoop n (fun i s => (⟨s.vertices, s.indices ++ F i⟩ : GeneratorBase V)) s =
      ⟨s.vertices, s.indices ++ (List.range n).flatMap F⟩ :=
  foldl_indices F (List.range n) s

/-- The state in which `PlaneGenerator::generate` leaves the two vectors: the vertices row
after row, and for each cell, row after row, its six indices. -/
theorem PlaneGenerator.generate_eq {V : Type} (T : IntTypes) (vertex : Nat → Nat → V)
    (g : PlaneGenerator V) :
    (PlaneGenerator.generate T vertex g).toGeneratorBase =
      ⟨(List.range (size_t T (g.heightSegments + 1))).flatMap (fun iy =>
          (List.range (size_t T (g.widthSegments + 1))).flatMap (fun ix => [vertex ix iy])),
        (List.range g.heightSegments).flatMap (fun iy =>
          (List.range g.widthSegments).flatMap (fun ix =>
            [size_t T (ix + size_t T (size_t T (g.widthSegments + 1) * iy)),
              size_t T (ix + size_t T (size_t T (g.widthSegments + 1) * size_t T (iy + 1))),
              size_t T (size_t T (ix + 1) + size_t T (size_t T (g.widthSegments + 1) * iy)),
              size_t T (ix + size_t T (size_t T (g.widthSegments + 1) * size_t T (iy + 1))),
              size_t T (size_t T (ix + 1) +
                size_t T (size_t T (g.widthSegments + 1) * size_t T (iy + 1))),
              size_t T (size_t T (ix + 1) +
                size_t T (size_t T (g.widthSegments + 1) * iy))].map (index_t T)))⟩ := by
  simp only [PlaneGenerator.generate, forLoop_emplace, forLoop_vertices, forLoop_push6,
    forLoop_indices, GeneratorBase.reset, List.nil_append]

theorem PlaneGenerator.cell_indices (T : IntTypes) (X Y ix iy : Nat)
    (h : (X + 1) * (Y + 1) < 2 ^ T.sizeBits) (hx : ix < X) (hy : iy < Y) :
    [size_t T (ix + size_t T (size_t T (X + 1) * iy)),
      size_t T (ix + size_t T (size_t T (X + 1) * size_t T (iy + 1))),
      size_t T (size_t T (ix + 1) + size_t T (size_t T (X + 1) * iy)),
      size_t T (ix + size_t T (size_t T (X + 1) * size_t T (iy + 1))),
      size_t T (size_t T (ix + 1) + size_t T (size_t T (X + 1) * size_t T (iy + 1))),
      size_t T (size_t T (ix + 1) + size_t T (size_t T (X + 1) * iy))] =
      cellTriangles X ix iy := by
  have e1 : (X + 1) * (iy + 1) = (X + 1) * iy + (X + 1) := by ring
  have e2 : (X + 1) * (Y + 1) = (X + 1) * Y + (X + 1) := by ring
  have k1 : (X + 1) * (iy + 1) ≤ (X + 1) * Y := Nat.mul_le_mul_left _ hy
  have k2 : Y ≤ (X + 1) * Y := Nat.le_mul_of_pos_left _ (Nat.succ_pos X)
  have hX1 : size_t T (X + 1) = X + 1 := size_t_of_lt T _ (by omega)
  have hy1 : size_t T (iy + 1) = iy + 1 := size_t_of_lt T _ (by omega)
  have hx1 : size_t T (ix + 1) = ix + 1 := size_t_of_lt T _ (by omega)
  have hp : size_t T ((X + 1) * iy) = (X + 1) * iy := size_t_of_lt T _ (by omega)
  have hq : size_t T ((X + 1) * (iy + 1)) = (X + 1) * (iy + 1) := size_t_of_lt T _ (by omega)
  have ha : size_t T (ix + (X + 1) * iy) = ix + (X + 1) * iy := size_t_of_lt T _ (by omega)
  have hb : size_t T (ix + (X + 1) * (iy + 1)) = ix + (X + 1) * (iy + 1) :=
    size_t_of_lt T _ (by omega)
  have hc : size_t T (ix + 1 + (X + 1) * (iy + 1)) = ix + 1 + (X + 1) * (iy + 1) :=
    size_t_of_lt T _ (by omega)
  have hd : size_t T (ix + 1 + (X + 1) * iy) = ix + 1 + (X + 1) * iy :=
    size_t_of_lt T _ (by omega)
  rw [hX1, hy1, hx1, hp, hq, ha, hb, hc, hd]
  rfl

theorem cellTriangles_lt (X Y ix iy : Nat) (hx : ix < X) (hy : iy < Y) :
    ∀ n ∈ cellTriangles X ix iy, n < (X + 1) * (Y + 1) := by
  have e1 : (X + 1) * (iy + 1) = (X + 1) * iy + (X + 1) := by ring
  have e2 : (X + 1) * (Y + 1) = (X + 1) * Y + (X + 1) := by ring
  have k1 : (X + 1) * (iy + 1) ≤ (X + 1) * Y := Nat.mul_le_mul_left _ hy
  intro n hn
  simp only [cellTriangles, List.mem_cons, List.mem_singleton, List.not_mem_nil,
    or_false] at hn
  rcases hn with rfl | rfl | rfl | rfl | rfl | rfl <;> omega

/-- C30, as amended: when the number `(X+1)*(Y+1)` of vertices fits the type `size_t`,
`PlaneGenerator::generate` with `widthSegments = X` and `heightSegments = Y` produces exactly
`(X+1)*(Y+1)` vertices, the vertex of `(ix, iy)` at place `ix + (X+1)*iy`, and exactly `6*X*Y`
indices; every index is less than the number of vertices; and the cells contribute, row after
row, each the two triangles `(a, b, d)` and `(b, c, d)` of its corner vertices
`a = ix + (X+1)*iy`, `b = ix + (X+1)*(iy+1)`, `c = ix+1 + (X+1)*(iy+1)`, `d = ix+1 + (X+1)*iy`,
converted to `index_t`, which changes no index when `index_t` can hold the number of
vertices. -/
theorem plane_generate {V : Type} (T : IntTypes) (vertex : Nat → Nat → V)
    (base : GeneratorBase V) (X Y : Nat) (h : (X + 1) * (Y + 1) < 2 ^ T.sizeBits) :
    (PlaneGenerator.generate T vertex ⟨base, X, Y⟩).vertices.length = (X + 1) * (Y + 1) ∧
      (PlaneGenerator.generate T vertex ⟨base, X, Y⟩).vertices =
        (List.range (Y + 1)).flatMap (fun iy =>
          (List.range (X + 1)).map (fun ix => vertex ix iy)) ∧
      (PlaneGenerator.generate T vertex ⟨base, X, Y⟩).indices.length = 6 * X * Y ∧
      (∀ n ∈ (PlaneGenerator.generate T vertex ⟨base, X, Y⟩).indices,
        n < (X + 1) * (Y + 1)) ∧
      (PlaneGenerator.generate T vertex ⟨base, X, Y⟩).indices =
        (List.range Y).flatMap (fun iy =>
          (List.range X).flatMap (fun ix => (cellTriangles X ix iy).map (index_t T))) ∧
      ((X + 1) * (Y + 1) ≤ 2 ^ T.indexBits →
        (PlaneGenerator.generate T vertex ⟨base, X, Y⟩).indices =
          (List.range Y).flatMap (fun iy =>
            (List.range X).flatMap (fun ix => cellTriangles X ix iy))) := by
  have e2 : (X + 1) * (Y + 1) = (X + 1) * Y + (X + 1) := by ring
  have e3 : (X + 1) * (Y + 1) = X * (Y + 1) + (Y + 1) := by ring
  have hX1 : size_t T (X + 1) = X + 1 := size_t_of_lt T _ (by omega)
  have hY1 : size_t T (Y + 1) = Y + 1 := size_t_of_lt T _ (by omega)
  have hv : (PlaneGenerator.generate T vertex ⟨base, X, Y⟩).vertices =
      (List.range (Y + 1)).flatMap (fun iy =>
        (List.range (X + 1)).map (fun ix => vertex ix iy)) := by
    have := congrArg GeneratorBase.vertices (PlaneGenerator.generate_eq T vertex ⟨base, X, Y⟩)
    simp only [hX1, hY1] at this
    rw [this]
    apply flatMap_congr_mem
    intro iy _
    induction List.range (X + 1) with
    | nil => rfl
    | cons a l ih => simp [List.flatMap_cons, ih]
  have hi : (PlaneGenerator.generate T vertex ⟨base, X, Y⟩).indices =
      (List.range Y).flatMap (fun iy =>
        (List.range X).flatMap (fun ix => (cellTriangles X ix iy).map (index_t T))) := by
    have := congrArg GeneratorBase.indices (PlaneGenerator.generate_eq T vertex ⟨base, X, Y⟩)
    rw [this]
    apply flatMap_congr_mem
    intro iy hy
    apply flatMap_congr_mem
    intro ix hx
    rw [PlaneGenerator.cell_indices T X Y ix iy h (List.mem_range.mp hx) (List.mem_range.mp hy)]
  have hlt : ∀ n ∈ (PlaneGenerator.generate T vertex ⟨base, X, Y⟩).indices,
      n < (X + 1) * (Y + 1) := by
    intro n hn
    rw [hi] at hn
    obtain ⟨iy, hy, hn⟩ := List.mem_flatMap.mp hn
    obtain ⟨ix, hx, hn⟩ := List.mem_flatMap.mp hn
    obtain ⟨m, hm, rfl⟩ := List.mem_map.mp hn
    exact Nat.lt_of_le_of_lt (index_t_le T m)
      (cellTriangles_lt X Y ix iy (List.mem_range.mp hx) (List.mem_range.mp hy) m hm)
  refine ⟨?_, hv, ?_, hlt, hi, ?_⟩
  · rw [hv, length_flatMap_const _ (X + 1) _ (fun iy _ => by simp), List.length_range]
    ring
  · have hrow : ∀ iy ∈ List.range Y,
        ((List.range X).flatMap (fun ix =>
          (cellTriangles X ix iy).map (index_t T))).length = X * 6 := by
      intro iy _
      rw [length_flatMap_const _ 6 _ (fun ix _ => by simp [cellTriangles]), List.length_range]
    rw [hi, length_flatMap_const _ (X * 6) _ hrow, List.length_range]
    ring
  · intro hidx
    rw [hi]
    apply flatMap_congr_mem
    intro iy hy
    apply flatMap_congr_mem
    intro ix hx
    have hb := cellTriangles_lt X Y ix iy (List.mem_range.mp hx) (List.mem_range.mp hy)
    calc (cellTriangles X ix iy).map (index_t T)
        = (cellTriangles X ix iy).map id :=
          List.map_congr_left (fun m hm => index_t_of_lt T m (by have := hb m hm; omega))
      _ = cellTriangles X ix iy := List.map_id _

/-- C30, as amended, on a plane of 2 by 1 segments, with `size_t` of 64 bits and `index_t` of 16 bits: 6
vertices and the 12 indices of the two cells. -/
theorem plane_generate_witness :
    (3 * 2 < 2 ^ 64) ∧
      (PlaneGenerator.generate ⟨64, 16⟩ (fun ix iy => (ix, iy)) ⟨⟨[], []⟩, 2, 1⟩).vertices =
        [(0, 0), (1, 0), (2, 0), (0, 1), (1, 1), (2, 1)] ∧
      (PlaneGenerator.generate ⟨64, 16⟩ (fun ix iy => (ix, iy)) ⟨⟨[], []⟩, 2, 1⟩).indices =
        [0, 3, 1, 3, 4, 1, 1, 4, 2, 4, 5, 2] ∧
      (PlaneGenerator.generate ⟨64, 16⟩ (fun ix iy => (ix, iy))
        ⟨⟨[], []⟩, 2, 1⟩).indices.length = 6 * 2 * 1 :=
  ⟨by decide, by decide, by decide,
    (plane_generate ⟨64, 16⟩ (fun ix iy => (ix, iy)) ⟨[], []⟩ 2 1 (by decide)).2.2.1⟩

theorem PlaneGenerator.generate_indices {V : Type} (T : IntTypes) (vertex : Nat → Nat → V)
    (base : GeneratorBase V) (X Y : Nat) (h : (X + 1) * (Y + 1) < 2 ^ T.sizeBits) :
    (PlaneGenerator.generate T vertex ⟨base, X, Y⟩).indices =
      (List.range Y).flatMap (fun iy =>
        (List.range X).flatMap (fun ix => (cellTriangles X ix iy).map (index_t T))) := by
  have := congrArg GeneratorBase.indices (PlaneGenerator.generate_eq T vertex ⟨base, X, Y⟩)
  rw [this]
  apply flatMap_congr_mem
  intro iy hy
  apply flatMap_congr_mem
  intro ix hx
  rw [PlaneGenerator.cell_indices T X Y ix iy h (List.mem_range.mp hx) (List.mem_range.mp hy)]

/-- C30 as stated fails.  With `size_t` of 64 bits and `index_t` of 16 bits, on a plane of 255
by 256 segments, which has 65792 vertices, the cells contribute their corner indices reduced
modulo `2^16`: the cell `(254, 255)` has the corners 65534, 65790, 65791 and 65535 and
contributes 254 for the corner 65790 and 255 for the corner 65791, and no index of the plane
is 65790.  With `widthSegments = 2^64 - 1` and `heightSegments = 0` the sum
`widthSegments + 1` is 0 in `size_t` and the plane has no vertex, where the claim counts
`2^64`. -/
theorem plane_index_truncated :
    (PlaneGenerator.generate ⟨64, 16⟩ (fun ix iy => (ix, iy)) ⟨⟨[], []⟩, 255, 256⟩).indices =
        (List.range 256).flatMap (fun iy =>
          (List.range 255).flatMap (fun ix =>
            (cellTriangles 255 ix iy).map (index_t ⟨64, 16⟩))) ∧
      cellTriangles 255 254 255 = [65534, 65790, 65535, 65790, 65791, 65535] ∧
      (cellTriangles 255 254 255).map (index_t ⟨64, 16⟩) =
        [65534, 254, 65535, 254, 255, 65535] ∧
      65790 ∉
        (PlaneGenerator.generate ⟨64, 16⟩ (fun ix iy => (ix, iy)) ⟨⟨[], []⟩, 255, 256⟩).indices ∧
      (PlaneGenerator.generate ⟨64, 16⟩ (fun ix iy => (ix, iy))
        ⟨⟨[], []⟩, 2 ^ 64 - 1, 0⟩).vertices = [] := by
  have hi := PlaneGenerator.generate_indices ⟨64, 16⟩ (fun ix iy => (ix, iy)) ⟨[], []⟩ 255 256
    (by decide)
  refine ⟨hi, by decide, by decide, ?_, by decide⟩
  rw [hi]
  intro hmem
  obtain ⟨iy, -, hmem⟩ := List.mem_flatMap.mp hmem
  obtain ⟨ix, -, hmem⟩ := List.mem_flatMap.mp hmem
  obtain ⟨m, -, hm⟩ := List.mem_map.mp hmem
  have hlt : index_t ⟨64, 16⟩ m < 2 ^ 16 := Nat.mod_lt _ (by decide)
  rw [hm] at hlt
  exact absurd hlt (by decide)

end geom

end gfx

/-! ### The cube generator -/

namespace gfx

namespace geom

theorem int_t_natCast (b n : Nat) (hb : 0 < b) (h : n < 2 ^ (b - 1)) : int_t b (n : Int) = n := by
  unfold int_t
  have hp : (2 : Int) ^ b = 2 * 2 ^ (b - 1) := by
    have : b = (b - 1) + 1 := by omega
    conv_lhs => rw [this, pow_succ]
    ring
  have hlt : ((n : Int)) < 2 ^ (b - 1) := by exact_mod_cast h
  have hpos : (0 : Int) < 2 ^ (b - 1) := by positivity
  rw [hp, Int.emod_eq_of_lt (by omega) (by omega)]
  ring

theorem size_t_of_int_natCast (T : IntTypes) (n : Nat) : size_t_of_int T (n : Int) = size_t T n := by
  unfold size_t_of_int size_t
  have : ((n : Int) % 2 ^ T.sizeBits) = ((n % 2 ^ T.sizeBits : Nat) : Int) := by
    push_cast
    rfl
  rw [this, Int.toNat_ofNat]

theorem foldlM_some {σ ι : Type} (body : σ → ι → Option σ) (g : σ → ι → σ) :
    ∀ (l : List ι) (s : σ), (∀ i ∈ l, ∀ s, body s i = some (g s i)) →
      l.foldlM body s = some (l.foldl g s)
  | [], s, _ => rfl
  | i :: l, s, h => by
    rw [List.foldlM_cons, h i (List.mem_cons_self _ _) s]
    exact foldlM_some body g l (g s i) (fun j hj => h j (List.mem_cons_of_mem _ hj))

theorem foldl_counted {V ι : Type} (T : IntTypes) (f : ι → V) :
    ∀ (l : List ι) (s : GeneratorBase V) (vc : Nat), vc + l.length < 2 ^ T.sizeBits →
      l.foldl (fun (st : GeneratorBase V × Nat) i =>
          (st.1.emplace_back (f i), size_t T (st.2 + 1))) (s, vc) =
        (⟨s.vertices ++ l.map f, s.indices⟩, vc + l.length)
  | [], s, vc, _ => by simp
  | i :: l, s, vc, h => by
    simp only [List.length_cons] at h
    rw [List.foldl_cons, size_t_of_lt T (vc + 1) (by omega),
      foldl_counted T f l _ (vc + 1) (by omega)]
    simp only [GeneratorBase.emplace_back, List.append_assoc, List.singleton_append,
      List.map_cons, List.length_cons]
    congr 1
    omega

theorem forLoopM_vertexRow {V : Type} (T : IntTypes) (f : Nat → V) (gx gy : Int)
    (hx : gx ≠ 0) (hy : gy ≠ 0) (n : Nat) (s : GeneratorBase V) (vc : Nat)
    (h : vc + n < 2 ^ T.sizeBits) :
    forLoopM n (fun ix (st : GeneratorBase V × Nat) =>
        if gx = 0 ∨ gy = 0 then none
        else some (st.1.emplace_back (f ix), size_t T (st.2 + 1))) (s, vc) =
      some (⟨s.vertices ++ (List.range n).map f, s.indices⟩, vc + n) := by
  unfold forLoopM
  rw [foldlM_some _ (fun (st : GeneratorBase V × Nat) i =>
      (st.1.emplace_back (f i), size_t T (st.2 + 1))) (List.range n) (s, vc)
      (fun i _ st => by simp [hx, hy]),
    foldl_counted T f (List.range n) s vc (by simpa using h), List.length_range]

theorem foldlM_vertexRows {V : Type} (T : IntTypes) (vertex : Nat → Nat → V) (gx gy : Int)
    (hx : gx ≠ 0) (hy : gy ≠ 0) (n : Nat) :
    ∀ (l : List Nat) (s : GeneratorBase V) (vc : Nat), vc + l.length * n < 2 ^ T.sizeBits →
      l.foldlM (fun (st : GeneratorBase V × Nat) iy =>
          forLoopM n (fun ix (st : GeneratorBase V × Nat) =>
            if gx = 0 ∨ gy = 0 then none
            else some (st.1.emplace_back (vertex ix iy), size_t T (st.2 + 1))) st) (s, vc) =
        some (⟨s.vertices ++ l.flatMap (fun iy => (List.range n).map (fun ix => vertex ix iy)),
          s.indices⟩, vc + l.length * n)
  | [], s, vc, _ => by simp
  | iy :: l, s, vc, h => by
    have e : (l.length + 1) * n = l.length * n + n := by ring
    simp only [List.length_cons, e] at h
    rw [List.foldlM_cons,
      forLoopM_vertexRow T (fun ix => vertex ix iy) gx gy hx hy n s vc (by omega)]
    simp only [Option.bind_eq_bind, Option.some_bind]
    rw [foldlM_vertexRows T vertex gx gy hx hy n l _ (vc + n) (by omega)]
    simp only [List.append_assoc, List.flatMap_cons, List.length_cons, e]
    congr 2
    omega

theorem forLoopM_vertexRows {V : Type} (T : IntTypes) (vertex : Nat → Nat → V) (gx gy : Int)
    (hx : gx ≠ 0) (hy : gy ≠ 0) (n m : Nat) (s : GeneratorBase V) (vc : Nat)
    (h : vc + m * n < 2 ^ T.sizeBits) :
    forLoopM m (fun iy (st : GeneratorBase V × Nat) =>
        forLoopM n (fun ix (st : GeneratorBase V × Nat) =>
          if gx = 0 ∨ gy = 0 then none
          else some (st.1.emplace_back (vertex ix iy), size_t T (st.2 + 1))) st) (s, vc) =
      some (⟨s.vertices ++
          (List.range m).flatMap (fun iy => (List.range n).map (fun ix => vertex ix iy)),
        s.indices⟩, vc + m * n) := by
  have := foldlM_vertexRows T vertex gx gy hx hy n (List.range m) s vc
    (by simpa using h)
  rw [List.length_range] at this
  exact this

theorem CubeGenerator.cube_cell_indices (T : IntTypes) (b off gx gy ix iy : Nat) (hb0 : 0 < b)
    (hb : (gx + 1) * (gy + 1) < 2 ^ (b - 1))
    (hs : off + (gx + 1) * (gy + 1) < 2 ^ T.sizeBits) (hx : ix < gx) (hy : iy < gy) :
    [size_t T (size_t T (off + size_t_of_int T (ix : Int)) +
        size_t_of_int T (int_t b (int_t b ((gx : Int) + 1) * (iy : Int)))),
      size_t T (size_t T (off + size_t_of_int T (ix : Int)) +
        size_t_of_int T (int_t b (int_t b ((gx : Int) + 1) * int_t b ((iy : Int) + 1)))),
      size_t T (size_t T (off + size_t_of_int T (int_t b ((ix : Int) + 1))) +
        size_t_of_int T (int_t b (int_t b ((gx : Int) + 1) * (iy : Int)))),
      size_t T (size_t T (off + size_t_of_int T (ix : Int)) +
        size_t_of_int T (int_t b (int_t b ((gx : Int) + 1) * int_t b ((iy : Int) + 1)))),
      size_t T (size_t T (off + size_t_of_int T (int_t b ((ix : Int) + 1))) +
        size_t_of_int T (int_t b (int_t b ((gx : Int) + 1) * int_t b ((iy : Int) + 1)))),
      size_t T (size_t T (off + size_t_of_int T (int_t b ((ix : Int) + 1))) +
        size_t_of_int T (int_t b (int_t b ((gx : Int) + 1) * (iy : Int))))] =
      (cellTriangles gx ix iy).map (fun n => off + n) := by
  have e1 : (gx + 1) * (iy + 1) = (gx + 1) * iy + (gx + 1) := by ring
  have e2 : (gx + 1) * (gy + 1) = (gx + 1) * gy + (gx + 1) := by ring
  have k1 : (gx + 1) * (iy + 1) ≤ (gx + 1) * gy := Nat.mul_le_mul_left _ hy
  have k2 : gy ≤ (gx + 1) * gy := Nat.le_mul_of_pos_left _ (Nat.succ_pos gx)
  have c1 : ((gx : Int) + 1) = ((gx + 1 : Nat) : Int) := by push_cast; rfl
  have c2 : ((iy : Int) + 1) = ((iy + 1 : Nat) : Int) := by push_cast; rfl
  have c3 : ((ix : Int) + 1) = ((ix + 1 : Nat) : Int) := by push_cast; rfl
  have c4 : (((gx + 1 : Nat) : Int) * (iy : Int)) = (((gx + 1) * iy : Nat) : Int) := by
    push_cast; rfl
  have c5 : (((gx + 1 : Nat) : Int) * ((iy + 1 : Nat) : Int)) =
      (((gx + 1) * (iy + 1) : Nat) : Int) := by
    push_cast; rfl
  rw [c1, c2, c3, int_t_natCast b (gx + 1) hb0 (by omega),
    int_t_natCast b (iy + 1) hb0 (by omega), int_t_natCast b (ix + 1) hb0 (by omega), c4, c5,
    int_t_natCast b ((gx + 1) * iy) hb0 (by omega),
    int_t_natCast b ((gx + 1) * (iy + 1)) hb0 (by omega)]
  simp only [size_t_of_int_natCast]
  rw [size_t_of_lt T ix (by omega), size_t_of_lt T (ix + 1) (by omega),
    size_t_of_lt T ((gx + 1) * iy) (by omega), size_t_of_lt T ((gx + 1) * (iy + 1)) (by omega),
    size_t_of_lt T (off + ix) (by omega), size_t_of_lt T (off + (ix + 1)) (by omega),
    size_t_of_lt T (off + ix + (gx + 1) * iy) (by omega),
    size_t_of_lt T (off + ix + (gx + 1) * (iy + 1)) (by omega),
    size_t_of_lt T (off + (ix + 1) + (gx + 1) * iy) (by omega),
    size_t_of_lt T (off + (ix + 1) + (gx + 1) * (iy + 1)) (by omega)]
  simp only [cellTriangles, List.map_cons, List.map_nil]
  have a1 : off + ix + (gx + 1) * iy = off + (ix + (gx + 1) * iy) := by omega
  have a2 : off + ix + (gx + 1) * (iy + 1) = off + (ix + (gx + 1) * (iy + 1)) := by omega
  have a3 : off + (ix + 1) + (gx + 1) * iy = off + (ix + 1 + (gx + 1) * iy) := by omega
  have a4 : off + (ix + 1) + (gx + 1) * (iy + 1) = off + (ix + 1 + (gx + 1) * (iy + 1)) := by
    omega
  rw [a1, a2, a3, a4]

theorem faceIndices_mem (off gx gy : Nat) :
    ∀ n ∈ faceIndices off gx gy, off ≤ n ∧ n < off + (gx + 1) * (gy + 1) := by
  intro n hn
  unfold faceIndices at hn
  obtain ⟨iy, hy, hn⟩ := List.mem_flatMap.mp hn
  obtain ⟨ix, hx, hn⟩ := List.mem_flatMap.mp hn
  obtain ⟨m, hm, rfl⟩ := List.mem_map.mp hn
  have := cellTriangles_lt gx gy ix iy (List.mem_range.mp hx) (List.mem_range.mp hy) m hm
  omega

theorem faceIndices_length (off gx gy : Nat) : (faceIndices off gx gy).length = 6 * gx * gy := by
  unfold faceIndices
  have hrow : ∀ iy ∈ List.range gy,
      ((List.range gx).flatMap (fun ix =>
        (cellTriangles gx ix iy).map (fun n => off + n))).length = gx * 6 := by
    intro iy _
    rw [length_flatMap_const _ 6 _ (fun ix _ => by simp [cellTriangles]), List.length_range]
  rw [length_flatMap_const _ (gx * 6) _ hrow, List.length_range]
  ring

theorem CubeGenerator.buildPlane_eq_mod {V : Type} (T : IntTypes) (b : Nat)
    (vertex : Nat → Nat → V) (gx gy : Nat) (s : GeneratorBase V) (off : Nat)
    (hx : 0 < gx) (hy : 0 < gy) (hb : (gx + 1) * (gy + 1) < 2 ^ (b - 1))
    (hs : off + (gx + 1) * (gy + 1) < 2 ^ T.sizeBits) :
    CubeGenerator.buildPlane T b vertex gx gy (s, off) =
      some (⟨s.vertices ++ (List.range (gy + 1)).flatMap (fun iy =>
          (List.range (gx + 1)).map (fun ix => vertex ix iy)),
        s.indices ++ (faceIndices off gx gy).map (index_t T)⟩,
        off + (gx + 1) * (gy + 1)) := by
  have hb0 : 0 < b := by
    rcases Nat.eq_zero_or_pos b with h0 | h0
    · subst h0
      have : 4 ≤ (gx + 1) * (gy + 1) :=
        Nat.mul_le_mul (show 2 ≤ gx + 1 by omega) (show 2 ≤ gy + 1 by omega)
      have h1 : (2 : Nat) ^ (0 - 1) = 1 := rfl
      rw [h1] at hb
      omega
    · exact h0
  have e2 : (gx + 1) * (gy + 1) = (gx + 1) * gy + (gx + 1) := by ring
  have e3 : (gx + 1) * (gy + 1) = (gy + 1) * (gx + 1) := by ring
  have k2 : gy ≤ (gx + 1) * gy := Nat.le_mul_of_pos_left _ (Nat.succ_pos gx)
  have c1 : ((gx : Int) + 1) = ((gx + 1 : Nat) : Int) := by push_cast; rfl
  have c2 : ((gy : Int) + 1) = ((gy + 1 : Nat) : Int) := by push_cast; rfl
  have g1 : (int_t b ((gx : Int) + 1)).toNat = gx + 1 := by
    rw [c1, int_t_natCast b (gx + 1) hb0 (by omega), Int.toNat_ofNat]
  have g2 : (int_t b ((gy : Int) + 1)).toNat = gy + 1 := by
    rw [c2, int_t_natCast b (gy + 1) hb0 (by omega), Int.toNat_ofNat]
  have hxz : (gx : Int) ≠ 0 := by exact_mod_cast (Nat.pos_iff_ne_zero.mp hx)
  have hyz : (gy : Int) ≠ 0 := by exact_mod_cast (Nat.pos_iff_ne_zero.mp hy)
  unfold CubeGenerator.buildPlane
  simp only [g1, g2, Int.toNat_ofNat]
  have hvc : 0 + (gy + 1) * (gx + 1) < 2 ^ T.sizeBits := by omega
  rw [forLoopM_vertexRows T vertex gx gy hxz hyz (gx + 1) (gy + 1) s 0 hvc]
  simp only [forLoop_push6, forLoop_indices, Nat.zero_add]
  rw [size_t_of_lt T (off + (gy + 1) * (gx + 1)) (by omega), ← e3]
  congr 3
  congr 1
  unfold faceIndices
  rw [List.map_flatMap]
  apply flatMap_congr_mem
  intro iy hiy
  rw [List.map_flatMap]
  apply flatMap_congr_mem
  intro ix hix
  rw [CubeGenerator.cube_cell_indices T b off gx gy ix iy hb0 hb hs (List.mem_range.mp hix)
    (List.mem_range.mp hiy)]

theorem faceVertices_length {V : Type} (f : Nat → Nat → V) (gx gy : Nat) :
    ((List.range (gy + 1)).flatMap (fun iy =>
      (List.range (gx + 1)).map (fun ix => f ix iy))).length = (gx + 1) * (gy + 1) := by
  rw [length_flatMap_const _ (gx + 1) _ (fun iy _ => by simp), List.length_range]
  ring

/-- The state in which `CubeGenerator::generate` leaves the two vectors, for segment counts
from 1 on and a number of vertices in the range of `int` and of `size_t`: the vertices face
after face, and the indices of the faces converted to `index_t`. -/
theorem CubeGenerator.cube_generate_eq {V : Type} (T : IntTypes) (b : Nat)
    (vertex : Nat → Nat → Nat → V) (base : GeneratorBase V) (w h d : Nat)
    (hw : 1 ≤ w) (hh : 1 ≤ h) (hd : 1 ≤ d)
    (hint : 2 * ((d + 1) * (h + 1) + (w + 1) * (d + 1) + (w + 1) * (h + 1)) < 2 ^ (b - 1))
    (hsz : 2 * ((d + 1) * (h + 1) + (w + 1) * (d + 1) + (w + 1) * (h + 1)) <
      2 ^ T.sizeBits) :
    CubeGenerator.generate T b vertex ⟨base, w, h, d⟩ =
      some ⟨⟨[(0, d, h), (1, d, h), (2, w, d), (3, w, d), (4, w, h), (5, w, h)].flatMap
          (fun f => (List.range (f.2.2 + 1)).flatMap (fun iy =>
            (List.range (f.2.1 + 1)).map (fun ix => vertex f.1 ix iy))),
        (cubeFaces w h d).flatMap (fun f =>
          (faceIndices f.1 f.2.1 f.2.2).map (index_t T))⟩, w, h, d⟩ := by
  have q1 : d < (d + 1) * (h + 1) := by
    have : (d + 1) * 1 ≤ (d + 1) * (h + 1) := Nat.mul_le_mul_left _ (by omega)
    omega
  have q2 : w < (w + 1) * (d + 1) := by
    have : (w + 1) * 1 ≤ (w + 1) * (d + 1) := Nat.mul_le_mul_left _ (by omega)
    omega
  have q3 : h < (w + 1) * (h + 1) := by
    have : 1 * (h + 1) ≤ (w + 1) * (h + 1) := Nat.mul_le_mul_right _ (by omega)
    omega
  have hb0 : 0 < b := by
    rcases Nat.eq_zero_or_pos b with h0 | h0
    · subst h0
      have h1 : (2 : Nat) ^ (0 - 1) = 1 := rfl
      rw [h1] at hint
      omega
    · exact h0
  unfold CubeGenerator.generate
  simp only [int_t_natCast b w hb0 (by omega), int_t_natCast b h hb0 (by omega),
    int_t_natCast b d hb0 (by omega)]
  rw [CubeGenerator.buildPlane_eq_mod T b (vertex 0) d h _ 0 hd hh (by omega) (by omega)]
  simp only [Nat.zero_add]
  rw [CubeGenerator.buildPlane_eq_mod T b (vertex 1) d h _ _ hd hh (by omega) (by omega)]
  simp only
  rw [CubeGenerator.buildPlane_eq_mod T b (vertex 2) w d _ _ hw hd (by omega) (by omega)]
  simp only
  rw [CubeGenerator.buildPlane_eq_mod T b (vertex 3) w d _ _ hw hd (by omega) (by omega)]
  simp only
  rw [CubeGenerator.buildPlane_eq_mod T b (vertex 4) w h _ _ hw hh (by omega) (by omega)]
  simp only
  rw [CubeGenerator.buildPlane_eq_mod T b (vertex 5) w h _ _ hw hh (by omega) (by omega)]
  simp only [GeneratorBase.reset, cubeFaces, List.flatMap_cons, List.flatMap_nil,
    List.nil_append, List.append_nil, List.append_assoc, Option.some.injEq]
  have o1 : (d + 1) * (h + 1) + (d + 1) * (h + 1) = 2 * ((d + 1) * (h + 1)) := by omega
  have o2 : 2 * ((d + 1) * (h + 1)) + (w + 1) * (d + 1) + (w + 1) * (d + 1) =
      2 * ((d + 1) * (h + 1)) + 2 * ((w + 1) * (d + 1)) := by omega
  rw [o1, o2]

theorem cubeFaces_range (w h d : Nat) :
    ∀ f ∈ cubeFaces w h d,
      (∀ n ∈ faceIndices f.1 f.2.1 f.2.2,
        f.1 ≤ n ∧ n < f.1 + (f.2.1 + 1) * (f.2.2 + 1)) ∧
      f.1 + (f.2.1 + 1) * (f.2.2 + 1) ≤
        2 * ((d + 1) * (h + 1) + (w + 1) * (d + 1) + (w + 1) * (h + 1)) := by
  intro f hf
  refine ⟨faceIndices_mem f.1 f.2.1 f.2.2, ?_⟩
  simp only [cubeFaces, List.mem_cons, List.mem_singleton, List.not_mem_nil, or_false] at hf
  rcases hf with rfl | rfl | rfl | rfl | rfl | rfl <;> simp only <;> omega

/-- C31, as amended: for segment counts `w, h, d >= 1` such that the number
`N = 2*((d+1)*(h+1) + (w+1)*(d+1) + (w+1)*(h+1))` of vertices is in the range of `int` and of
`size_t`, `CubeGenerator::generate` returns with `N` vertices, face after face, and
`12*(d*h + w*d + w*h)` indices, which are, face after face, the corner indices of the triangles
of the cells of the face, shifted by the offset of the first vertex of the face and converted
to `index_t`; every index is below `N`.  When `index_t` can hold `N`, the conversion changes
no index, and every index of a face lies in the vertex range
`[off, off + (gridX+1)*(gridY+1))` of the face, which ends at or below `N`. -/
theorem cube_generate {V : Type} (T : IntTypes) (b : Nat) (vertex : Nat → Nat → Nat → V)
    (base : GeneratorBase V) (w h d : Nat) (hw : 1 ≤ w) (hh : 1 ≤ h) (hd : 1 ≤ d)
    (hint : 2 * ((d + 1) * (h + 1) + (w + 1) * (d + 1) + (w + 1) * (h + 1)) < 2 ^ (b - 1))
    (hsz : 2 * ((d + 1) * (h + 1) + (w + 1) * (d + 1) + (w + 1) * (h + 1)) <
      2 ^ T.sizeBits) :
    ∃ r, CubeGenerator.generate T b vertex ⟨base, w, h, d⟩ = some r ∧
      r.vertices.length = 2 * ((d + 1) * (h + 1) + (w + 1) * (d + 1) + (w + 1) * (h + 1)) ∧
      r.vertices = [(0, d, h), (1, d, h), (2, w, d), (3, w, d), (4, w, h), (5, w, h)].flatMap
        (fun f => (List.range (f.2.2 + 1)).flatMap (fun iy =>
          (List.range (f.2.1 + 1)).map (fun ix => vertex f.1 ix iy))) ∧
      r.indices.length = 12 * (d * h + w * d + w * h) ∧
      r.indices = (cubeFaces w h d).flatMap (fun f =>
        (faceIndices f.1 f.2.1 f.2.2).map (index_t T)) ∧
      (∀ n ∈ r.indices,
        n < 2 * ((d + 1) * (h + 1) + (w + 1) * (d + 1) + (w + 1) * (h + 1))) ∧
      (2 * ((d + 1) * (h + 1) + (w + 1) * (d + 1) + (w + 1) * (h + 1)) ≤ 2 ^ T.indexBits →
        r.indices = (cubeFaces w h d).flatMap (fun f => faceIndices f.1 f.2.1 f.2.2) ∧
        ∀ f ∈ cubeFaces w h d,
          (∀ n ∈ (faceIndices f.1 f.2.1 f.2.2).map (index_t T),
            f.1 ≤ n ∧ n < f.1 + (f.2.1 + 1) * (f.2.2 + 1)) ∧
          f.1 + (f.2.1 + 1) * (f.2.2 + 1) ≤
            2 * ((d + 1) * (h + 1) + (w + 1) * (d + 1) + (w + 1) * (h + 1))) := by
  have hall := cubeFaces_range w h d
  have hmap : 2 * ((d + 1) * (h + 1) + (w + 1) * (d + 1) + (w + 1) * (h + 1)) ≤
      2 ^ T.indexBits → ∀ f ∈ cubeFaces w h d,
        (faceIndices f.1 f.2.1 f.2.2).map (index_t T) = faceIndices f.1 f.2.1 f.2.2 := by
    intro hidx f hf
    have hf2 := hall f hf
    calc (faceIndices f.1 f.2.1 f.2.2).map (index_t T)
        = (faceIndices f.1 f.2.1 f.2.2).map id :=
          List.map_congr_left (fun n hn => index_t_of_lt T n (by have := hf2.1 n hn; omega))
      _ = faceIndices f.1 f.2.1 f.2.2 := List.map_id _
  refine ⟨_, CubeGenerator.cube_generate_eq T b vertex base w h d hw hh hd hint hsz, ?_, rfl,
    ?_, rfl, ?_, ?_⟩
  · simp only [List.flatMap_cons, List.flatMap_nil, List.append_nil, List.length_append,
      faceVertices_length]
    ring
  · simp only [cubeFaces, List.flatMap_cons, List.flatMap_nil, List.append_nil,
      List.length_append, List.length_map, faceIndices_length]
    ring
  · intro n hn
    obtain ⟨f, hf, hn⟩ := List.mem_flatMap.mp hn
    obtain ⟨m, hm, rfl⟩ := List.mem_map.mp hn
    have h1 := (hall f hf).1 m hm
    have h2 := (hall f hf).2
    have h3 := index_t_le T m
    omega
  · intro hidx
    refine ⟨flatMap_congr_mem _ _ _ (fun f hf => hmap hidx f hf), ?_⟩
    intro f hf
    rw [hmap hidx f hf]
    exact hall f hf

/-- C31, as amended, on a cube of 1 by 1 by 1 segments, with `int` of 32 bits, `size_t` of 64
bits and `index_t` of 16 bits: 24 vertices and 36 indices. -/
theorem cube_generate_witness :
    (1 ≤ 1) ∧ (2 * ((1 + 1) * (1 + 1) + (1 + 1) * (1 + 1) + (1 + 1) * (1 + 1)) < 2 ^ (32 - 1)) ∧
      (2 * ((1 + 1) * (1 + 1) + (1 + 1) * (1 + 1) + (1 + 1) * (1 + 1)) < 2 ^ 64) ∧
      ∃ r, CubeGenerator.generate ⟨64, 16⟩ 32 (fun k ix iy => (k, ix, iy))
          ⟨⟨[], []⟩, 1, 1, 1⟩ = some r ∧
        r.vertices.length = 24 ∧ r.indices.length = 36 :=
  ⟨by decide, by decide, by decide,
    match cube_generate ⟨64, 16⟩ 32 (fun k ix iy => (k, ix, iy)) ⟨[], []⟩ 1 1 1
      (by decide) (by decide) (by decide) (by decide) (by decide) with
    | ⟨r, h1, h2, _, h3, _⟩ => ⟨r, h1, h2, h3⟩⟩

/-- C31 as stated fails.  With `int` of 32 bits, `size_t` of 64 bits and `index_t` of 16
bits, on a cube of 104 by 104 by 104 segments, which has 66150 vertices, the indices of the
faces are stored modulo `2^16`: the last face has the vertex range from 55125 to 66150, and
the index 66043 of its cell `(103, 103)` is stored as 507, which is not in that range.  With
`widthSegments = 2^32 - 1` the conversion of the count to `int` gives -1 and the cube with
`heightSegments = depthSegments = 1` has 8 vertices. -/
theorem cube_index_outside_face :
    (∃ r, CubeGenerator.generate ⟨64, 16⟩ 32 (fun k ix iy => (k, ix, iy))
        ⟨⟨[], []⟩, 104, 104, 104⟩ = some r ∧
      r.vertices.length = 66150 ∧
      r.indices = (cubeFaces 104 104 104).flatMap (fun f =>
        (faceIndices f.1 f.2.1 f.2.2).map (index_t ⟨64, 16⟩))) ∧
      (55125, 104, 104) ∈ cubeFaces 104 104 104 ∧
      66043 ∈ faceIndices 55125 104 104 ∧
      index_t ⟨64, 16⟩ 66043 = 507 ∧
      507 ∈ (faceIndices 55125 104 104).map (index_t ⟨64, 16⟩) ∧
      ¬ (55125 ≤ 507) ∧
      (CubeGenerator.generate ⟨64, 16⟩ 32 (fun k ix iy => (k, ix, iy))
        ⟨⟨[], []⟩, 2 ^ 32 - 1, 1, 1⟩).map (fun r => r.vertices.length) = some 8 := by
  have hmem : 66043 ∈ faceIndices 55125 104 104 := by
    unfold faceIndices
    refine List.mem_flatMap.mpr ⟨103, List.mem_range.mpr (by decide), ?_⟩
    refine List.mem_flatMap.mpr ⟨103, List.mem_range.mpr (by decide), ?_⟩
    decide
  refine ⟨⟨_, CubeGenerator.cube_generate_eq ⟨64, 16⟩ 32 (fun k ix iy => (k, ix, iy)) ⟨[], []⟩
      104 104 104 (by decide) (by decide) (by decide) (by decide) (by decide), ?_, rfl⟩,
    by decide, hmem, by decide, List.mem_map.mpr ⟨66043, hmem, by decide⟩, by decide,
    by decide⟩
  simp only [List.flatMap_cons, List.flatMap_nil, List.append_nil, List.length_append,
    faceVertices_length]

/-- With a segment count of zero the quotient `ix / gridX` of the texture coordinate has the
divisor zero, and `CubeGenerator::generate` has no defined result. -/
theorem cube_generate_zero_segments :
    CubeGenerator.generate ⟨64, 16⟩ 32 (fun k ix iy => (k, ix, iy)) ⟨⟨[], []⟩, 1, 0, 1⟩ =
      none :=
  rfl

end geom

end gfx

/-! ### The sphere generator -/

namespace gfx

namespace geom

open chainblocks

theorem index_t_of_int_natCast (T : IntTypes) (n : Nat) :
    index_t_of_int T (n : Int) = index_t T n := by
  unfold index_t_of_int index_t
  have : ((n : Int) % 2 ^ T.indexBits) = ((n % 2 ^ T.indexBits : Nat) : Int) := by
    push_cast
    rfl
  rw [this, Int.toNat_ofNat]

theorem sphere_row_foldl {V : Type} (T : IntTypes) (b : Nat) (hb0 : 0 < b) (f : Nat → V) :
    ∀ (l : List Nat) (s : GeneratorBase V) (k : Nat) (row : List Nat),
      k + l.length < 2 ^ (b - 1) →
      l.foldl (fun (st1 : GeneratorBase V × Int × List Nat) ix =>
          (st1.1.emplace_back (f ix), int_t b (st1.2.1 + 1),
            st1.2.2 ++ [index_t_of_int T st1.2.1])) (s, (k : Int), row) =
        (⟨s.vertices ++ l.map f, s.indices⟩, ((k + l.length : Nat) : Int),
          row ++ (List.range l.length).map (fun j => index_t T (k + j)))
  | [], s, k, row, _ => by simp
  | i :: l, s, k, row, h => by
    simp only [List.length_cons] at h
    have c1 : ((k : Int) + 1) = ((k + 1 : Nat) : Int) := by push_cast; rfl
    rw [List.foldl_cons]
    simp only [c1, int_t_natCast b (k + 1) hb0 (by omega), index_t_of_int_natCast]
    rw [sphere_row_foldl T b hb0 f l _ (k + 1) _ (by omega)]
    simp only [GeneratorBase.emplace_back, List.append_assoc, List.singleton_append,
      List.map_cons, List.length_cons, List.range_succ_eq_map, List.map_map, Nat.add_zero]
    refine Prod.ext ?_ (Prod.ext ?_ ?_)
    · rfl
    · simp only
      congr 1
      omega
    · simp only
      congr 2
      apply List.map_congr_left
      intro j _
      simp only [Function.comp]
      congr 1
      omega

theorem sphere_row_forLoop {V : Type} (T : IntTypes) (b : Nat) (hb0 : 0 < b) (f : Nat → V)
    (n : Nat) (s : GeneratorBase V) (k : Nat) (row : List Nat) (h : k + n < 2 ^ (b - 1)) :
    forLoop n (fun ix (st1 : GeneratorBase V × Int × List Nat) =>
        (st1.1.emplace_back (f ix), int_t b (st1.2.1 + 1),
          st1.2.2 ++ [index_t_of_int T st1.2.1])) (s, (k : Int), row) =
      (⟨s.vertices ++ (List.range n).map f, s.indices⟩, ((k + n : Nat) : Int),
        row ++ (List.range n).map (fun j => index_t T (k + j))) := by
  have := sphere_row_foldl T b hb0 f (List.range n) s k row (by simpa using h)
  rw [List.length_range] at this
  exact this

theorem sphere_rows_foldl {V : Type} (T : IntTypes) (b : Nat) (hb0 : 0 < b) (W : Nat)
    (F : Nat → Nat → V) :
    ∀ (l : List Nat) (s : GeneratorBase V) (k : Nat) (grid : List (List Nat)),
      k + l.length * (W + 1) < 2 ^ (b - 1) →
      l.foldl (fun (st : GeneratorBase V × Int × List (List Nat)) iy =>
          ((forLoop (W + 1) (fun ix (st1 : GeneratorBase V × Int × List Nat) =>
              (st1.1.emplace_back (F ix iy), int_t b (st1.2.1 + 1),
                st1.2.2 ++ [index_t_of_int T st1.2.1])) (st.1, st.2.1, [])).1,
            (forLoop (W + 1) (fun ix (st1 : GeneratorBase V × Int × List Nat) =>
              (st1.1.emplace_back (F ix iy), int_t b (st1.2.1 + 1),
                st1.2.2 ++ [index_t_of_int T st1.2.1])) (st.1, st.2.1, [])).2.1,
            st.2.2 ++ [(forLoop (W + 1) (fun ix (st1 : GeneratorBase V × Int × List Nat) =>
              (st1.1.emplace_back (F ix iy), int_t b (st1.2.1 + 1),
                st1.2.2 ++ [index_t_of_int T st1.2.1])) (st.1, st.2.1, [])).2.2]))
          (s, (k : Int), grid) =
        (⟨s.vertices ++ l.flatMap (fun iy => (List.range (W + 1)).map (fun ix => F ix iy)),
            s.indices⟩,
          ((k + l.length * (W + 1) : Nat) : Int),
          grid ++ (List.range l.length).map (fun j =>
            (List.range (W + 1)).map (fun i => index_t T (k + j * (W + 1) + i))))
  | [], s, k, grid, _ => by simp
  | iy :: l, s, k, grid, h => by
    have e : (l.length + 1) * (W + 1) = l.length * (W + 1) + (W + 1) := by ring
    simp only [List.length_cons, e] at h
    rw [List.foldl_cons]
    simp only [sphere_row_forLoop T b hb0 (fun ix => F ix iy) (W + 1) s k [] (by omega)]
    rw [sphere_rows_foldl T b hb0 W F l _ (k + (W + 1)) _ (by omega)]
    simp only [List.append_assoc, List.singleton_append, List.flatMap_cons, List.length_cons,
      List.range_succ_eq_map, List.map_cons, List.map_map, List.nil_append, Nat.zero_mul,
      Nat.add_zero, e]
    refine Prod.ext ?_ (Prod.ext ?_ ?_)
    · rfl
    · simp only
      congr 1
      omega
    · simp only
      congr 2
      apply List.map_congr_left
      intro j _
      simp only [Function.comp]
      have key : k + (W + 1) + j * (W + 1) = k + j.succ * (W + 1) := by
        have : j.succ * (W + 1) = j * (W + 1) + (W + 1) := Nat.succ_mul j (W + 1)
        omega
      rw [key]

theorem gridOf_getElem? (T : IntTypes) (W H iy : Nat) (h : iy ≤ H) :
    (SphereGenerator.gridOf T W H)[iy]? =
      some ((List.range (W + 1)).map (fun ix => index_t T (iy * (W + 1) + ix))) := by
  unfold SphereGenerator.gridOf
  rw [List.getElem?_map, List.getElem?_range (by omega)]
  rfl

theorem gridRow_getElem? (T : IntTypes) (W iy ix : Nat) (h : ix ≤ W) :
    ((List.range (W + 1)).map (fun ix => index_t T (iy * (W + 1) + ix)))[ix]? =
      some (index_t T (iy * (W + 1) + ix)) := by
  rw [List.getElem?_map, List.getElem?_range (by omega)]
  rfl

theorem sphere_cell_body {V : Type} (T : IntTypes) (W H ix iy : Nat) (c1 c2 : Prop)
    [Decidable c1] [Decidable c2] (s : GeneratorBase V)
    (hW : W + 1 < 2 ^ T.sizeBits) (hH : H + 1 < 2 ^ T.sizeBits) (hx : ix < W) (hy : iy < H) :
    (match (SphereGenerator.gridOf T W H)[iy]?,
        (SphereGenerator.gridOf T W H)[size_t T (iy + 1)]? with
      | some row0, some row1 =>
        match row0[size_t T (ix + 1)]?, row0[ix]?, row1[ix]?, row1[size_t T (ix + 1)]? with
        | some a, some b1, some c, some d =>
          some
            (if c2 then
              (((if c1 then ((s.push_back_index a).push_back_index b1).push_back_index d
                else s).push_back_index b1).push_back_index c).push_back_index d
            else if c1 then ((s.push_back_index a).push_back_index b1).push_back_index d
            else s)
        | _, _, _, _ => none
      | _, _ => none) =
      some ⟨s.vertices, s.indices ++
        SphereGenerator.cellIndices T W (decide c1) (decide c2) ix iy⟩ := by
  rw [size_t_of_lt T (iy + 1) (by omega), size_t_of_lt T (ix + 1) (by omega),
    gridOf_getElem? T W H iy (by omega), gridOf_getElem? T W H (iy + 1) (by omega)]
  simp only [gridRow_getElem? T W iy ix (by omega), gridRow_getElem? T W iy (ix + 1) (by omega),
    gridRow_getElem? T W (iy + 1) ix (by omega),
    gridRow_getElem? T W (iy + 1) (ix + 1) (by omega)]
  by_cases h1 : c1 <;> by_cases h2 : c2 <;>
    simp [h1, h2, GeneratorBase.push_back_index, SphereGenerator.cellIndices]

theorem sphere_rows_forLoop {V : Type} (T : IntTypes) (b : Nat) (hb0 : 0 < b) (W H : Nat)
    (F : Nat → Nat → V) (s : GeneratorBase V) (h : (H + 1) * (W + 1) < 2 ^ (b - 1)) :
    forLoop (H + 1) (fun iy (st : GeneratorBase V × Int × List (List Nat)) =>
        ((forLoop (W + 1) (fun ix (st1 : GeneratorBase V × Int × List Nat) =>
            (st1.1.emplace_back (F ix iy), int_t b (st1.2.1 + 1),
              st1.2.2 ++ [index_t_of_int T st1.2.1])) (st.1, st.2.1, [])).1,
          (forLoop (W + 1) (fun ix (st1 : GeneratorBase V × Int × List Nat) =>
            (st1.1.emplace_back (F ix iy), int_t b (st1.2.1 + 1),
              st1.2.2 ++ [index_t_of_int T st1.2.1])) (st.1, st.2.1, [])).2.1,
          st.2.2 ++ [(forLoop (W + 1) (fun ix (st1 : GeneratorBase V × Int × List Nat) =>
            (st1.1.emplace_back (F ix iy), int_t b (st1.2.1 + 1),
              st1.2.2 ++ [index_t_of_int T st1.2.1])) (st.1, st.2.1, [])).2.2]))
        (s, (0 : Int), []) =
      (⟨s.vertices ++
          (List.range (H + 1)).flatMap (fun iy => (List.range (W + 1)).map (fun ix => F ix iy)),
          s.indices⟩,
        (((H + 1) * (W + 1) : Nat) : Int), SphereGenerator.gridOf T W H) := by
  have := sphere_rows_foldl T b hb0 W F (List.range (H + 1)) s 0 []
    (by rw [List.length_range]; omega)
  simp only [List.length_range, Nat.zero_add, List.nil_append, Nat.cast_zero] at this
  exact this

theorem sphere_index_loops {V : Type} (T : IntTypes) (W H : Nat) (c1 c2 : Nat → Prop)
    [∀ iy, Decidable (c1 iy)] [∀ iy, Decidable (c2 iy)] (s0 : GeneratorBase V)
    (hW : W + 1 < 2 ^ T.sizeBits) (hH : H + 1 < 2 ^ T.sizeBits) :
    forLoopM H (fun iy s =>
        forLoopM W (fun ix (s : GeneratorBase V) =>
          match (SphereGenerator.gridOf T W H)[iy]?,
            (SphereGenerator.gridOf T W H)[size_t T (iy + 1)]? with
          | some row0, some row1 =>
            match row0[size_t T (ix + 1)]?, row0[ix]?, row1[ix]?,
              row1[size_t T (ix + 1)]? with
            | some a, some b1, some c, some d =>
              some
                (if c2 iy then
                  (((if c1 iy then
                      ((s.push_back_index a).push_back_index b1).push_back_index d
                    else s).push_back_index b1).push_back_index c).push_back_index d
                else if c1 iy then
                  ((s.push_back_index a).push_back_index b1).push_back_index d
                else s)
            | _, _, _, _ => none
          | _, _ => none) s) s0 =
      some ⟨s0.vertices, s0.indices ++ (List.range H).flatMap (fun iy =>
        (List.range W).flatMap (fun ix =>
          SphereGenerator.cellIndices T W (decide (c1 iy)) (decide (c2 iy)) ix iy))⟩ := by
  unfold forLoopM
  rw [foldlM_some _ (fun (s : GeneratorBase V) iy =>
      (⟨s.vertices, s.indices ++ (List.range W).flatMap (fun ix =>
        SphereGenerator.cellIndices T W (decide (c1 iy)) (decide (c2 iy)) ix iy)⟩ :
        GeneratorBase V)) (List.range H) s0 ?_]
  · rw [foldl_indices]
  · intro iy hiy s
    beta_reduce
    rw [foldlM_some _ (fun (s : GeneratorBase V) ix =>
        (⟨s.vertices, s.indices ++
          SphereGenerator.cellIndices T W (decide (c1 iy)) (decide (c2 iy)) ix iy⟩ :
          GeneratorBase V)) (List.range W) s ?_]
    · rw [foldl_indices]
    · intro ix hix s
      exact sphere_cell_body T W H ix iy (c1 iy) (c2 iy) s hW hH (List.mem_range.mp hix)
        (List.mem_range.mp hiy)

theorem cellIndices_length_dvd (T : IntTypes) (W : Nat) (first second : Bool) (ix iy : Nat) :
    3 ∣ (SphereGenerator.cellIndices T W first second ix iy).length := by
  cases first <;> cases second <;> simp [SphereGenerator.cellIndices]
  all_goals decide

theorem cellIndices_lt (T : IntTypes) (W H : Nat) (first second : Bool) (ix iy : Nat)
    (hx : ix < W) (hy : iy < H) :
    ∀ n ∈ SphereGenerator.cellIndices T W first second ix iy, n < (W + 1) * (H + 1) := by
  have e1 : (W + 1) * (H + 1) = H * (W + 1) + (W + 1) := by ring
  have e2 : (iy + 1) * (W + 1) = iy * (W + 1) + (W + 1) := by ring
  have k1 : (iy + 1) * (W + 1) ≤ H * (W + 1) := Nat.mul_le_mul_right _ hy
  have a := index_t_le T (iy * (W + 1) + (ix + 1))
  have b := index_t_le T (iy * (W + 1) + ix)
  have c := index_t_le T ((iy + 1) * (W + 1) + ix)
  have d := index_t_le T ((iy + 1) * (W + 1) + (ix + 1))
  intro n hn
  simp only [SphereGenerator.cellIndices, List.mem_append] at hn
  rcases hn with hn | hn
  · cases first
    · simp at hn
    · simp only [if_true, List.mem_cons, List.mem_singleton, List.not_mem_nil, or_false] at hn
      rcases hn with rfl | rfl | rfl <;> omega
  · cases second
    · simp at hn
    · simp only [if_true, List.mem_cons, List.mem_singleton, List.not_mem_nil, or_false] at hn
      rcases hn with rfl | rfl | rfl <;> omega

theorem dvd_length_flatMap {ι α : Type} (f : ι → List α) (k : Nat) :
    ∀ (l : List ι), (∀ i ∈ l, k ∣ (f i).length) → k ∣ (l.flatMap f).length
  | [], _ => by simp
  | i :: l, h => by
    rw [List.flatMap_cons, List.length_append]
    exact Nat.dvd_add (h i (List.mem_cons_self _ _))
      (dvd_length_flatMap f k l (fun j hj => h j (List.mem_cons_of_mem _ hj)))

theorem SphereGenerator.sphere_generate_eq {V : Type} (T : IntTypes) (b : Nat) (M : MathHeader)
    (vertex : Nat → Nat → CBFloat × CBFloat → V) (base : GeneratorBase V) (ws hs : Nat)
    (ts tl : CBFloat)
    (hint : (max 3 ws + 1) * (max 2 hs + 1) < 2 ^ (b - 1))
    (hsz : (max 3 ws + 1) * (max 2 hs + 1) < 2 ^ T.sizeBits) :
    SphereGenerator.generate T b M vertex ⟨base, ws, hs, ts, tl⟩ =
      some ⟨⟨(List.range (max 2 hs + 1)).flatMap (fun iy =>
          (List.range (max 3 ws + 1)).map (fun ix =>
            vertex ix iy (SphereGenerator.texCoord (max 3 ws) (max 2 hs) ix iy
              (SphereGenerator.uOffset M ts
                (CBFloat.fmin (CBFloat.fadd M.angle ts tl) M.pi) (max 3 ws) (max 2 hs) iy)))),
        (List.range (max 2 hs)).flatMap (fun iy =>
          (List.range (max 3 ws)).flatMap (fun ix =>
            SphereGenerator.cellIndices T (max 3 ws)
              (decide (iy ≠ 0 ∨ CBFloat.flt (CBFloat.ofInt M.angle 0) ts = true))
              (decide (iy ≠ max 2 hs - 1 ∨
                CBFloat.flt (CBFloat.fmin (CBFloat.fadd M.angle ts tl) M.pi) M.pi = true))
              ix iy))⟩, ws, hs, ts, tl⟩ := by
  have hW3 : 3 ≤ max 3 ws := Nat.le_max_left _ _
  have hH2 : 2 ≤ max 2 hs := Nat.le_max_left _ _
  simp only [SphereGenerator.generate, GeneratorBase.reset]
  generalize max 3 ws = W at *
  generalize max 2 hs = H at *
  have hb0 : 0 < b := by
    rcases Nat.eq_zero_or_pos b with h0 | h0
    · subst h0
      have h1 : (2 : Nat) ^ (0 - 1) = 1 := rfl
      have : 4 * 3 ≤ (W + 1) * (H + 1) :=
        Nat.mul_le_mul (show 4 ≤ W + 1 by omega) (show 3 ≤ H + 1 by omega)
      rw [h1] at hint
      omega
    · exact h0
  have e1 : (W + 1) * (H + 1) = (H + 1) * (W + 1) := by ring
  have e2 : (W + 1) * (H + 1) = W * (H + 1) + (H + 1) := by ring
  have e3 : (W + 1) * (H + 1) = (W + 1) * H + (W + 1) := by ring
  have hW : W + 1 < 2 ^ T.sizeBits := by omega
  have hH : H + 1 < 2 ^ T.sizeBits := by omega
  rw [sphere_rows_forLoop T b hb0 W H _ _ (by omega)]
  simp only
  rw [size_t_of_lt T (H - 1) (by omega)]
  rw [sphere_index_loops T W H
    (fun iy => iy ≠ 0 ∨ CBFloat.flt (CBFloat.ofInt M.angle 0) ts = true)
    (fun iy => iy ≠ H - 1 ∨
      CBFloat.flt (CBFloat.fmin (CBFloat.fadd M.angle ts tl) M.pi) M.pi = true) _ hW hH]
  simp only [List.nil_append]

/-- C32: when the number `(W+1)*(H+1)` of vertices, for the clamped segment counts
`W = max(3, widthSegments)` and `H = max(2, heightSegments)`, is in the range of `int` and of
`size_t`, `SphereGenerator::generate` returns, so every read of the grid is inside its range;
it produces exactly `(W+1)*(H+1)` vertices, the one of `(ix, iy)` at place `iy*(W+1) + ix`; the
number of indices is a multiple of 3; and every index is less than `(W+1)*(H+1)`. -/
theorem sphere_generate {V : Type} (T : IntTypes) (b : Nat) (M : MathHeader)
    (vertex : Nat → Nat → CBFloat × CBFloat → V) (base : GeneratorBase V) (ws hs : Nat)
    (ts tl : CBFloat)
    (hint : (max 3 ws + 1) * (max 2 hs + 1) < 2 ^ (b - 1))
    (hsz : (max 3 ws + 1) * (max 2 hs + 1) < 2 ^ T.sizeBits) :
    ∃ r, SphereGenerator.generate T b M vertex ⟨base, ws, hs, ts, tl⟩ = some r ∧
      r.vertices.length = (max 3 ws + 1) * (max 2 hs + 1) ∧
      r.vertices = (List.range (max 2 hs + 1)).flatMap (fun iy =>
        (List.range (max 3 ws + 1)).map (fun ix =>
          vertex ix iy (SphereGenerator.texCoord (max 3 ws) (max 2 hs) ix iy
            (SphereGenerator.uOffset M ts
              (CBFloat.fmin (CBFloat.fadd M.angle ts tl) M.pi) (max 3 ws) (max 2 hs) iy)))) ∧
      3 ∣ r.indices.length ∧
      (∀ n ∈ r.indices, n < (max 3 ws + 1) * (max 2 hs + 1)) := by
  refine ⟨_, SphereGenerator.sphere_generate_eq T b M vertex base ws hs ts tl hint hsz, ?_, rfl, ?_, ?_⟩
  · exact faceVertices_length _ (max 3 ws) (max 2 hs)
  · exact dvd_length_flatMap _ 3 _ (fun iy _ =>
      dvd_length_flatMap _ 3 _ (fun ix _ => cellIndices_length_dvd T _ _ _ ix iy))
  · intro n hn
    obtain ⟨iy, hy, hn⟩ := List.mem_flatMap.mp hn
    obtain ⟨ix, hx, hn⟩ := List.mem_flatMap.mp hn
    exact cellIndices_lt T (max 3 ws) (max 2 hs) _ _ ix iy (List.mem_range.mp hx)
      (List.mem_range.mp hy) n hn

/-- C32 on a sphere with segment counts 0 and 0, which are clamped to 3 and 2, with `int` of
32 bits, `size_t` of 64 bits and `index_t` of 16 bits, for `thetaStart = 0` and
`thetaLength = pi`: 12 vertices and 18 indices. -/
theorem sphere_generate_witness :
    ((max 3 0 + 1) * (max 2 0 + 1) < 2 ^ (32 - 1)) ∧
      ((max 3 0 + 1) * (max 2 0 + 1) < 2 ^ 64) ∧
      (∃ r, SphereGenerator.generate ⟨64, 16⟩ 32 exampleMath (fun ix iy _ => (ix, iy))
          ⟨⟨[], []⟩, 0, 0, .fin false 0 0, exampleMath.pi⟩ = some r ∧
        r.vertices.length = 12 ∧ 3 ∣ r.indices.length) ∧
      (SphereGenerator.generate ⟨64, 16⟩ 32 exampleMath (fun ix iy _ => (ix, iy))
          ⟨⟨[], []⟩, 0, 0, .fin false 0 0, exampleMath.pi⟩).map (fun r => r.indices) =
        some [0, 4, 5, 1, 5, 6, 2, 6, 7, 5, 4, 9, 6, 5, 10, 7, 6, 11] :=
  ⟨by decide, by decide,
    match sphere_generate ⟨64, 16⟩ 32 exampleMath (fun ix iy _ => (ix, iy)) ⟨[], []⟩ 0 0
      (.fin false 0 0) exampleMath.pi (by decide) (by decide) with
    | ⟨r, h1, h2, _, h3, _⟩ => ⟨r, h1, h2, h3⟩,
    by decide⟩

/-- C33, what the code does for `widthSegments = 3`, `heightSegments = 2`, `thetaStart = 0`
and `thetaLength = pi`, where `thetaStart == 0` and `thetaEnd == pi` hold: the variable
`uOffset` is an `int`, so the quotients `0.5 / 3` and `-0.5 / 3` are converted to 0 in the
first and in the last row; the u-coordinates of the vertices of the first row and of the last
row are the numbers `ix / 3`, which are 0, 11184811 * 2^-25, 11184811 * 2^-24 and 1 in
`float`, as in the row between them, and not these plus or minus `0.5 / 3`. -/
theorem sphere_pole_uOffset_zero :
    CBFloat.feq (.fin false 0 0) (CBFloat.ofInt exampleMath.angle 0) = true ∧
      CBFloat.feq
        (CBFloat.fmin (CBFloat.fadd exampleMath.angle (.fin false 0 0) exampleMath.pi)
          exampleMath.pi) exampleMath.pi = true ∧
      CBFloat.fdiv binary64 (.fin false 1 (-1)) (CBFloat.ofInt binary64 3) =
        .fin false 6004799503160661 (-55) ∧
      SphereGenerator.uOffset exampleMath (.fin false 0 0) exampleMath.pi 3 2 0 = 0 ∧
      SphereGenerator.uOffset exampleMath (.fin false 0 0) exampleMath.pi 3 2 2 = 0 ∧
      (SphereGenerator.generate ⟨64, 16⟩ 32 exampleMath (fun _ _ uv => uv.1)
          ⟨⟨[], []⟩, 3, 2, .fin false 0 0, exampleMath.pi⟩).map (fun r => r.vertices) =
        some [.fin false 0 0, .fin false 11184811 (-25), .fin false 11184811 (-24),
          .fin false 8388608 (-23),
          .fin false 0 0, .fin false 11184811 (-25), .fin false 11184811 (-24),
          .fin false 8388608 (-23),
          .fin false 0 0, .fin false 11184811 (-25), .fin false 11184811 (-24),
          .fin false 8388608 (-23)] := by
  refine ⟨by decide, by decide, by decide, by decide, by decide, by decide⟩

end geom

end gfx
